import Mathlib

/-!
Verification of the element-extraction and uniqueness-resolution core of the
AIGherkinGenerator repository (src/Utilities/utils.py, called from app.py).

The development shallowly embeds the Python code:
* Python values stored in element records are modelled by `JValue`
  (None, bool, int, str, list, dict);
* an element record (a Python dict) is an association list `Elem`;
* the BeautifulSoup document tree is modelled by `Node`, and the
  helper `Ctx` carries the parent/sibling context that BeautifulSoup
  provides through parent pointers;
* `get_nested_value`, `add_uniqueness_context` and
  `parse_html_for_elements` are translated function by function.
-/

/-- Model of a Python value as stored in an element record:
`null` is Python `None`, `obj` is a dict (insertion-ordered association
list, as Python dicts are), `list` a Python list. -/
inductive JValue where
  | null : JValue
  | bool (b : Bool) : JValue
  | num (n : Int) : JValue
  | str (s : String) : JValue
  | list (xs : List JValue) : JValue
  | obj (fields : List (String × JValue)) : JValue
deriving Repr

/-- An element record: a Python dict with string keys, in insertion order. -/
abbrev Elem := List (String × JValue)

mutual

/-- Structural (Python `==` on the modelled fragment) equality test. -/
def JValue.beq : JValue → JValue → Bool
  | .null, .null => true
  | .bool a, .bool b => a == b
  | .num a, .num b => a == b
  | .str a, .str b => a == b
  | .list xs, .list ys => beqList xs ys
  | .obj fs, .obj gs => beqFields fs gs
  | _, _ => false

def beqList : List JValue → List JValue → Bool
  | [], [] => true
  | x :: xs, y :: ys => JValue.beq x y && beqList xs ys
  | _, _ => false

def beqFields : List (String × JValue) → List (String × JValue) → Bool
  | [], [] => true
  | (k, v) :: fs, (l, w) :: gs => k == l && JValue.beq v w && beqFields fs gs
  | _, _ => false

end

mutual

def JValue.beq_iff_eq : ∀ a b : JValue, JValue.beq a b = true ↔ a = b
  | .null, .null => by simp [JValue.beq]
  | .bool a, .bool b => by simp [JValue.beq]
  | .num a, .num b => by simp [JValue.beq]
  | .str a, .str b => by simp [JValue.beq]
  | .list xs, .list ys => by
      simp only [JValue.beq, beqList_iff_eq xs ys, JValue.list.injEq]
  | .obj fs, .obj gs => by
      simp only [JValue.beq, beqFields_iff_eq fs gs, JValue.obj.injEq]
  | .null, .bool _ | .null, .num _ | .null, .str _ | .null, .list _ | .null, .obj _
  | .bool _, .null | .bool _, .num _ | .bool _, .str _ | .bool _, .list _ | .bool _, .obj _
  | .num _, .null | .num _, .bool _ | .num _, .str _ | .num _, .list _ | .num _, .obj _
  | .str _, .null | .str _, .bool _ | .str _, .num _ | .str _, .list _ | .str _, .obj _
  | .list _, .null | .list _, .bool _ | .list _, .num _ | .list _, .str _ | .list _, .obj _
  | .obj _, .null | .obj _, .bool _ | .obj _, .num _ | .obj _, .str _ | .obj _, .list _ => by
      simp [JValue.beq]

def beqList_iff_eq : ∀ xs ys : List JValue, beqList xs ys = true ↔ xs = ys
  | [], [] => by simp [beqList]
  | x :: xs, y :: ys => by
      simp [beqList, JValue.beq_iff_eq x y, beqList_iff_eq xs ys]
  | [], _ :: _ => by simp [beqList]
  | _ :: _, [] => by simp [beqList]

def beqFields_iff_eq :
    ∀ fs gs : List (String × JValue), beqFields fs gs = true ↔ fs = gs
  | [], [] => by simp [beqFields]
  | (k, v) :: fs, (l, w) :: gs => by
      simp [beqFields, JValue.beq_iff_eq v w, beqFields_iff_eq fs gs, and_assoc]
  | [], _ :: _ => by simp [beqFields]
  | _ :: _, [] => by simp [beqFields]

end

instance : DecidableEq JValue := fun a b =>
  decidable_of_iff (JValue.beq a b = true) (JValue.beq_iff_eq a b)

/-- Python truthiness on the modelled values. -/
def pyTruthy : JValue → Bool
  | .null => false
  | .bool b => b
  | .num n => n != 0
  | .str s => !s.isEmpty
  | .list xs => !xs.isEmpty
  | .obj fs => !fs.isEmpty

/-- Truthiness of an optional value (Python `None` is modelled by `none`). -/
def optTruthy : Option JValue → Bool
  | none => false
  | some v => pyTruthy v

/-- A single quote character, used when building the f-strings of the source. -/
def sQuote : String := String.singleton (Char.ofNat 39)

mutual

/-- Model of Python `repr` on the modelled values (enough for the
f-string interpolations the source performs). -/
def pyRepr : JValue → String
  | .null => "None"
  | .bool b => if b then "True" else "False"
  | .num n => toString n
  | .str s => sQuote ++ s ++ sQuote
  | .list xs => "[" ++ ", ".intercalate (pyReprList xs) ++ "]"
  | .obj fs => "\x7b" ++ ", ".intercalate (pyReprFields fs) ++ "\x7d"

def pyReprList : List JValue → List String
  | [] => []
  | x :: xs => pyRepr x :: pyReprList xs

def pyReprFields : List (String × JValue) → List String
  | [] => []
  | (k, v) :: fs => (sQuote ++ k ++ sQuote ++ ": " ++ pyRepr v) :: pyReprFields fs

end

/-- Model of Python `str` (as used by f-string interpolation). -/
def pyStr : JValue → String
  | .str s => s
  | v => pyRepr v

/-- Python `dict.get(k)` with the convention that a stored `None` is
indistinguishable from an absent key (both give `None`); `none` models
that `None`. -/
def dictGet (e : List (String × JValue)) (k : String) : Option JValue :=
  match e.lookup k with
  | some .null => none
  | some v => some v
  | none => none

/-- Python `d[k] = v`: replaces the value in place when the key is present,
appends at the end otherwise (insertion order). -/
def setField (e : Elem) (k : String) (v : JValue) : Elem :=
  if (e.lookup k).isSome then
    e.map (fun p => if p.1 = k then (k, v) else p)
  else e ++ [(k, v)]

/-- Python `d.pop(k)` restricted to its effect on the dict. -/
def eraseField (e : Elem) (k : String) : Elem :=
  e.filter (fun p => p.1 ≠ k)

/-- Python `" ".join(x)` on a list of values: defined only when every
member is a string (otherwise the source raises `TypeError`, which the
caller catches and turns into `None`). -/
def joinStrList (xs : List JValue) : Option String :=
  let strs := xs.filterMap (fun v => match v with | .str s => some s | _ => none)
  if strs.length = xs.length then some (" ".intercalate strs) else none

/-- Python `" ".join(v)`: joins a list of strings; iterating a string
yields its characters; iterating a dict yields its keys; any other
argument raises `TypeError` (modelled as `none`, caught by the source). -/
def pyJoinSpace : JValue → Option String
  | .str s => some (" ".intercalate (s.toList.map String.singleton))
  | .list xs => joinStrList xs
  | .obj fs => some (" ".intercalate (fs.map (·.1)))
  | _ => none

/-- Python `s.split(sep)` for a non-empty separator, structurally (the
fuel is the length of the string, which bounds the number of steps). -/
def pySplitGo (sep : List Char) : Nat → List Char → List Char → List (List Char)
  | 0, s, cur => [cur.reverse ++ s]
  | n + 1, s, cur =>
      match s with
      | [] => [cur.reverse]
      | c :: rest =>
          if sep.isPrefixOf (c :: rest) then
            cur.reverse :: pySplitGo sep n ((c :: rest).drop sep.length) []
          else pySplitGo sep n rest (c :: cur)

/-- Python `s.split(sep)`: non-overlapping left-to-right splitting. -/
def pySplit (s sep : String) : List String :=
  if sep = "" then [s]
  else (pySplitGo sep.toList s.toList.length s.toList []).map String.mk

/-- Python `s.strip()`: drop whitespace on both ends. -/
def pyStrip (s : String) : String :=
  String.mk (((s.toList.dropWhile Char.isWhitespace).reverse.dropWhile
    Char.isWhitespace).reverse)

/-- Python `s.lower()` on the ASCII range the source works with. -/
def pyLower (s : String) : String := String.mk (s.toList.map Char.toLower)

/-- Python `s.startswith(pre)`. -/
def pyStartsWith (s pre : String) : Bool := pre.toList.isPrefixOf s.toList

/-- Python `s.rstrip(c)` for a single character. -/
def pyRstrip (s : String) (c : Char) : String :=
  String.mk ((s.toList.reverse.dropWhile (· == c)).reverse)

/-! ## get_nested_value (utils.py lines 836-891) -/

/-- The standard-key loop of `get_nested_value`: walk a dotted key path
through nested dicts.  `current.get(key)` on a non-dict raises (caught:
`None`), an absent key or a stored `None` stops with `None`. -/
def traverseKeys : JValue → List String → Option JValue
  | v, [] => some v
  | .obj fs, k :: rest =>
      match dictGet fs k with
      | none => none
      | some v => traverseKeys v rest
  | _, _ :: _ => none

/-- Everything after the first "/" of the string: Python
`t.split("/", 1)[-1]`. -/
def afterFirstSlash (t : String) : String :=
  match pySplit t "/" with
  | [] => t
  | [x] => x
  | _ :: rest => String.intercalate "/" rest

/-- The href-derived context value (utils.py lines 863-872):
drop protocol and domain, trailing slashes and the query string. -/
def hrefDerive (s : String) : String :=
  let t := (pySplit s "//").getLastD s
  let t := afterFirstSlash t
  let t := pyRstrip t (Char.ofNat 47)
  (pySplit t "?").headD t

/-- `get_nested_value(data_dict, key_path)` (utils.py lines 836-891):
resolves the four special composite keys first, otherwise walks the
dotted path; a missing or unreachable value is `None` (here `none`). -/
def get_nested_value (e : Elem) (keyPath : String) : Option JValue :=
  if keyPath = "sibling_text" then
    -- next-sibling text, falling back (Python `or`) to previous
    match dictGet e "next_sibling_text" with
    | some v => if pyTruthy v then some v else dictGet e "prev_sibling_text"
    | none => dictGet e "prev_sibling_text"
  else if keyPath = "parent_classes" then
    match e.lookup "parent" with
    | some (.obj pf) =>
        if pf.isEmpty then none   -- falsy parent_info
        else
          match pf.lookup "classes" with
          | some v => if pyTruthy v then (pyJoinSpace v).map JValue.str else none
          | none => none
    | _ => none  -- absent, None, falsy, or non-dict (AttributeError caught)
  else if keyPath = "parent_description" then
    match e.lookup "parent" with
    | some (.obj pf) =>
        if pf.isEmpty then none
        else
          let desc := match pf.lookup "tag" with
                      | none => "element"
                      | some v => pyStr v
          match pf.lookup "id" with
          | some idv =>
              if pyTruthy idv then
                some (.str (desc ++ " with ID \"" ++ pyStr idv ++ "\""))
              else
                match pf.lookup "classes" with
                | some cv =>
                    if pyTruthy cv then
                      (pyJoinSpace cv).map
                        (fun j => JValue.str (desc ++ " with classes \"" ++ j ++ "\""))
                    else some (.str ("parent " ++ desc))
                | none => some (.str ("parent " ++ desc))
          | none =>
              match pf.lookup "classes" with
              | some cv =>
                  if pyTruthy cv then
                    (pyJoinSpace cv).map
                      (fun j => JValue.str (desc ++ " with classes \"" ++ j ++ "\""))
                  else some (.str ("parent " ++ desc))
              | none => some (.str ("parent " ++ desc))
    | _ => none
  else if keyPath = "href" then
    match e.lookup "href" with
    | some (.str s) => if s.isEmpty then none else some (.str (hrefDerive s))
    | _ => none  -- absent, None, falsy, or non-string (AttributeError caught)
  else
    match traverseKeys (.obj e) (pySplit keyPath ".") with
    | some v =>
        if keyPath = "classes" then
          match v with
          | .list xs =>
              if xs.isEmpty then none else (joinStrList xs).map JValue.str
          | _ => some v
        else some v
    | none => none

/-! ## add_uniqueness_context (utils.py lines 818-979) -/

/-- Append an element to its group, in the style of
`defaultdict(list)` under Python dict insertion order: the group keyed
by `k` keeps its position (first occurrence order) and the element goes
to the end of that group. -/
def insertGrouped (ks : List (Option JValue × List Elem)) (k : Option JValue)
    (e : Elem) : List (Option JValue × List Elem) :=
  match ks with
  | [] => [(k, [e])]
  | (k0, g) :: rest =>
      if k0 = k then (k0, g ++ [e]) :: rest else (k0, g) :: insertGrouped rest k e

/-- Group a list of elements by a key function, preserving both the
first-occurrence order of keys and the order inside each group
(`defaultdict(list)` filled by a loop). -/
def groupByKey (es : List Elem) (f : Elem → Option JValue) :
    List (Option JValue × List Elem) :=
  es.foldl (fun acc e => insertGrouped acc (f e) e) []

/-- The original position of an element, read back from the
`_original_index` tracker field the function injects. -/
def origIdx (e : Elem) : Nat :=
  match e.lookup "_original_index" with
  | some (.num n) => n.toNat
  | _ => 0

/-- Context assignment for an element resolved as a singleton subgroup
(utils.py lines 940-959).  A `none` context value adds nothing (the
element was resolved by lacking a value others had); otherwise the
`uniqueness_context` dict is attached, preferring an href-derived
context when the level is `id`, the primary key is `text` and the
element has a truthy href-derived value. -/
def assignContext (primaryKey lvl : String) (cv : Option JValue) (e : Elem) : Elem :=
  match cv with
  | none => e
  | some v =>
      if lvl = "id" ∧ primaryKey = "text" then
        match get_nested_value e "href" with
        | some hv =>
            if pyTruthy hv then
              setField e "uniqueness_context"
                (.obj [("level", .str "href"), ("value", hv)])
            else
              setField e "uniqueness_context"
                (.obj [("level", .str lvl), ("value", v)])
        | none =>
            setField e "uniqueness_context"
              (.obj [("level", .str lvl), ("value", v)])
      else
        setField e "uniqueness_context"
          (.obj [("level", .str lvl), ("value", v)])

/-- One refinement level of the resolution loop, restricted to the
elements that stay ambiguous: subdivide by the context level and keep
the subgroups of size other than one (utils.py lines 924-969). -/
def stepAmb (lvl : String) (amb : List Elem) : List Elem :=
  ((groupByKey amb (fun e => get_nested_value e lvl)).filter
    (fun p => p.2.length ≠ 1)).flatMap (·.2)

/-- The resolution loop over the context hierarchy for one ambiguous
group (utils.py lines 920-975).  Produces `(original index, record)`
pairs; elements left after all levels are emitted unchanged.  The
`resolved_in_this_group` membership guard of the source is not
modelled: the subgroups at a level partition the ambiguous list, so an
element can be resolved at most once. -/
def resolveLevels (primaryKey : String) : List String → List Elem → List (Nat × Elem)
  | _, [] => []  -- `if not ambiguous_subgroup: break`
  | [], amb => amb.map (fun e => (origIdx e, eraseField e "_original_index"))
  | lvl :: rest, amb =>
      let subgroups := groupByKey amb (fun e => get_nested_value e lvl)
      let resolved := subgroups.filterMap (fun p =>
        match p.2 with
        | [e] => some (origIdx e,
            eraseField (assignContext primaryKey lvl p.1 e) "_original_index")
        | _ => none)
      resolved ++ resolveLevels primaryKey rest (stepAmb lvl amb)

/-- `add_uniqueness_context(elements_data, primary_key, context_hierarchy)`
(utils.py lines 818-979): tag every element with its position, group by
the primary key (a `None` primary value is a group like any other),
pass singleton groups through unchanged, resolve ambiguous groups
through the hierarchy, and reassemble the results by original position
(positions that received nothing are dropped, mirroring the final
`if elem is not None` cleanup). -/
def add_uniqueness_context (elementsData : List Elem) (primaryKey : String)
    (contextHierarchy : List String) : List Elem :=
  let indexed := elementsData.enum.map
    (fun p => setField p.2 "_original_index" (.num p.1))
  let groups := groupByKey indexed (fun e => get_nested_value e primaryKey)
  let placed := groups.flatMap (fun p =>
    match p.2 with
    | [e] => [(origIdx e, eraseField e "_original_index")]
    | g => resolveLevels primaryKey contextHierarchy g)
  (List.range elementsData.length).filterMap
    (fun i => (placed.find? (fun q => q.1 = i)).map (·.2))

/-! ## The document model

`parse_html_for_elements` works on the tree BeautifulSoup produced from
the markup string.  The tree is modelled by `Node`; the whole soup is an
element named "[document]" (as in BeautifulSoup) whose children are the
top-level nodes of the document.  `Ctx` packages a node together with
the ancestor and sibling information BeautifulSoup exposes through
parent pointers. -/

inductive Node where
  | elem (tag : String) (attrs : List (String × JValue)) (children : List Node)
  | text (s : String)
deriving Repr

def Node.isElem : Node → Bool
  | .elem .. => true
  | .text _ => false

def Node.tagOf : Node → String
  | .elem t _ _ => t
  | .text _ => ""

def Node.attrsOf : Node → List (String × JValue)
  | .elem _ a _ => a
  | .text _ => []

def Node.childrenOf : Node → List Node
  | .elem _ _ cs => cs
  | .text _ => []

mutual

/-- The stripped strings of a node in document order
(`get_text(strip=True)` joins them with the empty separator). -/
def nodeTexts : Node → List String
  | .text s => [pyStrip s]
  | .elem _ _ cs => nodesTexts cs

def nodesTexts : List Node → List String
  | [] => []
  | n :: ns => nodeTexts n ++ nodesTexts ns

end

/-- BeautifulSoup `get_text(strip=True)`. -/
def getText (n : Node) : String := String.join (nodeTexts n)

/-- The attribute value as stored in a record field: the raw value, or
Python `None` when the attribute is absent. -/
def jAttr (a : List (String × JValue)) (k : String) : JValue :=
  match a.lookup k with
  | some v => v
  | none => .null

/-- `tag.get('class', [])`: the multi-valued class attribute, defaulting
to the empty list. -/
def jClasses (a : List (String × JValue)) : JValue :=
  match a.lookup "class" with
  | some v => v
  | none => .list []

/-- The class names of an element as strings (BeautifulSoup keeps
`class` as a list of strings). -/
def classList (a : List (String × JValue)) : List String :=
  match a.lookup "class" with
  | some (.list xs) =>
      xs.filterMap (fun v => match v with | .str s => some s | _ => none)
  | some (.str s) => [s]
  | _ => []

/-- String attribute with a default, as in `tag.get(k, d)` when the
source immediately treats the result as a string. -/
def attrStrD (a : List (String × JValue)) (k d : String) : String :=
  match dictGet a k with
  | some (.str s) => s
  | _ => d

/-- Python `needle in haystack` on strings (substring test) for the
non-empty needles the source uses. -/
def containsStr (haystack needle : String) : Bool :=
  (pySplit haystack needle).length > 1

/-- One step of the ancestor path of a node: the parent's tag and
attributes, plus the siblings on each side of the child position
(`before` nearest-first). -/
structure PathEntry where
  ptag : String
  pattrs : List (String × JValue)
  before : List Node
  after : List Node
deriving Repr

/-- A node together with its ancestry, as BeautifulSoup's parent
pointers provide; `path` is nearest-ancestor-first and ends with the
"[document]" pseudo-element. -/
structure Ctx where
  node : Node
  path : List PathEntry
deriving Repr

def Ctx.tag (c : Ctx) : String := c.node.tagOf

def Ctx.attrs (c : Ctx) : List (String × JValue) := c.node.attrsOf

def Ctx.children (c : Ctx) : List Node := c.node.childrenOf

/-- Earlier siblings, nearest first (text nodes included). -/
def Ctx.prevNodes (c : Ctx) : List Node :=
  match c.path with
  | [] => []
  | pe :: _ => pe.before

/-- Later siblings in document order (text nodes included). -/
def Ctx.nextNodes (c : Ctx) : List Node :=
  match c.path with
  | [] => []
  | pe :: _ => pe.after

/-- The parent as a full context (the parent node is reconstructed from
the zipper). -/
def Ctx.up (c : Ctx) : Option Ctx :=
  match c.path with
  | [] => none
  | pe :: rest =>
      some ⟨.elem pe.ptag pe.pattrs (pe.before.reverse ++ c.node :: pe.after), rest⟩

/-- The `(tag, attrs)` chain of ancestors, nearest first, ending with
the "[document]" pseudo-element — exactly the chain the source's
`while current and current.name` loops walk. -/
def Ctx.ancestorInfo (c : Ctx) : List (String × List (String × JValue)) :=
  c.path.map (fun pe => (pe.ptag, pe.pattrs))

/-- All element descendants, each with its context, in document
(preorder) order — the order `find_all` traverses.  The arguments are
the enclosing element's tag and attributes, the path above it, the
children already passed (nearest first) and the children still to
visit. -/
def ctxsUnder (t : String) (a : List (String × JValue)) (path : List PathEntry) :
    List Node → List Node → List Ctx
  | _, [] => []
  | before, n :: after =>
      (match n with
       | .elem nt na nc =>
           ⟨n, ⟨t, a, before, after⟩ :: path⟩ ::
             ctxsUnder nt na (⟨t, a, before, after⟩ :: path) [] nc
       | .text _ => [])
      ++ ctxsUnder t a path (n :: before) after
termination_by _ l => sizeOf l
decreasing_by
  all_goals simp_wf
  all_goals omega

/-- Element descendants of a context, in document order. -/
def Ctx.descendants (c : Ctx) : List Ctx :=
  match c.node with
  | .elem t a cs => ctxsUnder t a c.path [] cs
  | .text _ => []

/-- All element descendants of the soup, in document order. -/
def allCtxs (soup : Node) : List Ctx :=
  Ctx.descendants ⟨soup, []⟩

/-! ## parse_html_for_elements (utils.py lines 75-816) -/

/-- Removal of `script` and `style` subtrees
(`for script_or_style in soup(["script","style"]): .decompose()`). -/
def stripList : List Node → List Node
  | [] => []
  | .text s :: ns => .text s :: stripList ns
  | .elem t a cs :: ns =>
      if t = "script" ∨ t = "style" then stripList ns
      else .elem t a (stripList cs) :: stripList ns
termination_by l => sizeOf l
decreasing_by
  all_goals simp_wf
  all_goals omega

/-- The ancestor info captured while climbing the parent chain
(utils.py lines 140-150, identical for headings and links). -/
def mkParentInfoFull (t : String) (a : List (String × JValue)) : JValue :=
  .obj [("tag", .str t), ("attributes", .obj a), ("classes", jClasses a),
        ("id", jAttr a "id"), ("aria_label", jAttr a "aria-label"),
        ("role", jAttr a "role"), ("aria_expanded", jAttr a "aria-expanded"),
        ("aria_controls", jAttr a "aria-controls"),
        ("aria_labelledby", jAttr a "aria-labelledby")]

/-- Is the ancestor interactive
(`current.name in ['button','a'] or current.get('role') in [...]`)? -/
def isInteractive (t : String) (a : List (String × JValue)) : Bool :=
  ["button", "a"].contains t ||
    (match dictGet a "role" with
     | some (.str r) => ["button", "tab", "menuitem"].contains r
     | _ => false)

/-- Sibling info captured for headings and links
(utils.py lines 167-174 and 365-372). -/
def mkSiblingInfo (n : Node) : JValue :=
  .obj [("tag", .str n.tagOf), ("attributes", .obj n.attrsOf),
        ("classes", jClasses n.attrsOf), ("id", jAttr n.attrsOf "id"),
        ("text", .str (getText n)), ("role", jAttr n.attrsOf "role")]

/-- Direct-child info (utils.py lines 194-201 and 392-399, the same
fields as sibling info). -/
def mkChildInfo (n : Node) : JValue := mkSiblingInfo n

/-- The DOM-context capture shared by the headings and links loops
(utils.py lines 137-202 and 335-400): the given element summary plus
parent, remaining ancestors, up to three element siblings on each side,
direct element children, and the interactive ancestors. -/
def mkDomContext (c : Ctx) (elementJ : JValue) : JValue :=
  let chain := c.ancestorInfo
  let parentJ : JValue := match chain with
    | [] => .null
    | (t, a) :: _ => mkParentInfoFull t a
  let ancestorsJ := (chain.drop 1).map (fun p => mkParentInfoFull p.1 p.2)
  let interact := (chain.filter (fun p => isInteractive p.1 p.2)).map
    (fun p => mkParentInfoFull p.1 p.2)
  let prevSibs := ((c.prevNodes.filter Node.isElem).take 3).map mkSiblingInfo
  let nextSibs := ((c.nextNodes.filter Node.isElem).take 3).map mkSiblingInfo
  let childs := (c.children.filter Node.isElem).map mkChildInfo
  .obj [("element", elementJ),
        ("parent", parentJ),
        ("ancestors", .list ancestorsJ),
        ("siblings", .obj [("previous", .list prevSibs), ("next", .list nextSibs)]),
        ("children", .list childs),
        ("interactive_parents", .list interact)]

/-- The element summary of a heading (utils.py lines 118-126). -/
def mkHeadingElementJ (c : Ctx) (txt : String) : JValue :=
  .obj [("tag", .str c.tag), ("attributes", .obj c.attrs),
        ("classes", jClasses c.attrs), ("id", jAttr c.attrs "id"),
        ("aria_label", jAttr c.attrs "aria-label"), ("text", .str txt),
        ("role", jAttr c.attrs "role")]

/-- A headings-category record (utils.py lines 205-208). -/
def mkHeadingRecord (c : Ctx) (idx : Nat) (txt : String) : JValue :=
  .obj [("dom_context", mkDomContext c (mkHeadingElementJ c txt)),
        ("sequential_index", .num idx)]

/-- The tag list of the headings `find_all` (utils.py line 111) — note
it includes the non-standard `h7`. -/
def headingTags : List String := ["h1", "h2", "h3", "h4", "h5", "h6", "h7"]

/-- The extraction state: the per-category record lists built so far
plus the shared element counter.  The `inputs` category of the source
is initialised and never filled, so it is not part of the state. -/
structure ExtractState where
  headings : List JValue := []
  paragraphs : List JValue := []
  links : List JValue := []
  buttons : List JValue := []
  images_and_logos : List JValue := []
  icons : List JValue := []
  forms : List JValue := []
  semantic_elements : List JValue := []
  count : Nat := 0
deriving Repr

/-- The headings loop (utils.py lines 110-211). -/
def headingsLoop (maxE : Nat) : List Ctx → Nat → ExtractState → ExtractState
  | [], _, st => st
  | c :: rest, hIdx, st =>
      if st.count ≥ maxE then st
      else
        let txt := getText c.node
        if txt ≠ "" then
          headingsLoop maxE rest (hIdx + 1)
            { st with headings := st.headings ++ [mkHeadingRecord c hIdx txt],
                      count := st.count + 1 }
        else headingsLoop maxE rest hIdx st

/-- The small parent summary used by the paragraph, button, image and
icon records (utils.py lines 243-248 and alike). -/
def mkParentInfoSmall (c : Ctx) : JValue :=
  match c.path with
  | [] => .null
  | pe :: _ =>
      .obj [("tag", .str pe.ptag), ("classes", jClasses pe.pattrs),
            ("id", jAttr pe.pattrs "id")]

/-- The enhanced previous-sibling text (utils.py lines 251-260): an
adjacent non-blank raw text node, else the nearest element sibling's
text, else `None`. -/
def prevSiblingTextJ (c : Ctx) : JValue :=
  let fallback : JValue :=
    match c.prevNodes.find? Node.isElem with
    | some n => .str (getText n)
    | none => .null
  match c.prevNodes.head? with
  | some (.text s) => if pyStrip s ≠ "" then .str (pyStrip s) else fallback
  | _ => fallback

/-- The enhanced next-sibling text (utils.py lines 262-271). -/
def nextSiblingTextJ (c : Ctx) : JValue :=
  let fallback : JValue :=
    match c.nextNodes.find? Node.isElem with
    | some n => .str (getText n)
    | none => .null
  match c.nextNodes.head? with
  | some (.text s) => if pyStrip s ≠ "" then .str (pyStrip s) else fallback
  | _ => fallback

/-- The immediate-sibling-only text used by the icon loops
(utils.py lines 555-558): an adjacent non-blank raw text node or `None`. -/
def immediatePrevTextJ (c : Ctx) : JValue :=
  match c.prevNodes.head? with
  | some (.text s) => if pyStrip s ≠ "" then .str (pyStrip s) else .null
  | _ => .null

def immediateNextTextJ (c : Ctx) : JValue :=
  match c.nextNodes.head? with
  | some (.text s) => if pyStrip s ≠ "" then .str (pyStrip s) else .null
  | _ => .null

/-- Is the paragraph directly inside a link or button
(utils.py lines 220-226)? -/
def isPartOfInteractive (c : Ctx) : Bool :=
  match c.path with
  | [] => false
  | pe :: _ =>
      ["a", "button"].contains (pyLower pe.ptag) ||
        pyLower (attrStrD pe.pattrs "role" "") = "button"

/-- The significant children of a paragraph: everything but blank raw
text (utils.py line 232). -/
def significantChildren (cs : List Node) : List Node :=
  cs.filter (fun n => match n with
    | .text s => pyStrip s ≠ ""
    | .elem .. => true)

/-- Does the paragraph consist of a lone heading child
(utils.py lines 233-237)?  Note this check uses h1-h6 only. -/
def onlyChildHeading (cs : List Node) : Bool :=
  match significantChildren cs with
  | [.elem t _ _] => ["h1", "h2", "h3", "h4", "h5", "h6"].contains (pyLower t)
  | _ => false

/-- A paragraphs-category record (utils.py lines 274-283). -/
def mkParagraphRecord (c : Ctx) (idx : Nat) (txt : String) : JValue :=
  .obj [("tag", .str c.tag),
        ("text_snippet", .str (txt.take 100 ++ (if txt.length > 100 then "..." else ""))),
        ("id", jAttr c.attrs "id"), ("classes", jClasses c.attrs),
        ("parent", mkParentInfoSmall c),
        ("prev_sibling_text", prevSiblingTextJ c),
        ("next_sibling_text", nextSiblingTextJ c),
        ("sequential_index", .num idx)]

/-- The paragraphs loop (utils.py lines 214-285). -/
def paragraphsLoop (maxE : Nat) : List Ctx → Nat → ExtractState → ExtractState
  | [], _, st => st
  | c :: rest, pIdx, st =>
      if st.count ≥ maxE then st
      else
        let txt := getText c.node
        if isPartOfInteractive c then paragraphsLoop maxE rest pIdx st
        else if onlyChildHeading c.children then paragraphsLoop maxE rest pIdx st
        else if txt ≠ "" ∧ txt.length > 10 then
          paragraphsLoop maxE rest (pIdx + 1)
            { st with paragraphs := st.paragraphs ++ [mkParagraphRecord c pIdx txt],
                      count := st.count + 1 }
        else paragraphsLoop maxE rest pIdx st

/-- The element summary of a link (utils.py lines 316-324). -/
def mkLinkElementJ (c : Ctx) : JValue :=
  .obj [("tag", .str c.tag), ("attributes", .obj c.attrs),
        ("classes", jClasses c.attrs), ("id", jAttr c.attrs "id"),
        ("aria_label", jAttr c.attrs "aria-label"),
        ("text", .str (getText c.node)), ("href", jAttr c.attrs "href")]

/-- A links-category record (utils.py lines 403-407); the source keeps
`link_index` at zero and stores no sequential index for links. -/
def mkLinkRecord (c : Ctx) : JValue :=
  .obj [("dom_context", mkDomContext c (mkLinkElementJ c)),
        ("is_external_link", .bool (c.attrs.lookup "data-external-link-popup").isSome),
        ("external_link_popup", .bool ((c.attrs.lookup "data-external-link-popup").isSome
            && !(c.attrs.lookup "data-external-skipped-whitelisted").isSome))]

/-- The links loop (utils.py lines 305-409).  The `menu_icon` and
`menu_buttons` computations of lines 289-303 read the soup but are
never used afterwards, so they do not appear in the model. -/
def linksLoop (maxE : Nat) : List Ctx → ExtractState → ExtractState
  | [], st => st
  | c :: rest, st =>
      if st.count ≥ maxE then st
      else
        linksLoop maxE rest
          { st with links := st.links ++ [mkLinkRecord c],
                    count := st.count + 1 }

/-- Does the find_all filter of the buttons loop match the element
(utils.py line 415): a `button` tag, an `input` of button-like type, or
anything with `role="button"`? -/
def isButtonCandidate (c : Ctx) : Bool :=
  c.tag = "button" ||
  (c.tag = "input" &&
    (match dictGet c.attrs "type" with
     | some (.str s) => ["button", "submit", "reset"].contains s
     | _ => false)) ||
  (match dictGet c.attrs "role" with
   | some (.str r) => r = "button"
   | _ => false)

/-- `btn.form` resolves through attribute lookup to `btn.find("form")`,
the first form descendant (utils.py line 419). -/
def hasFormDescendant (c : Ctx) : Bool :=
  c.descendants.any (fun d => d.tag = "form")

/-- The button caption (utils.py line 422):
`get_text or get("value","") or get("aria-label","")`. -/
def buttonText (c : Ctx) : String :=
  let t := getText c.node
  if t ≠ "" then t
  else
    let v := attrStrD c.attrs "value" ""
    if v ≠ "" then v else attrStrD c.attrs "aria-label" ""

/-- Does the button contain an icon-ish direct child
(utils.py line 451)? -/
def buttonContainsIcon (c : Ctx) : Bool :=
  c.children.any (fun n => match n with
    | .elem t _ _ => ["i", "span", "svg"].contains t
    | .text _ => false)

/-- A buttons-category record (utils.py lines 455-467). -/
def mkButtonRecord (c : Ctx) (idx : Nat) (txt : String) : JValue :=
  .obj [("tag", .str c.tag), ("type", .str (attrStrD c.attrs "type" "button")),
        ("text", .str txt), ("id", jAttr c.attrs "id"),
        ("name", jAttr c.attrs "name"), ("classes", jClasses c.attrs),
        ("contains_icon", .bool (buttonContainsIcon c)),
        ("parent", mkParentInfoSmall c),
        ("prev_sibling_text", prevSiblingTextJ c),
        ("next_sibling_text", nextSiblingTextJ c),
        ("sequential_index", .num idx)]

/-- The buttons loop (utils.py lines 413-469). -/
def buttonsLoop (maxE : Nat) : List Ctx → Nat → ExtractState → ExtractState
  | [], _, st => st
  | c :: rest, bIdx, st =>
      if st.count ≥ maxE then st
      else if hasFormDescendant c then buttonsLoop maxE rest bIdx st
      else
        let txt := buttonText c
        if txt ≠ "" ∨ buttonContainsIcon c then
          buttonsLoop maxE rest (bIdx + 1)
            { st with buttons := st.buttons ++ [mkButtonRecord c bIdx txt],
                      count := st.count + 1 }
        else buttonsLoop maxE rest bIdx st

/-- Model of the external library function `urllib.parse.urljoin`: a
reference that already carries a scheme stays as it is, anything else
is resolved against the base.  The exact RFC 3986 algorithm lives
outside this repository; no claim depends on its fine points. -/
def urljoin (base rel : String) : String :=
  if (pySplit rel "://").length > 1 then rel else base ++ rel

/-- An images_and_logos-category record (utils.py lines 516-529). -/
def mkImageRecord (baseUrl : String) (c : Ctx) (idx : Nat) : JValue :=
  let altText := attrStrD c.attrs "alt" ""
  let src := attrStrD c.attrs "src" ""
  let isClickable := match c.path with
    | pe :: _ => pe.ptag = "a"
    | [] => false
  let parentHref : JValue :=
    if isClickable then
      match c.path with
      | pe :: _ =>
          (match dictGet pe.pattrs "href" with
           | some (.str h) => if h.isEmpty then .str h else .str (urljoin baseUrl h)
           | some v => if pyTruthy v then v else v
           | none => .null)
      | [] => .null
    else .null
  let isLogo := containsStr (pyLower altText) "logo" ||
    c.ancestorInfo.any (fun p => p.1 = "header")
  .obj [("tag", .str c.tag), ("alt", .str altText),
        ("src", .str (urljoin baseUrl src)), ("id", jAttr c.attrs "id"),
        ("classes", jClasses c.attrs), ("is_likely_logo", .bool isLogo),
        ("parent", mkParentInfoSmall c),
        ("prev_sibling_text", prevSiblingTextJ c),
        ("next_sibling_text", nextSiblingTextJ c),
        ("sequential_index", .num idx), ("is_clickable", .bool isClickable),
        ("parent_href", parentHref)]

/-- The images loop (utils.py lines 473-531). -/
def imagesLoop (maxE : Nat) (baseUrl : String) :
    List Ctx → Nat → ExtractState → ExtractState
  | [], _, st => st
  | c :: rest, iIdx, st =>
      if st.count ≥ maxE then st
      else if attrStrD c.attrs "src" "" ≠ "" then
        let imgs := st.images_and_logos ++ [mkImageRecord baseUrl c iIdx]
        imagesLoop maxE baseUrl rest (iIdx + 1)
          { st with images_and_logos := imgs, count := st.count + 1 }
      else imagesLoop maxE baseUrl rest iIdx st

/-- Does a class name carry an icon or logo hint (utils.py line 544)? -/
def hasIconOrLogoClass (c : Ctx) : Bool :=
  (classList c.attrs).any
    (fun cls => containsStr cls "icon" || containsStr cls "logo")

/-- No text of its own and only blank raw-text children
(utils.py line 545). -/
def isEmptyOrNestedOnly (c : Ctx) : Bool :=
  getText c.node = "" &&
    c.children.all (fun n => match n with
      | .text s => pyStrip s = ""
      | .elem .. => true)

/-- An icons-category record from the i/span loop
(utils.py lines 562-572). -/
def mkSpanIconRecord (c : Ctx) (idx : Nat) : JValue :=
  .obj [("tag", .str c.tag), ("classes", jClasses c.attrs),
        ("aria_label", jAttr c.attrs "aria-label"),
        ("text", .str (getText c.node)), ("role", jAttr c.attrs "role"),
        ("parent", mkParentInfoSmall c),
        ("prev_sibling_text", immediatePrevTextJ c),
        ("next_sibling_text", immediateNextTextJ c),
        ("sequential_index", .num idx)]

/-- The i/span icon condition (utils.py line 561). -/
def spanIconCond (c : Ctx) : Bool :=
  optTruthy (dictGet c.attrs "aria-label") ||
  (match dictGet c.attrs "role" with
   | some (.str r) => r = "img"
   | _ => false) ||
  hasIconOrLogoClass c ||
  (isEmptyOrNestedOnly c && !(classList c.attrs).isEmpty)

/-- The i/span icons loop (utils.py lines 537-576). -/
def spanIconsLoop (maxE : Nat) : List Ctx → Nat → ExtractState → (ExtractState × Nat)
  | [], iIdx, st => (st, iIdx)
  | c :: rest, iIdx, st =>
      if st.count ≥ maxE then (st, iIdx)
      else if spanIconCond c then
        spanIconsLoop maxE rest (iIdx + 1)
          { st with icons := st.icons ++ [mkSpanIconRecord c iIdx],
                    count := st.count + 1 }
      else spanIconsLoop maxE rest iIdx st

/-- An icons-category record from the svg loop (utils.py lines 602-612). -/
def mkSvgIconRecord (c : Ctx) (idx : Nat) : JValue :=
  let ariaLabel := dictGet c.attrs "aria-label"
  let titleJ : JValue := match c.descendants.find? (fun d => d.tag = "title") with
    | some tc => .str (getText tc.node)
    | none => .null
  let identifier : JValue := if optTruthy ariaLabel then jAttr c.attrs "aria-label" else titleJ
  .obj [("tag", .str c.tag), ("role", jAttr c.attrs "role"),
        ("aria_label", jAttr c.attrs "aria-label"), ("title", titleJ),
        ("identifier_used", identifier),
        ("parent", mkParentInfoSmall c),
        ("prev_sibling_text", immediatePrevTextJ c),
        ("next_sibling_text", immediateNextTextJ c),
        ("sequential_index", .num idx)]

/-- The svg condition (utils.py line 600): `role == "img" or identifier`. -/
def svgIconCond (c : Ctx) : Bool :=
  (match dictGet c.attrs "role" with
   | some (.str r) => r = "img"
   | _ => false) ||
  optTruthy (dictGet c.attrs "aria-label") ||
  (match c.descendants.find? (fun d => d.tag = "title") with
   | some tc => getText tc.node ≠ ""
   | none => false)

/-- Is the svg nested inside a link or button
(utils.py line 601, negated there)? -/
def svgInsideInteractive (c : Ctx) : Bool :=
  c.ancestorInfo.any (fun p => p.1 = "a" ∨ p.1 = "button")

/-- The svg icons loop (utils.py lines 579-615); the icon index
continues from the i/span loop. -/
def svgIconsLoop (maxE : Nat) : List Ctx → Nat → ExtractState → ExtractState
  | [], _, st => st
  | c :: rest, iIdx, st =>
      if st.count ≥ maxE then st
      else if svgIconCond c ∧ ¬ svgInsideInteractive c then
        svgIconsLoop maxE rest (iIdx + 1)
          { st with icons := st.icons ++ [mkSvgIconRecord c iIdx],
                    count := st.count + 1 }
      else svgIconsLoop maxE rest iIdx st

/-- Quote a value in the style of the source's f-strings: `'...'`. -/
def quoted (v : JValue) : String := sQuote ++ pyStr v ++ sQuote

/-- The login cues (utils.py line 677). -/
def loginIndicators : List String :=
  ["login", "log in", "signin", "sign in", "logon", "log on"]

def h16Tags : List String := ["h1", "h2", "h3", "h4", "h5", "h6"]

/-- The form-identifier fallback chain (utils.py lines 622-700):
aria-label, own id, data attribute, legend, internal heading, preceding
sibling heading, parent's preceding sibling heading, login cues, and
finally the positional fallback. -/
def formIdentifier (c : Ctx) (formIdx : Nat) : String :=
  let ariaJ := dictGet c.attrs "aria-label"
  let idJ := dictGet c.attrs "id"
  if optTruthy ariaJ then "the form labelled " ++ quoted (jAttr c.attrs "aria-label")
  else if optTruthy idJ then "the form with ID " ++ quoted (jAttr c.attrs "id")
  else
    let diJ := dictGet c.attrs "data-di-form-id"
    if optTruthy diJ then
      "the " ++ quoted (jAttr c.attrs "data-di-form-id") ++ " form"
    else
      let legendText : Option String :=
        match c.descendants.find? (fun d => d.tag = "legend") with
        | some l => let t := getText l.node; if t ≠ "" then some t else none
        | none => none
      match legendText with
      | some t => "the " ++ sQuote ++ t ++ sQuote ++ " form"
      | none =>
        let headText : Option String :=
          match c.descendants.find? (fun d => h16Tags.contains d.tag) with
          | some h => let t := getText h.node; if t ≠ "" then some t else none
          | none => none
        match headText with
        | some t => "the " ++ sQuote ++ t ++ sQuote ++ " form"
        | none =>
          let prevHeadText : Option String :=
            match c.prevNodes.find? Node.isElem with
            | some n =>
                if h16Tags.contains n.tagOf then
                  let t := getText n; if t ≠ "" then some t else none
                else none
            | none => none
          match prevHeadText with
          | some t => "the form under the " ++ sQuote ++ t ++ sQuote ++ " heading"
          | none =>
            let parentPrev : Option (String × String) :=
              match c.up with
              | some pc =>
                  (match pc.prevNodes.find? Node.isElem with
                   | some n =>
                       if h16Tags.contains n.tagOf then
                         let t := getText n
                         if t ≠ "" then some (pc.tag, t) else none
                       else none
                   | none => none)
              | none => none
            match parentPrev with
            | some (ptag, t) =>
                "the form within the parent " ++ ptag ++ " under the " ++
                  sQuote ++ t ++ sQuote ++ " heading"
            | none =>
              let classLogin := (classList c.attrs).any (fun cls =>
                cls ≠ "" && loginIndicators.any (fun ind => containsStr (pyLower cls) ind))
              let idLogin :=
                match dictGet c.attrs "id" with
                | some (.str s) =>
                    !s.isEmpty && loginIndicators.any (fun ind => containsStr (pyLower s) ind)
                | _ => false
              let userField := c.descendants.any (fun d =>
                d.tag = "input" &&
                  (match dictGet d.attrs "name" with
                   | some (.str nm) =>
                       !nm.isEmpty &&
                         ["user", "email", "username", "login"].any
                           (fun w => containsStr (pyLower nm) w)
                   | _ => false))
              let pwField := c.descendants.any (fun d =>
                d.tag = "input" && dictGet d.attrs "type" = some (.str "password"))
              if classLogin || idLogin || (userField && pwField) then "the login form"
              else "form #" ++ toString (formIdx + 1)

/-- The field-description chain for one non-submit form control
(utils.py lines 751-792). -/
def mkInputRecord (c : Ctx) (d : Ctx) : JValue :=
  let inpType : JValue := match dictGet d.attrs "type" with
    | some v => v
    | none => .str d.tag
  let idJ := dictGet d.attrs "id"
  let nameJ := dictGet d.attrs "name"
  let placeholderJ := dictGet d.attrs "placeholder"
  let ariaJ := dictGet d.attrs "aria-label"
  let labelText0 :=
    if optTruthy idJ then
      match idJ with
      | some idv =>
          (match c.descendants.find? (fun l =>
              l.tag = "label" && dictGet l.attrs "for" = some idv) with
           | some l => getText l.node
           | none => "")
      | none => ""
    else ""
  let labelText :=
    if labelText0 = "" then
      match c.up, d.up with
      | _, some pd => if pd.tag = "label" then getText pd.node else labelText0
      | _, none => labelText0
    else labelText0
  let identifier :=
    if labelText ≠ "" then sQuote ++ labelText ++ sQuote ++ " field"
    else if optTruthy placeholderJ then
      "field with placeholder " ++ quoted (jAttr d.attrs "placeholder")
    else if optTruthy ariaJ then
      "field labelled " ++ quoted (jAttr d.attrs "aria-label")
    else if optTruthy nameJ then
      "field named " ++ quoted (jAttr d.attrs "name")
    else if optTruthy idJ then
      "field with ID " ++ quoted (jAttr d.attrs "id")
    else pyStr inpType ++ " field"
  .obj [("identifier", .str identifier), ("tag", .str d.tag),
        ("type", inpType), ("name", jAttr d.attrs "name"),
        ("id", jAttr d.attrs "id"),
        ("required", .bool (d.attrs.lookup "required").isSome)]

/-- Is the control a submit button (utils.py lines 722-723)? -/
def isSubmitControl (d : Ctx) : Bool :=
  (d.tag = "button" && pyLower (attrStrD d.attrs "type" "submit") = "submit") ||
  (d.tag = "input" && pyLower (attrStrD d.attrs "type" "") = "submit")

/-- The submit-button summary (utils.py lines 728-748). -/
def mkSubmitRecord (d : Ctx) : JValue :=
  let t0 := if d.tag = "input" then pyStrip (attrStrD d.attrs "value" "") else ""
  let t1 := if t0 ≠ "" then t0 else getText d.node
  let submitText := if t1 ≠ "" then t1 else "Submit"
  let idJ := dictGet d.attrs "id"
  let identifier := "the " ++ sQuote ++ submitText ++ sQuote ++ " button" ++
    (if optTruthy idJ then " with ID " ++ quoted (jAttr d.attrs "id") else "")
  .obj [("text", .str submitText), ("identifier", .str identifier),
        ("tag", .str d.tag), ("id", jAttr d.attrs "id")]

/-- The inner loop over a form's controls (utils.py lines 713-792):
hidden inputs are skipped, the first submit button is captured, every
other control becomes an input record. -/
def processFormControls (c : Ctx) :
    List Ctx → List JValue → Option JValue → List JValue × Option JValue
  | [], inputs, submit => (inputs, submit)
  | d :: rest, inputs, submit =>
      if d.tag = "input" ∧ dictGet d.attrs "type" = some (.str "hidden") then
        processFormControls c rest inputs submit
      else if isSubmitControl d then
        match submit with
        | none => processFormControls c rest inputs (some (mkSubmitRecord d))
        | some s => processFormControls c rest inputs (some s)
      else
        processFormControls c rest (inputs ++ [mkInputRecord c d]) submit

/-- A forms-category record (utils.py lines 703-711 plus the filled-in
inputs and submit button). -/
def mkFormRecord (c : Ctx) (formIdx : Nat) (inputs : List JValue)
    (submit : JValue) : JValue :=
  .obj [("form_identifier", .str (formIdentifier c formIdx)),
        ("tag", .str c.tag), ("id", jAttr c.attrs "id"),
        ("action", .str (attrStrD c.attrs "action" "")),
        ("method", .str (pyLower (attrStrD c.attrs "method" "get"))),
        ("inputs", .list inputs), ("submit_button", submit)]

/-- The controls of a form in document order (utils.py line 714). -/
def formControls (c : Ctx) : List Ctx :=
  c.descendants.filter (fun d =>
    ["input", "textarea", "select", "button"].contains d.tag)

/-- The forms loop (utils.py lines 618-798): a form is emitted only
when it has both input records and a submit button. -/
def formsLoop (maxE : Nat) : List Ctx → Nat → ExtractState → ExtractState
  | [], _, st => st
  | c :: rest, fIdx, st =>
      if st.count ≥ maxE then st
      else
        match processFormControls c (formControls c) [] none with
        | (inputs, some submit) =>
            if inputs.isEmpty then formsLoop maxE rest fIdx st
            else
              let recs := st.forms ++ [mkFormRecord c fIdx inputs submit]
              formsLoop maxE rest (fIdx + 1)
                { st with forms := recs, count := st.count + 1 }
        | (_, none) => formsLoop maxE rest fIdx st

/-- The semantic structure tags (utils.py line 107). -/
def semanticTags : List String :=
  ["header", "footer", "nav", "main", "section", "article", "aside"]

/-- The semantic-elements loop (utils.py lines 802-809): each tag kind
found at all contributes one record and counts once. -/
def semanticLoop (maxE : Nat) (soup : Node) : List String → ExtractState → ExtractState
  | [], st => st
  | t :: rest, st =>
      if st.count ≥ maxE then st
      else
        let found := ((allCtxs soup).filter (fun c => c.tag = t)).length
        if found ≠ 0 then
          let recs := st.semantic_elements ++
            [.obj [("tag", .str t), ("count", .num found)]]
          semanticLoop maxE soup rest { st with semantic_elements := recs,
                                                count := st.count + 1 }
        else semanticLoop maxE soup rest st

/-- `{k: v for k, v in elements.items() if v}`: the category dict in
its insertion order, with empty categories dropped; the `inputs`
category is initialised and never filled, so it never survives. -/
def assemble (st : ExtractState) : List (String × JValue) :=
  ([("headings", st.headings), ("paragraphs", st.paragraphs),
    ("links", st.links), ("buttons", st.buttons),
    ("inputs", ([] : List JValue)),
    ("images_and_logos", st.images_and_logos), ("icons", st.icons),
    ("forms", st.forms), ("semantic_elements", st.semantic_elements)]).filterMap
    (fun p => if p.2.isEmpty then none else some (p.1, JValue.list p.2))

/-- The input of the Extractor: the markup string handed over by the
fetch collaborator together with the tree the (external) html parser
produces from it. -/
structure HtmlInput where
  raw : String
  dom : List Node
deriving Repr

/-- `parse_html_for_elements(html_content, base_url, max_elements)`
(utils.py lines 75-816): the fetch-failure sentinel short-circuits;
otherwise script/style subtrees are dropped and the category loops run
in order, sharing one element counter, with the source's early returns
after each category. -/
def parse_html_for_elements (input : HtmlInput) (baseUrl : String)
    (maxElements : Nat := 5000) : List (String × JValue) :=
  if pyStartsWith input.raw "Error fetching URL" then
    [("error", .str input.raw)]
  else
    let soup : Node := .elem "[document]" [] (stripList input.dom)
    let cs := allCtxs soup
    let st := headingsLoop maxElements (cs.filter (fun c => headingTags.contains c.tag)) 0 {}
    let st := paragraphsLoop maxElements (cs.filter (fun c => c.tag = "p")) 0 st
    if st.count ≥ maxElements then assemble st else
    let st := linksLoop maxElements
      (cs.filter (fun c => c.tag = "a" ∧ (c.attrs.lookup "href").isSome)) st
    if st.count ≥ maxElements then assemble st else
    let st := buttonsLoop maxElements (cs.filter isButtonCandidate) 0 st
    if st.count ≥ maxElements then assemble st else
    let st := imagesLoop maxElements baseUrl (cs.filter (fun c => c.tag = "img")) 0 st
    if st.count ≥ maxElements then assemble st else
    let p := spanIconsLoop maxElements
      (cs.filter (fun c => c.tag = "i" ∨ c.tag = "span")) 0 st
    let st := svgIconsLoop maxElements (cs.filter (fun c => c.tag = "svg")) p.2 p.1
    if st.count ≥ maxElements then assemble st else
    let st := formsLoop maxElements (cs.filter (fun c => c.tag = "form")) 0 st
    if st.count ≥ maxElements then assemble st else
    let st := semanticLoop maxElements soup semanticTags st
    assemble st

/-! ## Definitions used by the theorem statements -/

/-- The still-ambiguous members of a group after the given context
levels have been processed. -/
def ambAfter (levels : List String) (amb : List Elem) : List Elem :=
  levels.foldl (fun a lvl => stepAmb lvl a) amb

/-- The subgroup of an element at a context level within a list of
still-ambiguous elements: everybody with the same context value. -/
def subgroupAt (lvl : String) (amb : List Elem) (e : Elem) : List Elem :=
  amb.filter (fun x => get_nested_value x lvl = get_nested_value e lvl)

/-- The declarative resolution outcome of one element of an ambiguous
group: the first context level (with the element's value there) at
which the element's subgroup among the still-ambiguous elements is a
singleton, or `none` when the hierarchy is exhausted first. -/
def firstResolve : List String → List Elem → Elem → Option (String × Option JValue)
  | [], _, _ => none
  | lvl :: rest, amb, e =>
      if (subgroupAt lvl amb e).length = 1 then
        some (lvl, get_nested_value e lvl)
      else firstResolve rest (stepAmb lvl amb) e

/-- Input records as produced by the Extractor: they do not use the
reserved keys the Resolver manages. -/
@[reducible] def FreshElems (data : List Elem) : Prop :=
  data.all (fun e => (e.lookup "_original_index").isNone &&
    (e.lookup "uniqueness_context").isNone) = true

/-- No configured key path starts at the internal tracker field: each
key's first dotted segment exists and is not `_original_index`. -/
@[reducible] def ReservedFree (ks : List String) : Prop :=
  ks.all (fun k => match pySplit k "." with
    | h :: _ => h != "_original_index"
    | [] => false) = true

/-- The elements with their position tracker attached, as the function
builds them before grouping. -/
def indexedElems (data : List Elem) : List Elem :=
  data.enum.map (fun p => setField p.2 "_original_index" (.num p.1))

/-- The primary-value group of the i-th record, among the
tracker-tagged elements. -/
def groupOfIdx (data : List Elem) (pk : String) (i : Nat) : List Elem :=
  (indexedElems data).filter (fun x =>
    get_nested_value x pk = get_nested_value ((indexedElems data).getD i []) pk)

/-- Does some other record share the i-th record's primary value? -/
def sharesPrimary (data : List Elem) (pk : String) (i : Nat) : Prop :=
  ∃ j, j < data.length ∧ j ≠ i ∧
    get_nested_value (data.getD j []) pk = get_nested_value (data.getD i []) pk

/-- The `uniqueness_context` dict the source attaches for a resolution
with context value `cv` at level `lvl`, given the element's
href-derived value `hv` (utils.py lines 941-959). -/
def ucValueFor (primaryKey lvl : String) (cv : JValue) (hv : Option JValue) : JValue :=
  if lvl = "id" ∧ primaryKey = "text" then
    match hv with
    | some h =>
        if pyTruthy h then .obj [("level", .str "href"), ("value", h)]
        else .obj [("level", .str lvl), ("value", cv)]
    | none => .obj [("level", .str lvl), ("value", cv)]
  else .obj [("level", .str lvl), ("value", cv)]

/-- A category list of the Extractor's output. -/
def getCategory (out : List (String × JValue)) (k : String) : List JValue :=
  match out.lookup k with
  | some (.list xs) => xs
  | _ => []

/-- The total number of records over the state's categories. -/
def stTotal (st : ExtractState) : Nat :=
  st.headings.length + st.paragraphs.length + st.links.length +
    st.buttons.length + st.images_and_logos.length + st.icons.length +
    st.forms.length + st.semantic_elements.length

/-- The total number of records over all categories of the output. -/
def outTotal (out : List (String × JValue)) : Nat :=
  (out.map (fun p => match p.2 with | .list xs => xs.length | _ => 0)).sum

/-- The headings records a context list produces, declaratively: one
record per non-empty-text element, numbered in order. -/
def headingRecordsOf (cs : List Ctx) : List JValue :=
  ((cs.filter (fun c => getText c.node ≠ "")).enum).map
    (fun p => mkHeadingRecord p.2 p.1 (getText p.2.node))

/-- The singleton selector of the resolution loop: a subgroup of size
one yields its element. -/
def singleOf (p : Option JValue × List Elem) : Option Elem :=
  match p.2 with
  | [e] => some e
  | _ => none

/-- The `(original index, record)` pairs the function produces before
placing them back by position: singleton primary groups pass through,
the rest go through the hierarchy. -/
def placedPairs (data : List Elem) (pk : String) (hier : List String) :
    List (Nat × Elem) :=
  (groupByKey (indexedElems data) (fun e => get_nested_value e pk)).flatMap (fun p =>
    match p.2 with
    | [e] => [(origIdx e, eraseField e "_original_index")]
    | g => resolveLevels pk hier g)

/-! ## Lemmas: dictionary algebra -/

theorem freshElems_spec {data : List Elem} (hf : FreshElems data) :
    ∀ e ∈ data, e.lookup "_original_index" = none ∧
      e.lookup "uniqueness_context" = none := by
  intro e he
  have := (List.all_eq_true.mp hf) e he
  simp only [Bool.and_eq_true, Option.isNone_iff_eq_none] at this
  exact this

theorem reservedFree_spec {ks : List String} (hr : ReservedFree ks) :
    ∀ k ∈ ks, ∃ h t, pySplit k "." = h :: t ∧ h ≠ "_original_index" := by
  intro k hk
  have := (List.all_eq_true.mp hr) k hk
  rcases hsp : pySplit k "." with _ | ⟨h, t⟩
  · rw [hsp] at this
    exact absurd this (by simp)
  · rw [hsp] at this
    refine ⟨h, t, rfl, ?_⟩
    simpa using this

theorem lookup_append_of_none {l1 l2 : List (String × JValue)} {k : String}
    (h : List.lookup k l1 = none) :
    List.lookup k (l1 ++ l2) = List.lookup k l2 := by
  induction l1 with
  | nil => simp
  | cons p t ih =>
      obtain ⟨a, b⟩ := p
      rw [List.lookup_cons] at h
      rw [show ((a, b) :: t ++ l2) = ((a, b) :: (t ++ l2)) from rfl, List.lookup_cons]
      cases hk : (k == a) with
      | true => simp only [hk] at h; exact absurd h (by simp)
      | false =>
          simp only [hk] at h ⊢
          exact ih h

theorem lookup_append_single_ne (e : List (String × JValue)) (k oi : String)
    (v : JValue) (h : k ≠ oi) :
    List.lookup k (e ++ [(oi, v)]) = List.lookup k e := by
  have hko : (k == oi) = false := beq_eq_false_iff_ne.mpr h
  induction e with
  | nil => simp [List.lookup_cons, hko]
  | cons p t ih =>
      obtain ⟨a, b⟩ := p
      rw [show ((a, b) :: t ++ [(oi, v)]) = ((a, b) :: (t ++ [(oi, v)])) from rfl]
      rw [List.lookup_cons, List.lookup_cons]
      cases hk : (k == a) with
      | true => simp only [hk]
      | false => simp only [hk]; exact ih

theorem lookup_none_forall {l : List (String × JValue)} {k : String}
    (h : List.lookup k l = none) : ∀ p ∈ l, p.1 ≠ k := by
  induction l with
  | nil => simp
  | cons p t ih =>
      obtain ⟨a, b⟩ := p
      rw [List.lookup_cons] at h
      cases hk : (k == a) with
      | true => simp only [hk] at h; exact absurd h (by simp)
      | false =>
          simp only [hk] at h
          intro q hq
          rcases List.mem_cons.mp hq with rfl | hq
          · simp only [ne_eq]
            intro hak
            rw [hak] at hk
            simp at hk
          · exact ih h q hq

theorem setField_of_absent {e : Elem} {k : String} (v : JValue)
    (h : e.lookup k = none) : setField e k v = e ++ [(k, v)] := by
  simp [setField, h]

theorem eraseField_append_single {e : Elem} {k : String} {v : JValue}
    (h : e.lookup k = none) : eraseField (e ++ [(k, v)]) k = e := by
  have hall := lookup_none_forall h
  simp only [eraseField, List.filter_append]
  rw [List.filter_eq_self.mpr, List.filter_cons]
  · simp
  · intro p hp
    simpa using hall p hp

theorem eraseField_of_absent {e : Elem} {k : String}
    (h : e.lookup k = none) : eraseField e k = e := by
  have hall := lookup_none_forall h
  simp only [eraseField]
  rw [List.filter_eq_self.mpr]
  intro p hp
  simpa using hall p hp

/-! ## Lemmas: grouping -/

theorem insertGrouped_keys_mem (acc : List (Option JValue × List Elem))
    (k : Option JValue) (e : Elem) (h : k ∈ acc.map Prod.fst) :
    (insertGrouped acc k e).map Prod.fst = acc.map Prod.fst := by
  induction acc with
  | nil => simp at h
  | cons p rest ih =>
      obtain ⟨k0, g⟩ := p
      by_cases hk : k0 = k
      · simp [insertGrouped, hk]
      · have hmem : k ∈ rest.map Prod.fst := by
          rcases List.mem_cons.mp h with h | h
          · exact absurd h.symm hk
          · exact h
        simp [insertGrouped, hk, ih hmem]

theorem insertGrouped_keys_new (acc : List (Option JValue × List Elem))
    (k : Option JValue) (e : Elem) (h : k ∉ acc.map Prod.fst) :
    (insertGrouped acc k e).map Prod.fst = acc.map Prod.fst ++ [k] := by
  induction acc with
  | nil => simp [insertGrouped]
  | cons p rest ih =>
      obtain ⟨k0, g⟩ := p
      simp only [List.map_cons, List.mem_cons] at h
      push_neg at h
      have hk : ¬ k0 = k := fun hc => h.1 hc.symm
      simp [insertGrouped, hk, ih h.2]

theorem insertGrouped_cases (acc : List (Option JValue × List Elem))
    (k : Option JValue) (e : Elem) (hnd : (acc.map Prod.fst).Nodup) :
    ∀ p ∈ insertGrouped acc k e,
      (p.1 = k ∧ ∃ g, p.2 = g ++ [e] ∧ (k, g) ∈ acc) ∨
      (p.1 = k ∧ p.2 = [e] ∧ k ∉ acc.map Prod.fst) ∨
      (p.1 ≠ k ∧ p ∈ acc) := by
  induction acc with
  | nil =>
      intro p hp
      simp only [insertGrouped, List.mem_singleton] at hp
      subst hp
      exact Or.inr (Or.inl ⟨rfl, rfl, by simp⟩)
  | cons q rest ih =>
      obtain ⟨k0, g⟩ := q
      simp only [List.map_cons, List.nodup_cons] at hnd
      intro p hp
      by_cases hk : k0 = k
      · subst hk
        simp only [insertGrouped, if_pos rfl] at hp
        rcases List.mem_cons.mp hp with rfl | hp
        · exact Or.inl ⟨rfl, g, rfl, List.mem_cons_self _ _⟩
        · have hne : p.1 ≠ k0 := by
            intro hc
            exact hnd.1 (hc ▸ (List.mem_map_of_mem Prod.fst hp))
          exact Or.inr (Or.inr ⟨hne, List.mem_cons_of_mem _ hp⟩)
      · simp only [insertGrouped, if_neg hk] at hp
        rcases List.mem_cons.mp hp with rfl | hp
        · exact Or.inr (Or.inr ⟨fun hc => hk hc, List.mem_cons_self _ _⟩)
        · rcases ih hnd.2 p hp with ⟨h1, g', h2, h3⟩ | ⟨h1, h2, h3⟩ | ⟨h1, h2⟩
          · exact Or.inl ⟨h1, g', h2, List.mem_cons_of_mem _ h3⟩
          · refine Or.inr (Or.inl ⟨h1, h2, ?_⟩)
            simp only [List.map_cons, List.mem_cons]
            push_neg
            exact ⟨fun hc => hk hc.symm, h3⟩
          · exact Or.inr (Or.inr ⟨h1, List.mem_cons_of_mem _ h2⟩)

/-- The invariant maintained while the grouping fold runs over its
input: the group keys are distinct, every group holds exactly the
already-seen elements with its key, every group key has been seen, and
every seen element has a group. -/
def GBKInv (f : Elem → Option JValue) (done : List Elem)
    (acc : List (Option JValue × List Elem)) : Prop :=
  (acc.map Prod.fst).Nodup ∧
  (∀ p ∈ acc, p.2 = done.filter (fun e => f e = p.1)) ∧
  (∀ p ∈ acc, ∃ d ∈ done, f d = p.1) ∧
  (∀ e ∈ done, f e ∈ acc.map Prod.fst)

theorem GBKInv_step (f : Elem → Option JValue) (done : List Elem)
    (acc : List (Option JValue × List Elem)) (e : Elem)
    (h : GBKInv f done acc) :
    GBKInv f (done ++ [e]) (insertGrouped acc (f e) e) := by
  obtain ⟨hnd, hcontent, hwit, hcompl⟩ := h
  refine ⟨?_, ?_, ?_, ?_⟩
  · by_cases hk : f e ∈ acc.map Prod.fst
    · rw [insertGrouped_keys_mem acc (f e) e hk]; exact hnd
    · rw [insertGrouped_keys_new acc (f e) e hk]
      refine List.Nodup.append hnd (List.nodup_singleton _) ?_
      intro x hx hx2
      rw [List.mem_singleton.mp hx2] at hx
      exact hk hx
  · intro p hp
    rcases insertGrouped_cases acc (f e) e hnd p hp with
      ⟨h1, g, h2, h3⟩ | ⟨h1, h2, h3⟩ | ⟨h1, h2⟩
    · have hg := hcontent (f e, g) h3
      simp only at hg
      rw [h2, hg, h1, List.filter_append]
      simp
    · rw [h2, h1, List.filter_append]
      have hnone : done.filter (fun d => f d = f e) = [] := by
        rw [List.filter_eq_nil_iff]
        intro d hd hfd
        exact h3 (by
          have := hcompl d hd
          simpa [show f d = f e from by simpa using hfd] using this)
      rw [hnone]
      simp
    · have hg := hcontent p h2
      rw [hg, List.filter_append]
      have hfe : (decide (f e = p.1)) = false := decide_eq_false (fun hc => h1 hc.symm)
      have : List.filter (fun d => decide (f d = p.1)) [e] = [] := by
        simp [List.filter_singleton, hfe]
      simp only [this, List.append_nil]
  · intro p hp
    rcases insertGrouped_cases acc (f e) e hnd p hp with
      ⟨h1, g, h2, h3⟩ | ⟨h1, h2, h3⟩ | ⟨h1, h2⟩
    · exact ⟨e, by simp, by rw [h1]⟩
    · exact ⟨e, by simp, by rw [h1]⟩
    · obtain ⟨d, hd, hfd⟩ := hwit p h2
      exact ⟨d, List.mem_append_left _ hd, hfd⟩
  · intro d hd
    have hsub : ∀ x, x ∈ acc.map Prod.fst → x ∈ (insertGrouped acc (f e) e).map Prod.fst := by
      intro x hx
      by_cases hk : f e ∈ acc.map Prod.fst
      · rwa [insertGrouped_keys_mem acc (f e) e hk]
      · rw [insertGrouped_keys_new acc (f e) e hk]
        exact List.mem_append_left _ hx
    rcases List.mem_append.mp hd with hd | hd
    · exact hsub _ (hcompl d hd)
    · rw [List.mem_singleton.mp hd]
      by_cases hk : f e ∈ acc.map Prod.fst
      · rw [insertGrouped_keys_mem acc (f e) e hk]; exact hk
      · rw [insertGrouped_keys_new acc (f e) e hk]
        exact List.mem_append_right _ (by simp)

theorem GBKInv_foldl (f : Elem → Option JValue) (es : List Elem) :
    ∀ (done : List Elem) (acc : List (Option JValue × List Elem)),
      GBKInv f done acc →
      GBKInv f (done ++ es) (es.foldl (fun a x => insertGrouped a (f x) x) acc) := by
  induction es with
  | nil => intro done acc h; simpa using h
  | cons e rest ih =>
      intro done acc h
      have h1 := GBKInv_step f done acc e h
      have h2 := ih (done ++ [e]) _ h1
      simpa using h2

theorem groupByKey_inv (es : List Elem) (f : Elem → Option JValue) :
    GBKInv f es (groupByKey es f) := by
  have h0 : GBKInv f [] [] := by
    refine ⟨by simp, by simp, by simp, by simp⟩
  have := GBKInv_foldl f es [] [] h0
  simpa [groupByKey] using this

theorem groupByKey_content (es : List Elem) (f : Elem → Option JValue) :
    ∀ p ∈ groupByKey es f, p.2 = es.filter (fun e => f e = p.1) :=
  (groupByKey_inv es f).2.1

theorem groupByKey_complete (es : List Elem) (f : Elem → Option JValue) :
    ∀ e ∈ es, f e ∈ (groupByKey es f).map Prod.fst :=
  (groupByKey_inv es f).2.2.2

theorem insertGrouped_flatMap_perm (acc : List (Option JValue × List Elem))
    (k : Option JValue) (e : Elem) :
    ((insertGrouped acc k e).flatMap Prod.snd).Perm (acc.flatMap Prod.snd ++ [e]) := by
  induction acc with
  | nil => simp [insertGrouped]
  | cons p rest ih =>
      obtain ⟨k0, g⟩ := p
      by_cases hk : k0 = k
      · simp only [insertGrouped, if_pos hk, List.flatMap_cons]
        have h1 : ((g ++ [e]) ++ rest.flatMap Prod.snd)
            = g ++ ([e] ++ rest.flatMap Prod.snd) := by simp
        have h2 : (g ++ ([e] ++ rest.flatMap Prod.snd)).Perm
            (g ++ (rest.flatMap Prod.snd ++ [e])) :=
          List.Perm.append_left g List.perm_append_comm
        have h3 : g ++ (rest.flatMap Prod.snd ++ [e])
            = (g ++ rest.flatMap Prod.snd) ++ [e] := by simp
        rw [h1]
        exact h3 ▸ h2
      · simp only [insertGrouped, if_neg hk, List.flatMap_cons]
        have h2 : (g ++ (insertGrouped rest k e).flatMap Prod.snd).Perm
            (g ++ (rest.flatMap Prod.snd ++ [e])) := List.Perm.append_left g ih
        have h3 : g ++ (rest.flatMap Prod.snd ++ [e])
            = (g ++ rest.flatMap Prod.snd) ++ [e] := by simp
        exact h3 ▸ h2

theorem groupByKey_flatMap_perm (es : List Elem) (f : Elem → Option JValue) :
    ((groupByKey es f).flatMap Prod.snd).Perm es := by
  suffices h : ∀ acc : List (Option JValue × List Elem),
      ((es.foldl (fun a x => insertGrouped a (f x) x) acc).flatMap Prod.snd).Perm
        (acc.flatMap Prod.snd ++ es) by
    simpa [groupByKey] using h []
  induction es with
  | nil => intro acc; simp
  | cons e rest ih =>
      intro acc
      have h1 := ih (insertGrouped acc (f e) e)
      have h2 : ((insertGrouped acc (f e) e).flatMap Prod.snd ++ rest).Perm
          ((acc.flatMap Prod.snd ++ [e]) ++ rest) :=
        (insertGrouped_flatMap_perm acc (f e) e).append_right rest
      have h3 : (acc.flatMap Prod.snd ++ [e]) ++ rest
          = acc.flatMap Prod.snd ++ (e :: rest) := by simp
      exact (h1.trans h2).trans (h3 ▸ List.Perm.refl _)

/-! ## Lemmas: the resolution loop -/

theorem group_of_mem (amb : List Elem) (f : Elem → Option JValue) (e : Elem)
    (he : e ∈ amb) :
    (f e, amb.filter (fun x => f x = f e)) ∈ groupByKey amb f := by
  have hkey := groupByKey_complete amb f e he
  obtain ⟨p, hp, hfst⟩ := List.mem_map.mp hkey
  have hcontent := groupByKey_content amb f p hp
  have : p = (f e, amb.filter (fun x => f x = f e)) := by
    obtain ⟨k, g⟩ := p
    simp only at hfst hcontent
    subst hfst
    rw [Prod.mk.injEq]
    exact ⟨rfl, hcontent⟩
  exact this ▸ hp

theorem mem_subgroupAt_self (lvl : String) (amb : List Elem) (e : Elem)
    (he : e ∈ amb) : e ∈ subgroupAt lvl amb e := by
  simp [subgroupAt, List.mem_filter, he]

theorem mem_stepAmb (lvl : String) (amb : List Elem) (e : Elem) (he : e ∈ amb)
    (hlen : (subgroupAt lvl amb e).length ≠ 1) : e ∈ stepAmb lvl amb := by
  have hgrp := group_of_mem amb (fun x => get_nested_value x lvl) e he
  simp only [stepAmb, List.mem_flatMap]
  refine ⟨(get_nested_value e lvl, subgroupAt lvl amb e), ?_, mem_subgroupAt_self lvl amb e he⟩
  rw [List.mem_filter]
  exact ⟨hgrp, by simpa using hlen⟩

theorem stepAmb_subset (lvl : String) (amb : List Elem) :
    ∀ e ∈ stepAmb lvl amb, e ∈ amb := by
  intro e he
  simp only [stepAmb, List.mem_flatMap] at he
  obtain ⟨p, hp, hep⟩ := he
  have hp2 := List.mem_filter.mp hp
  have := groupByKey_content amb _ p hp2.1
  rw [this] at hep
  exact (List.mem_filter.mp hep).1

theorem subgroupAt_singleton (lvl : String) (amb : List Elem) (e : Elem)
    (he : e ∈ amb) (hlen : (subgroupAt lvl amb e).length = 1) :
    subgroupAt lvl amb e = [e] := by
  obtain ⟨a, ha⟩ := List.length_eq_one.mp hlen
  have := mem_subgroupAt_self lvl amb e he
  rw [ha] at this ⊢
  rw [List.mem_singleton.mp this]

theorem assignContext_shape (pk lvl : String) (cv : Option JValue) (e : Elem) :
    assignContext pk lvl cv e = e ∨
      ∃ uc, assignContext pk lvl cv e = setField e "uniqueness_context" uc := by
  cases cv with
  | none => exact Or.inl rfl
  | some v =>
      right
      by_cases h : lvl = "id" ∧ pk = "text"
      · simp only [assignContext, if_pos h]
        cases hh : get_nested_value e "href" with
        | none => exact ⟨_, rfl⟩
        | some hv =>
            by_cases ht : pyTruthy hv
            · simp only [ht, if_true]
              exact ⟨_, rfl⟩
            · simp only [ht, Bool.false_eq_true, if_false]
              exact ⟨_, rfl⟩
      · simp only [assignContext, if_neg h]
        exact ⟨_, rfl⟩

theorem resolveLevels_cons (pk lvl : String) (rest : List String) (a : Elem)
    (l : List Elem) :
    resolveLevels pk (lvl :: rest) (a :: l) =
      ((groupByKey (a :: l) (fun e => get_nested_value e lvl)).filterMap (fun p =>
        match p.2 with
        | [e] => some (origIdx e,
            eraseField (assignContext pk lvl p.1 e) "_original_index")
        | _ => none)) ++ resolveLevels pk rest (stepAmb lvl (a :: l)) := by
  rw [resolveLevels]
  simp

theorem resolveLevels_nil_levels (pk : String) (a : Elem) (l : List Elem) :
    resolveLevels pk [] (a :: l) =
      (a :: l).map (fun e => (origIdx e, eraseField e "_original_index")) := by
  rw [resolveLevels]
  simp

theorem firstResolve_some_mem (pk : String) :
    ∀ (levels : List String) (amb : List Elem) (e : Elem), e ∈ amb →
      ∀ lvl cv, firstResolve levels amb e = some (lvl, cv) →
      (origIdx e, eraseField (assignContext pk lvl cv e) "_original_index") ∈
        resolveLevels pk levels amb := by
  intro levels
  induction levels with
  | nil => intro amb e he lvl cv h; simp [firstResolve] at h
  | cons l0 rest ih =>
      intro amb e he lvl cv h
      obtain ⟨a, amb', rfl⟩ : ∃ a amb', amb = a :: amb' := by
        cases amb with
        | nil => simp at he
        | cons a t => exact ⟨a, t, rfl⟩
      rw [resolveLevels_cons]
      by_cases hlen : (subgroupAt l0 (a :: amb') e).length = 1
      · rw [firstResolve, if_pos hlen] at h
        have h2 := Option.some.inj h
        have hl : l0 = lvl := congrArg Prod.fst h2
        subst hl
        have hcv : get_nested_value e l0 = cv := congrArg Prod.snd h2
        subst hcv
        apply List.mem_append_left
        rw [List.mem_filterMap]
        refine ⟨(get_nested_value e l0, subgroupAt l0 (a :: amb') e), ?_, ?_⟩
        · have := group_of_mem (a :: amb') (fun x => get_nested_value x l0) e he
          simpa [subgroupAt] using this
        · rw [subgroupAt_singleton l0 (a :: amb') e he hlen]
      · rw [firstResolve, if_neg hlen] at h
        exact List.mem_append_right _
          (ih (stepAmb l0 (a :: amb')) e (mem_stepAmb l0 _ e he hlen) lvl cv h)

theorem firstResolve_none_mem (pk : String) :
    ∀ (levels : List String) (amb : List Elem) (e : Elem), e ∈ amb →
      firstResolve levels amb e = none →
      (origIdx e, eraseField e "_original_index") ∈ resolveLevels pk levels amb := by
  intro levels
  induction levels with
  | nil =>
      intro amb e he _
      obtain ⟨a, amb', rfl⟩ : ∃ a amb', amb = a :: amb' := by
        cases amb with
        | nil => simp at he
        | cons a t => exact ⟨a, t, rfl⟩
      rw [resolveLevels_nil_levels]
      exact List.mem_map_of_mem _ he
  | cons l0 rest ih =>
      intro amb e he h
      obtain ⟨a, amb', rfl⟩ : ∃ a amb', amb = a :: amb' := by
        cases amb with
        | nil => simp at he
        | cons a t => exact ⟨a, t, rfl⟩
      rw [resolveLevels_cons]
      by_cases hlen : (subgroupAt l0 (a :: amb') e).length = 1
      · rw [firstResolve, if_pos hlen] at h
        simp at h
      · rw [firstResolve, if_neg hlen] at h
        exact List.mem_append_right _
          (ih (stepAmb l0 (a :: amb')) e (mem_stepAmb l0 _ e he hlen) h)

theorem perm_shift_middle (A B C : List Elem) :
    (A ++ (B ++ C)).Perm (B ++ (A ++ C)) := by
  have h1 : A ++ (B ++ C) = (A ++ B) ++ C := by simp
  have h2 : (B ++ A) ++ C = B ++ (A ++ C) := by simp
  rw [h1, ← h2]
  exact List.Perm.append_right C List.perm_append_comm

theorem singleOf_cases (p : Option JValue × List Elem) :
    (∃ e, p.2 = [e] ∧ singleOf p = some e) ∨ (p.2.length ≠ 1 ∧ singleOf p = none) := by
  obtain ⟨k, g⟩ := p
  rcases g with _ | ⟨a, _ | ⟨b, t⟩⟩
  · exact Or.inr ⟨by simp, rfl⟩
  · exact Or.inl ⟨a, rfl, rfl⟩
  · exact Or.inr ⟨by simp, rfl⟩

theorem singles_flatMap_perm (gs : List (Option JValue × List Elem)) :
    ((gs.filterMap singleOf) ++
      (gs.filter (fun p => p.2.length ≠ 1)).flatMap Prod.snd).Perm
      (gs.flatMap Prod.snd) := by
  induction gs with
  | nil => simp
  | cons p rest ih =>
      rcases singleOf_cases p with ⟨e, hg, hs⟩ | ⟨hlen, hs⟩
      · rw [List.filterMap_cons_some hs,
            List.filter_cons_of_neg (by simp [hg]), List.flatMap_cons, hg]
        simp only [List.cons_append, List.singleton_append]
        exact List.Perm.cons e ih
      · rw [List.filterMap_cons_none hs,
            List.filter_cons_of_pos (by simpa using hlen), List.flatMap_cons]
        exact (perm_shift_middle _ p.2 _).trans (List.Perm.append_left p.2 ih)

theorem resolved_map_fst (pk lvl : String) (gs : List (Option JValue × List Elem)) :
    (gs.filterMap (fun p => match p.2 with
        | [e] => some (origIdx e,
            eraseField (assignContext pk lvl p.1 e) "_original_index")
        | _ => none)).map Prod.fst
      = (gs.filterMap singleOf).map origIdx := by
  rw [List.map_filterMap, List.map_filterMap]
  congr 1
  funext p
  rcases singleOf_cases p with ⟨e, hg, hs⟩ | ⟨hlen, hs⟩
  · rw [hs, hg]
    rfl
  · rw [hs]
    rcases p with ⟨k, g⟩
    rcases g with _ | ⟨a, _ | ⟨b, t⟩⟩
    · rfl
    · exact (hlen (by simp)).elim
    · rfl

theorem resolveLevels_fst_perm (pk : String) :
    ∀ (levels : List String) (amb : List Elem),
      ((resolveLevels pk levels amb).map Prod.fst).Perm (amb.map origIdx) := by
  intro levels
  induction levels with
  | nil =>
      intro amb
      cases amb with
      | nil => simp [resolveLevels]
      | cons a l =>
          rw [resolveLevels_nil_levels, List.map_map]
          exact List.Perm.refl _
  | cons lvl rest ih =>
      intro amb
      cases amb with
      | nil => simp [resolveLevels]
      | cons a l =>
          rw [resolveLevels_cons, List.map_append, resolved_map_fst]
          refine (List.Perm.append_left _ (ih (stepAmb lvl (a :: l)))).trans ?_
          have h3 := (singles_flatMap_perm
            (groupByKey (a :: l) (fun e => get_nested_value e lvl))).map origIdx
          rw [List.map_append] at h3
          exact h3.trans ((groupByKey_flatMap_perm (a :: l)
            (fun e => get_nested_value e lvl)).map origIdx)

theorem resolveLevels_shape (pk : String) :
    ∀ (levels : List String) (amb : List Elem) (p : Nat × Elem),
      p ∈ resolveLevels pk levels amb →
      ∃ e, e ∈ amb ∧ p.1 = origIdx e ∧
        (p.2 = eraseField e "_original_index" ∨
          ∃ uc, p.2 = eraseField (setField e "uniqueness_context" uc) "_original_index") := by
  intro levels
  induction levels with
  | nil =>
      intro amb p hp
      cases amb with
      | nil => simp [resolveLevels] at hp
      | cons a l =>
          rw [resolveLevels_nil_levels] at hp
          obtain ⟨e, he, rfl⟩ := List.mem_map.mp hp
          exact ⟨e, he, rfl, Or.inl rfl⟩
  | cons lvl rest ih =>
      intro amb p hp
      cases amb with
      | nil => simp [resolveLevels] at hp
      | cons a l =>
          rw [resolveLevels_cons] at hp
          rcases List.mem_append.mp hp with hp | hp
          · obtain ⟨q, hq, hqp⟩ := List.mem_filterMap.mp hp
            rcases singleOf_cases q with ⟨e, hg, _⟩ | ⟨hlen, _⟩
            · rw [hg] at hqp
              have hep : p = (origIdx e,
                  eraseField (assignContext pk lvl q.1 e) "_original_index") := by
                exact (Option.some.inj hqp).symm
              have hemem : e ∈ (a :: l) := by
                have hcontent := groupByKey_content (a :: l)
                  (fun x => get_nested_value x lvl) q hq
                have : e ∈ q.2 := by rw [hg]; simp
                rw [hcontent] at this
                exact (List.mem_filter.mp this).1
              refine ⟨e, hemem, by rw [hep], ?_⟩
              rcases assignContext_shape pk lvl q.1 e with hsh | ⟨uc, hsh⟩
              · exact Or.inl (by rw [hep, hsh])
              · exact Or.inr ⟨uc, by rw [hep, hsh]⟩
            · rcases q with ⟨k, g⟩
              rcases g with _ | ⟨x, _ | ⟨y, t⟩⟩
              · simp at hqp
              · exact (hlen (by simp)).elim
              · simp at hqp
          · obtain ⟨e, he, h1, h2⟩ := ih (stepAmb lvl (a :: l)) p hp
            exact ⟨e, stepAmb_subset lvl (a :: l) e he, h1, h2⟩

/-! ## Lemmas: add_uniqueness_context assembled -/

theorem addUC_eq (data : List Elem) (pk : String) (hier : List String) :
    add_uniqueness_context data pk hier =
      (List.range data.length).filterMap
        (fun i => ((placedPairs data pk hier).find? (fun q => q.1 = i)).map (·.2)) := rfl

theorem origIdx_append_num {e0 : Elem} (j : Nat)
    (h : e0.lookup "_original_index" = none) :
    origIdx (e0 ++ [("_original_index", JValue.num j)]) = j := by
  unfold origIdx
  rw [lookup_append_of_none h]
  simp [List.lookup_cons]

theorem indexedElems_mem_char (data : List Elem) (hf : FreshElems data) :
    ∀ e ∈ indexedElems data, ∃ j, j < data.length ∧
      e = data.getD j [] ++ [("_original_index", JValue.num j)] ∧ origIdx e = j := by
  intro e he
  simp only [indexedElems, List.mem_map] at he
  obtain ⟨p, hp, rfl⟩ := he
  have hmem : p.2 ∈ data := List.snd_mem_of_mem_enum hp
  have hlt : p.1 < data.length ∧ data.getD p.1 [] = p.2 := by
    rw [List.mem_enum_iff_getElem?] at hp
    have h1 : p.1 < data.length := by
      by_contra hc
      rw [List.getElem?_eq_none (by omega)] at hp
      exact Option.noConfusion hp
    refine ⟨h1, ?_⟩
    rw [List.getD_eq_getElem data [] h1]
    have := List.getElem?_eq_getElem h1
    rw [this] at hp
    exact Option.some.inj hp
  have hfresh := (freshElems_spec hf p.2 hmem).1
  rw [setField_of_absent _ hfresh]
  exact ⟨p.1, hlt.1, by rw [hlt.2], origIdx_append_num p.1 hfresh⟩

theorem indexedElems_getD (data : List Elem) (hf : FreshElems data) (i : Nat)
    (hi : i < data.length) :
    (indexedElems data).getD i [] =
      data.getD i [] ++ [("_original_index", JValue.num i)] := by
  have hlen : (indexedElems data).length = data.length := by
    simp [indexedElems]
  rw [List.getD_eq_getElem _ [] (by omega), List.getD_eq_getElem data [] hi]
  simp only [indexedElems]
  rw [List.getElem_map, List.getElem_enum]
  exact setField_of_absent _ ((freshElems_spec hf _ (List.getElem_mem _)).1)

theorem indexedElems_map_origIdx (data : List Elem) (hf : FreshElems data) :
    (indexedElems data).map origIdx = List.range data.length := by
  simp only [indexedElems, List.map_map]
  rw [show (origIdx ∘ fun p : Nat × Elem =>
      setField p.2 "_original_index" (JValue.num p.1)) =
      (fun p : Nat × Elem =>
        origIdx (setField p.2 "_original_index" (JValue.num p.1))) from rfl]
  rw [List.map_congr_left (g := Prod.fst) (fun p hp => by
    have hfresh := (freshElems_spec hf p.2 (List.snd_mem_of_mem_enum hp)).1
    rw [setField_of_absent _ hfresh]
    exact origIdx_append_num p.1 hfresh)]
  exact List.enum_map_fst data

theorem flatMap_perm_congr {α β : Type} (l : List α) (F G : α → List β)
    (h : ∀ a ∈ l, (F a).Perm (G a)) : (l.flatMap F).Perm (l.flatMap G) := by
  induction l with
  | nil => simp
  | cons a rest ih =>
      rw [List.flatMap_cons, List.flatMap_cons]
      exact List.Perm.append (h a (by simp))
        (ih (fun x hx => h x (List.mem_cons_of_mem a hx)))

theorem placedPairs_fst_perm (data : List Elem) (pk : String) (hier : List String)
    (hf : FreshElems data) :
    ((placedPairs data pk hier).map Prod.fst).Perm (List.range data.length) := by
  rw [placedPairs, List.map_flatMap]
  have h1 : ∀ p ∈ groupByKey (indexedElems data) (fun e => get_nested_value e pk),
      ((match p.2 with
        | [e] => [(origIdx e, eraseField e "_original_index")]
        | g => resolveLevels pk hier g).map Prod.fst).Perm (p.2.map origIdx) := by
    intro p _
    rcases singleOf_cases p with ⟨e, hg, _⟩ | ⟨hlen, _⟩
    · rw [hg]
      exact List.Perm.refl _
    · rcases hq : p.2 with _ | ⟨x, _ | ⟨y, t⟩⟩
      · simpa [hq] using resolveLevels_fst_perm pk hier []
      · exact (hlen (by rw [hq]; rfl)).elim
      · simpa [hq] using resolveLevels_fst_perm pk hier (x :: y :: t)
  refine (flatMap_perm_congr _ _ _ h1).trans ?_
  have h2 : ((groupByKey (indexedElems data)
      (fun e => get_nested_value e pk)).flatMap (fun p => p.2.map origIdx))
      = ((groupByKey (indexedElems data)
          (fun e => get_nested_value e pk)).flatMap Prod.snd).map origIdx := by
    rw [List.map_flatMap]
  rw [h2, ← indexedElems_map_origIdx data hf]
  exact (groupByKey_flatMap_perm _ _).map origIdx

theorem filterMap_eq_map_of_forall {α β : Type} (l : List α) (f : α → Option β)
    (g : α → β) (h : ∀ a ∈ l, f a = some (g a)) : l.filterMap f = l.map g := by
  induction l with
  | nil => rfl
  | cons a t ih =>
      rw [List.filterMap_cons_some (h a (by simp)), List.map_cons,
        ih (fun x hx => h x (List.mem_cons_of_mem a hx))]

theorem placedPairs_find (data : List Elem) (pk : String) (hier : List String)
    (hf : FreshElems data) (i : Nat) (hi : i < data.length) :
    ∃ q, (placedPairs data pk hier).find? (fun q => q.1 = i) = some q ∧
      q.1 = i ∧ q ∈ placedPairs data pk hier ∧
      ∀ q2 ∈ placedPairs data pk hier, q2.1 = i → q2 = q := by
  have hperm := placedPairs_fst_perm data pk hier hf
  have hnd : ((placedPairs data pk hier).map Prod.fst).Nodup :=
    hperm.nodup_iff.mpr (List.nodup_range _)
  have hmemi : i ∈ (placedPairs data pk hier).map Prod.fst :=
    (hperm.mem_iff).mpr (List.mem_range.mpr hi)
  obtain ⟨q0, hq0, hq0i⟩ := List.mem_map.mp hmemi
  have hsome : ((placedPairs data pk hier).find? (fun q => q.1 = i)).isSome := by
    rw [List.find?_isSome]
    exact ⟨q0, hq0, by simp [hq0i]⟩
  obtain ⟨q, hq⟩ := Option.isSome_iff_exists.mp hsome
  have hqi : q.1 = i := by simpa using List.find?_some hq
  have hqmem : q ∈ placedPairs data pk hier := List.mem_of_find?_eq_some hq
  refine ⟨q, hq, hqi, hqmem, ?_⟩
  intro q2 hq2 hq2i
  exact List.inj_on_of_nodup_map hnd hq2 hqmem (by rw [hq2i, hqi])

theorem addUC_length (data : List Elem) (pk : String) (hier : List String)
    (hf : FreshElems data) :
    (add_uniqueness_context data pk hier).length = data.length := by
  rw [addUC_eq]
  have h : ∀ i ∈ List.range data.length,
      ((placedPairs data pk hier).find? (fun q => q.1 = i)).map (·.2) =
        some ((((placedPairs data pk hier).find? (fun q => q.1 = i)).getD (0, [])).2) := by
    intro i hii
    obtain ⟨q, hq, _⟩ := placedPairs_find data pk hier hf i (List.mem_range.mp hii)
    rw [hq]
    rfl
  rw [filterMap_eq_map_of_forall _ _ _ h]
  simp

theorem addUC_getD (data : List Elem) (pk : String) (hier : List String)
    (hf : FreshElems data) (i : Nat) (hi : i < data.length) :
    ∀ q ∈ placedPairs data pk hier, q.1 = i →
      (add_uniqueness_context data pk hier).getD i [] = q.2 := by
  intro q hq hqi
  obtain ⟨q0, hfind, hq0i, hq0mem, huniq⟩ := placedPairs_find data pk hier hf i hi
  have hqq0 : q = q0 := huniq q hq hqi
  subst hqq0
  rw [addUC_eq]
  have h : ∀ j ∈ List.range data.length,
      ((placedPairs data pk hier).find? (fun q => q.1 = j)).map (·.2) =
        some ((((placedPairs data pk hier).find? (fun q => q.1 = j)).getD (0, [])).2) := by
    intro j hjj
    obtain ⟨qj, hqj, _⟩ := placedPairs_find data pk hier hf j (List.mem_range.mp hjj)
    rw [hqj]
    rfl
  rw [filterMap_eq_map_of_forall _ _ _ h]
  rw [List.getD_eq_getElem _ [] (by simpa using hi), List.getElem_map,
    List.getElem_range]
  rw [hfind]
  rfl

theorem mem_indexedElems_getD (data : List Elem) (i : Nat) (hi : i < data.length) :
    (indexedElems data).getD i [] ∈ indexedElems data := by
  have hlen : (indexedElems data).length = data.length := by simp [indexedElems]
  rw [List.getD_eq_getElem _ [] (by omega)]
  exact List.getElem_mem _

theorem mem_placedPairs_of_single (data : List Elem) (pk : String)
    (hier : List String) (key : Option JValue) (e : Elem)
    (hgrp : (key, [e]) ∈ groupByKey (indexedElems data)
      (fun x => get_nested_value x pk)) :
    (origIdx e, eraseField e "_original_index") ∈ placedPairs data pk hier := by
  rw [placedPairs, List.mem_flatMap]
  exact ⟨(key, [e]), hgrp, by simp⟩

theorem mem_placedPairs_of_group (data : List Elem) (pk : String)
    (hier : List String) (key : Option JValue) (g : List Elem)
    (hgrp : (key, g) ∈ groupByKey (indexedElems data)
      (fun x => get_nested_value x pk))
    (hne : ∀ x, g ≠ [x]) (q : Nat × Elem) (hq : q ∈ resolveLevels pk hier g) :
    q ∈ placedPairs data pk hier := by
  rw [placedPairs, List.mem_flatMap]
  refine ⟨(key, g), hgrp, ?_⟩
  rcases g with _ | ⟨x, _ | ⟨y, t⟩⟩
  · rw [resolveLevels] at hq
    simp at hq
  · exact absurd rfl (hne x)
  · exact hq

theorem placedPairs_of_index (data : List Elem) (pk : String) (hier : List String)
    (hf : FreshElems data) (i : Nat) (hi : i < data.length) (eI : Elem)
    (heI : eI = data.getD i [] ++ [("_original_index", JValue.num i)])
    (g : List Elem)
    (hg : g = (indexedElems data).filter
      (fun x => get_nested_value x pk = get_nested_value eI pk)) :
    (g = [eI] → (i, data.getD i []) ∈ placedPairs data pk hier) ∧
    (g ≠ [eI] →
      (∀ lvl cv, firstResolve hier g eI = some (lvl, cv) →
        (i, eraseField (assignContext pk lvl cv eI) "_original_index") ∈
          placedPairs data pk hier) ∧
      (firstResolve hier g eI = none →
        (i, data.getD i []) ∈ placedPairs data pk hier)) := by
  have hifresh : (data.getD i []).lookup "_original_index" = none := by
    rw [List.getD_eq_getElem data [] hi]
    exact (freshElems_spec hf _ (List.getElem_mem _)).1
  have horig : origIdx eI = i := heI ▸ origIdx_append_num i hifresh
  have heimem : eI ∈ indexedElems data := by
    rw [heI, ← indexedElems_getD data hf i hi]
    exact mem_indexedElems_getD data i hi
  have hgrp : (get_nested_value eI pk, g) ∈
      groupByKey (indexedElems data) (fun e => get_nested_value e pk) := by
    rw [hg]
    exact group_of_mem (indexedElems data) _ eI heimem
  have heg : eI ∈ g := by
    rw [hg, List.mem_filter]
    exact ⟨heimem, by simp⟩
  have herase : eraseField eI "_original_index" = data.getD i [] := by
    rw [heI]
    exact eraseField_append_single hifresh
  constructor
  · intro hsing
    have := mem_placedPairs_of_single data pk hier (get_nested_value eI pk) eI
      (hsing ▸ hgrp)
    rwa [horig, herase] at this
  · intro hne
    have hnex : ∀ x, g ≠ [x] := by
      intro x hx
      rw [hx] at heg
      exact hne (by rw [hx, List.mem_singleton.mp heg])
    constructor
    · intro lvl cv hfr
      have := mem_placedPairs_of_group data pk hier (get_nested_value eI pk) g
        hgrp hnex _ (firstResolve_some_mem pk hier g eI heg lvl cv hfr)
      rwa [horig] at this
    · intro hfr
      have := mem_placedPairs_of_group data pk hier (get_nested_value eI pk) g
        hgrp hnex _ (firstResolve_none_mem pk hier g eI heg hfr)
      rwa [horig, herase] at this

theorem addUC_outcome (data : List Elem) (pk : String) (hier : List String)
    (hf : FreshElems data) (i : Nat) (hi : i < data.length) (eI : Elem)
    (heI : eI = data.getD i [] ++ [("_original_index", JValue.num i)])
    (g : List Elem)
    (hg : g = (indexedElems data).filter
      (fun x => get_nested_value x pk = get_nested_value eI pk)) :
    (g = [eI] →
      (add_uniqueness_context data pk hier).getD i [] = data.getD i []) ∧
    (g ≠ [eI] →
      (∀ lvl cv, firstResolve hier g eI = some (lvl, cv) →
        (add_uniqueness_context data pk hier).getD i [] =
          eraseField (assignContext pk lvl cv eI) "_original_index") ∧
      (firstResolve hier g eI = none →
        (add_uniqueness_context data pk hier).getD i [] = data.getD i [])) := by
  obtain ⟨h1, h2⟩ := placedPairs_of_index data pk hier hf i hi eI heI g hg
  constructor
  · intro hsing
    exact addUC_getD data pk hier hf i hi _ (h1 hsing) rfl
  · intro hne
    obtain ⟨h2a, h2b⟩ := h2 hne
    constructor
    · intro lvl cv hfr
      exact addUC_getD data pk hier hf i hi _ (h2a lvl cv hfr) rfl
    · intro hfr
      exact addUC_getD data pk hier hf i hi _ (h2b hfr) rfl

/-! ## Lemmas: get_nested_value ignores the tracker field -/

theorem dictGet_append_single_ne (e : List (String × JValue)) (k oi : String)
    (v : JValue) (h : k ≠ oi) :
    dictGet (e ++ [(oi, v)]) k = dictGet e k := by
  unfold dictGet
  rw [lookup_append_single_ne e k oi v h]

theorem gnv_append_tracker (e : Elem) (w : JValue) (k : String)
    (hk : ∃ h t, pySplit k "." = h :: t ∧ h ≠ "_original_index") :
    get_nested_value (e ++ [("_original_index", w)]) k = get_nested_value e k := by
  unfold get_nested_value
  by_cases h1 : k = "sibling_text"
  · rw [if_pos h1, if_pos h1,
      dictGet_append_single_ne e "next_sibling_text" _ w (by decide),
      dictGet_append_single_ne e "prev_sibling_text" _ w (by decide)]
  · rw [if_neg h1, if_neg h1]
    by_cases h2 : k = "parent_classes"
    · rw [if_pos h2, if_pos h2,
        lookup_append_single_ne e "parent" _ w (by decide)]
    · rw [if_neg h2, if_neg h2]
      by_cases h3 : k = "parent_description"
      · rw [if_pos h3, if_pos h3,
          lookup_append_single_ne e "parent" _ w (by decide)]
      · rw [if_neg h3, if_neg h3]
        by_cases h4 : k = "href"
        · rw [if_pos h4, if_pos h4,
            lookup_append_single_ne e "href" _ w (by decide)]
        · rw [if_neg h4, if_neg h4]
          obtain ⟨h, t, hsp, hne⟩ := hk
          rw [hsp]
          have hstep : traverseKeys (.obj (e ++ [("_original_index", w)])) (h :: t) =
              traverseKeys (.obj e) (h :: t) := by
            rw [traverseKeys, traverseKeys,
              dictGet_append_single_ne e h "_original_index" w hne]
          rw [hstep]

/-! ## Lemmas: the refinement trace -/

theorem ambAfter_cons (lvl : String) (rest : List String) (amb : List Elem) :
    ambAfter (lvl :: rest) amb = ambAfter rest (stepAmb lvl amb) := rfl

theorem ambAfter_subset : ∀ (levels : List String) (amb : List Elem),
    ∀ e ∈ ambAfter levels amb, e ∈ amb := by
  intro levels
  induction levels with
  | nil => intro amb e he; exact he
  | cons lvl rest ih =>
      intro amb e he
      rw [ambAfter_cons] at he
      exact stepAmb_subset lvl amb e (ih (stepAmb lvl amb) e he)

theorem not_mem_stepAmb_of_singleton (lvl : String) (amb : List Elem) (e : Elem)
    (hs : (subgroupAt lvl amb e).length = 1) : e ∉ stepAmb lvl amb := by
  intro hmem
  simp only [stepAmb, List.mem_flatMap] at hmem
  obtain ⟨p, hp, hep⟩ := hmem
  have hp2 := List.mem_filter.mp hp
  have hcontent := groupByKey_content amb _ p hp2.1
  have hfe : get_nested_value e lvl = p.1 := by
    have := hep
    rw [hcontent] at this
    simpa using (List.mem_filter.mp this).2
  have : p.2 = subgroupAt lvl amb e := by
    rw [hcontent, subgroupAt, hfe]
  rw [this] at hp2
  have := hp2.2
  simp [hs] at this

theorem firstResolve_none_iff : ∀ (levels : List String) (amb : List Elem)
    (e : Elem), e ∈ amb →
    (firstResolve levels amb e = none ↔ e ∈ ambAfter levels amb) := by
  intro levels
  induction levels with
  | nil => intro amb e he; simp [firstResolve, ambAfter, he]
  | cons lvl rest ih =>
      intro amb e he
      rw [ambAfter_cons]
      by_cases hs : (subgroupAt lvl amb e).length = 1
      · rw [firstResolve, if_pos hs]
        constructor
        · intro h; exact Option.noConfusion h
        · intro h
          exact absurd (ambAfter_subset rest (stepAmb lvl amb) e h)
            (not_mem_stepAmb_of_singleton lvl amb e hs)
      · rw [firstResolve, if_neg hs]
        exact ih (stepAmb lvl amb) e (mem_stepAmb lvl amb e he hs)

theorem firstResolve_spec : ∀ (levels : List String) (amb : List Elem)
    (e : Elem), e ∈ amb → ∀ lvl cv, firstResolve levels amb e = some (lvl, cv) →
    ∃ k, k < levels.length ∧ levels.getD k "" = lvl ∧
      cv = get_nested_value e lvl ∧
      e ∈ ambAfter (levels.take k) amb ∧
      (subgroupAt lvl (ambAfter (levels.take k) amb) e).length = 1 ∧
      ∀ j, j < k →
        2 ≤ (subgroupAt (levels.getD j "") (ambAfter (levels.take j) amb) e).length := by
  intro levels
  induction levels with
  | nil => intro amb e he lvl cv h; simp [firstResolve] at h
  | cons l0 rest ih =>
      intro amb e he lvl cv h
      by_cases hs : (subgroupAt l0 amb e).length = 1
      · rw [firstResolve, if_pos hs] at h
        have h2 := Option.some.inj h
        have hl : l0 = lvl := congrArg Prod.fst h2
        have hcv : get_nested_value e l0 = cv := congrArg Prod.snd h2
        subst hl
        refine ⟨0, by simp, by simp, hcv.symm, by simpa [ambAfter] using he,
          by simpa [ambAfter] using hs, by omega⟩
      · rw [firstResolve, if_neg hs] at h
        obtain ⟨k, hk, hlvl, hcv, hmem, hsing, hmin⟩ :=
          ih (stepAmb l0 amb) e (mem_stepAmb l0 amb e he hs) lvl cv h
        refine ⟨k + 1, by simpa using hk, by simpa using hlvl, hcv, ?_, ?_, ?_⟩
        · rw [List.take_succ_cons, ambAfter_cons]
          exact hmem
        · rw [List.take_succ_cons, ambAfter_cons]
          exact hsing
        · intro j hj
          cases j with
          | zero =>
              have hself := mem_subgroupAt_self l0 amb e he
              have hpos : 0 < (subgroupAt l0 amb e).length :=
                List.length_pos.mpr
                  (fun hc => by rw [hc] at hself; simp at hself)
              rw [show (l0 :: rest).getD 0 "" = l0 from rfl,
                show (l0 :: rest).take 0 = [] from rfl,
                show ambAfter [] amb = amb from rfl]
              omega
          | succ j' =>
              rw [List.getD_cons_succ, List.take_succ_cons, ambAfter_cons]
              exact hmin j' (by omega)

/-! ## Lemmas: the attached context value -/

theorem assignContext_some_eq (pk lvl : String) (v : JValue) (e : Elem) :
    assignContext pk lvl (some v) e =
      setField e "uniqueness_context"
        (ucValueFor pk lvl v (get_nested_value e "href")) := by
  by_cases h : lvl = "id" ∧ pk = "text"
  · simp only [assignContext, ucValueFor, if_pos h]
    cases hh : get_nested_value e "href" with
    | none => rfl
    | some hv =>
        by_cases ht : pyTruthy hv
        · simp only [ht, if_true]
        · simp only [ht, Bool.false_eq_true, if_false]
  · simp only [assignContext, ucValueFor, if_neg h]

theorem assignContext_none_eq (pk lvl : String) (e : Elem) :
    assignContext pk lvl none e = e := rfl

theorem lookup_tracker_pair_ne (w : JValue) :
    List.lookup "uniqueness_context" [("_original_index", w)] = none := by
  rw [List.lookup_cons]
  have h1 : ("uniqueness_context" == "_original_index") = false := by decide
  rw [h1]
  rfl

theorem setField_uc_on_indexed (e0 : Elem) (w v : JValue)
    (h : e0.lookup "uniqueness_context" = none) :
    setField (e0 ++ [("_original_index", w)]) "uniqueness_context" v =
      e0 ++ [("_original_index", w), ("uniqueness_context", v)] := by
  have habs : (e0 ++ [("_original_index", w)]).lookup "uniqueness_context" = none := by
    rw [lookup_append_of_none h, lookup_tracker_pair_ne]
  rw [setField_of_absent v habs]
  simp

theorem erase_tracker_middle (e0 : Elem) (w v : JValue)
    (h : e0.lookup "_original_index" = none) :
    eraseField (e0 ++ [("_original_index", w), ("uniqueness_context", v)])
      "_original_index" = e0 ++ [("uniqueness_context", v)] := by
  have hall := lookup_none_forall h
  simp only [eraseField, List.filter_append]
  rw [List.filter_eq_self.mpr (fun p hp => by simpa using hall p hp)]
  have : List.filter (fun p => p.1 ≠ "_original_index")
      [("_original_index", w), ("uniqueness_context", v)] =
      [("uniqueness_context", v)] := by
    rw [List.filter_cons_of_neg (by simp), List.filter_cons_of_pos (by simp)]
    rfl
  rw [this]

theorem lookup_uc_of_appended (e0 : Elem) (v : JValue)
    (h : e0.lookup "uniqueness_context" = none) :
    (e0 ++ [("uniqueness_context", v)]).lookup "uniqueness_context" = some v := by
  rw [lookup_append_of_none h, List.lookup_cons]
  have h1 : ("uniqueness_context" == "uniqueness_context") = true := by decide
  rw [h1]

theorem gnv_href_indexed (data : List Elem) (hf : FreshElems data) (i : Nat)
    (hi : i < data.length) :
    get_nested_value (data.getD i [] ++ [("_original_index", JValue.num i)]) "href" =
      get_nested_value (data.getD i []) "href" :=
  gnv_append_tracker _ _ _ ⟨"href", [], by decide, by decide⟩

theorem addUC_resolved_some_value (data : List Elem) (pk : String)
    (hier : List String) (hf : FreshElems data) (i : Nat) (hi : i < data.length)
    (eI : Elem) (heI : eI = data.getD i [] ++ [("_original_index", JValue.num i)])
    (g : List Elem)
    (hg : g = (indexedElems data).filter
      (fun x => get_nested_value x pk = get_nested_value eI pk))
    (lvl : String) (v : JValue) (hne : g ≠ [eI])
    (hfr : firstResolve hier g eI = some (lvl, some v)) :
    (add_uniqueness_context data pk hier).getD i [] =
      data.getD i [] ++ [("uniqueness_context",
        ucValueFor pk lvl v (get_nested_value (data.getD i []) "href"))] := by
  have hfreshi : (data.getD i []).lookup "_original_index" = none ∧
      (data.getD i []).lookup "uniqueness_context" = none := by
    rw [List.getD_eq_getElem data [] hi]
    exact freshElems_spec hf _ (List.getElem_mem _)
  have hout := ((addUC_outcome data pk hier hf i hi eI heI g hg).2 hne).1 lvl
    (some v) hfr
  rw [hout, assignContext_some_eq, heI, gnv_href_indexed data hf i hi,
    setField_uc_on_indexed _ _ _ hfreshi.2, erase_tracker_middle _ _ _ hfreshi.1]

theorem addUC_shape (data : List Elem) (pk : String) (hier : List String)
    (hf : FreshElems data) (i : Nat) (hi : i < data.length) :
    (add_uniqueness_context data pk hier).getD i [] = data.getD i [] ∨
    ∃ v, (add_uniqueness_context data pk hier).getD i [] =
      data.getD i [] ++ [("uniqueness_context", v)] := by
  have hout := addUC_outcome data pk hier hf i hi
    (data.getD i [] ++ [("_original_index", JValue.num i)]) rfl
    ((indexedElems data).filter (fun x => get_nested_value x pk =
      get_nested_value (data.getD i [] ++ [("_original_index", JValue.num i)]) pk)) rfl
  by_cases hsing : (indexedElems data).filter (fun x => get_nested_value x pk =
      get_nested_value (data.getD i [] ++ [("_original_index", JValue.num i)]) pk) =
      [data.getD i [] ++ [("_original_index", JValue.num i)]]
  · exact Or.inl (hout.1 hsing)
  · obtain ⟨ha, hb⟩ := hout.2 hsing
    cases hfr : firstResolve hier ((indexedElems data).filter
        (fun x => get_nested_value x pk = get_nested_value
          (data.getD i [] ++ [("_original_index", JValue.num i)]) pk))
        (data.getD i [] ++ [("_original_index", JValue.num i)]) with
    | none => exact Or.inl (hb hfr)
    | some p =>
        obtain ⟨lvl, cv⟩ := p
        cases cv with
        | none =>
            left
            have := ha lvl none hfr
            rw [this, assignContext_none_eq]
            have hfreshi : (data.getD i []).lookup "_original_index" = none ∧
                (data.getD i []).lookup "uniqueness_context" = none := by
              rw [List.getD_eq_getElem data [] hi]
              exact freshElems_spec hf _ (List.getElem_mem _)
            exact eraseField_append_single hfreshi.1
        | some v =>
            right
            exact ⟨_, addUC_resolved_some_value data pk hier hf i hi _ rfl _ rfl
              lvl v hsing hfr⟩

/-! ## Claim theorems: the Resolver -/

/-- C4: for every input list, primary key and context hierarchy,
`add_uniqueness_context` returns a list of the same length whose i-th
record is the i-th input record (up to the possible
`uniqueness_context` addition): resolution never reorders, drops or
duplicates elements.  The hypothesis says the input records are fresh
Extractor records, not yet carrying the fields the Resolver manages. -/
theorem C4_no_reorder_drop_duplicate (data : List Elem) (pk : String)
    (hier : List String) (hf : FreshElems data) :
    (add_uniqueness_context data pk hier).length = data.length ∧
    ∀ i, i < data.length →
      eraseField ((add_uniqueness_context data pk hier).getD i [])
        "uniqueness_context" = data.getD i [] := by
  refine ⟨addUC_length data pk hier hf, ?_⟩
  intro i hi
  have hfreshi : (data.getD i []).lookup "_original_index" = none ∧
      (data.getD i []).lookup "uniqueness_context" = none := by
    rw [List.getD_eq_getElem data [] hi]
    exact freshElems_spec hf _ (List.getElem_mem _)
  rcases addUC_shape data pk hier hf i hi with h | ⟨v, h⟩
  · rw [h]
    exact eraseField_of_absent hfreshi.2
  · rw [h]
    exact eraseField_append_single hfreshi.2

/-- Witness for C4 at a concrete two-record input. -/
theorem C4_no_reorder_drop_duplicate_witness :
    FreshElems [[("t", JValue.str "A")], [("t", JValue.str "A")]] ∧
    ((add_uniqueness_context [[("t", JValue.str "A")], [("t", JValue.str "A")]]
        "t" ["id"]).length =
      ([[("t", JValue.str "A")], [("t", JValue.str "A")]] : List Elem).length ∧
    ∀ i, i < ([[("t", JValue.str "A")], [("t", JValue.str "A")]] : List Elem).length →
      eraseField ((add_uniqueness_context
          [[("t", JValue.str "A")], [("t", JValue.str "A")]] "t" ["id"]).getD i [])
        "uniqueness_context" =
        ([[("t", JValue.str "A")], [("t", JValue.str "A")]] : List Elem).getD i []) :=
  ⟨by decide,
   C4_no_reorder_drop_duplicate [[("t", JValue.str "A")], [("t", JValue.str "A")]]
     "t" ["id"] (by decide)⟩

/-- C6: every output record equals its input record, except possibly
for one appended `uniqueness_context` field; nothing else is added,
removed or changed. -/
theorem C6_frame_only_uniqueness_context (data : List Elem) (pk : String)
    (hier : List String) (hf : FreshElems data) :
    ∀ i, i < data.length →
      (add_uniqueness_context data pk hier).getD i [] = data.getD i [] ∨
      ∃ v, (add_uniqueness_context data pk hier).getD i [] =
        data.getD i [] ++ [("uniqueness_context", v)] :=
  fun i hi => addUC_shape data pk hier hf i hi

/-- Witness for C6 at a concrete input where one record does get a
`uniqueness_context` and one does not. -/
theorem C6_frame_only_uniqueness_context_witness :
    FreshElems [[("t", JValue.str "A"), ("id", JValue.str "i1")],
      [("t", JValue.str "A")]] ∧
    (∀ i, i < ([[("t", JValue.str "A"), ("id", JValue.str "i1")],
        [("t", JValue.str "A")]] : List Elem).length →
      (add_uniqueness_context [[("t", JValue.str "A"), ("id", JValue.str "i1")],
        [("t", JValue.str "A")]] "t" ["id"]).getD i [] =
        ([[("t", JValue.str "A"), ("id", JValue.str "i1")],
          [("t", JValue.str "A")]] : List Elem).getD i [] ∨
      ∃ v, (add_uniqueness_context [[("t", JValue.str "A"), ("id", JValue.str "i1")],
        [("t", JValue.str "A")]] "t" ["id"]).getD i [] =
        ([[("t", JValue.str "A"), ("id", JValue.str "i1")],
          [("t", JValue.str "A")]] : List Elem).getD i [] ++
          [("uniqueness_context", v)]) :=
  ⟨by decide,
   C6_frame_only_uniqueness_context
     [[("t", JValue.str "A"), ("id", JValue.str "i1")], [("t", JValue.str "A")]]
     "t" ["id"] (by decide)⟩

/-- C1 (amended): a record sharing its primary value carries a
`uniqueness_context` exactly when the iterative refinement resolves it
at some level with a non-None context value; it is resolved without a
context exactly when its singleton subgroup had the None value; and the
hierarchy leaves it unresolved exactly when it is still in the
ambiguous set after every level. -/
theorem C1_shared_primary_trichotomy (data : List Elem) (pk : String)
    (hier : List String) (hf : FreshElems data) (hr : ReservedFree [pk])
    (i : Nat) (hi : i < data.length) (hs : sharesPrimary data pk i) :
    ((((add_uniqueness_context data pk hier).getD i []).lookup
        "uniqueness_context").isSome ↔
      ∃ lvl v, firstResolve hier (groupOfIdx data pk i)
        ((indexedElems data).getD i []) = some (lvl, some v)) ∧
    (firstResolve hier (groupOfIdx data pk i)
        ((indexedElems data).getD i []) = none ↔
      (indexedElems data).getD i [] ∈ ambAfter hier (groupOfIdx data pk i)) := by
  have hpk := reservedFree_spec hr pk (by simp)
  have heI : (indexedElems data).getD i [] =
      data.getD i [] ++ [("_original_index", JValue.num i)] :=
    indexedElems_getD data hf i hi
  have hfreshi : (data.getD i []).lookup "_original_index" = none ∧
      (data.getD i []).lookup "uniqueness_context" = none := by
    rw [List.getD_eq_getElem data [] hi]
    exact freshElems_spec hf _ (List.getElem_mem _)
  rw [heI, groupOfIdx, heI]
  have hout := addUC_outcome data pk hier hf i hi _ rfl _ rfl
  have hememI : (data.getD i [] ++ [("_original_index", JValue.num i)]) ∈
      (indexedElems data).filter (fun x => get_nested_value x pk =
        get_nested_value (data.getD i [] ++ [("_original_index", JValue.num i)]) pk) := by
    rw [List.mem_filter]
    exact ⟨heI ▸ mem_indexedElems_getD data i hi, by simp⟩
  obtain ⟨j, hj, hji, hvaleq⟩ := hs
  have heJ : (indexedElems data).getD j [] =
      data.getD j [] ++ [("_original_index", JValue.num j)] :=
    indexedElems_getD data hf j hj
  have hfreshj : (data.getD j []).lookup "_original_index" = none := by
    rw [List.getD_eq_getElem data [] hj]
    exact (freshElems_spec hf _ (List.getElem_mem _)).1
  have hJval : get_nested_value
      (data.getD j [] ++ [("_original_index", JValue.num j)]) pk =
      get_nested_value (data.getD j []) pk := gnv_append_tracker _ _ _ hpk
  have hIval : get_nested_value
      (data.getD i [] ++ [("_original_index", JValue.num i)]) pk =
      get_nested_value (data.getD i []) pk := gnv_append_tracker _ _ _ hpk
  have hJinG : (data.getD j [] ++ [("_original_index", JValue.num j)]) ∈
      (indexedElems data).filter (fun x => get_nested_value x pk =
        get_nested_value (data.getD i [] ++ [("_original_index", JValue.num i)]) pk) := by
    rw [List.mem_filter]
    refine ⟨heJ ▸ mem_indexedElems_getD data j hj, ?_⟩
    rw [decide_eq_true_eq, hJval, hIval]
    exact hvaleq
  have hJneI : (data.getD j [] ++ [("_original_index", JValue.num j)]) ≠
      (data.getD i [] ++ [("_original_index", JValue.num i)]) := by
    intro hc
    apply hji
    have := congrArg origIdx hc
    rwa [origIdx_append_num j hfreshj, origIdx_append_num i hfreshi.1] at this
  have hne : (indexedElems data).filter (fun x => get_nested_value x pk =
      get_nested_value (data.getD i [] ++ [("_original_index", JValue.num i)]) pk) ≠
      [data.getD i [] ++ [("_original_index", JValue.num i)]] := by
    intro hc
    exact hJneI (List.mem_singleton.mp (hc ▸ hJinG))
  refine ⟨?_, firstResolve_none_iff hier _ _ hememI⟩
  cases hfr : firstResolve hier ((indexedElems data).filter
      (fun x => get_nested_value x pk = get_nested_value
        (data.getD i [] ++ [("_original_index", JValue.num i)]) pk))
      (data.getD i [] ++ [("_original_index", JValue.num i)]) with
  | none =>
      constructor
      · intro habs
        rw [(hout.2 hne).2 hfr, hfreshi.2] at habs
        simp at habs
      · rintro ⟨lvl, v, habs⟩
        exact Option.noConfusion habs
  | some p =>
      obtain ⟨lvl, cv⟩ := p
      cases cv with
      | none =>
          constructor
          · intro habs
            have hval := (hout.2 hne).1 lvl none hfr
            rw [assignContext_none_eq] at hval
            rw [hval, eraseField_append_single hfreshi.1, hfreshi.2] at habs
            simp at habs
          · rintro ⟨lvl2, v2, habs⟩
            have := Option.some.inj habs
            exact Option.noConfusion (congrArg Prod.snd this)
      | some v =>
          constructor
          · intro _
            exact ⟨lvl, v, rfl⟩
          · intro _
            have hval := addUC_resolved_some_value data pk hier hf i hi _ rfl _ rfl
              lvl v hne hfr
            rw [hval, lookup_uc_of_appended _ _ hfreshi.2]
            rfl

/-- Two link-like records sharing primary text, with distinct ids. -/
def wit1_data : List Elem :=
  [[("t", JValue.str "A"), ("id", JValue.str "x")],
   [("t", JValue.str "A"), ("id", JValue.str "y")]]

/-- Witness for C1 at a concrete shared-primary input. -/
theorem C1_shared_primary_trichotomy_witness :
    FreshElems wit1_data ∧ ReservedFree ["t"] ∧ 0 < wit1_data.length ∧
    sharesPrimary wit1_data "t" 0 ∧
    (((((add_uniqueness_context wit1_data "t" ["id"]).getD 0 []).lookup
        "uniqueness_context").isSome ↔
      ∃ lvl v, firstResolve ["id"] (groupOfIdx wit1_data "t" 0)
        ((indexedElems wit1_data).getD 0 []) = some (lvl, some v)) ∧
    (firstResolve ["id"] (groupOfIdx wit1_data "t" 0)
        ((indexedElems wit1_data).getD 0 []) = none ↔
      (indexedElems wit1_data).getD 0 [] ∈
        ambAfter ["id"] (groupOfIdx wit1_data "t" 0))) :=
  ⟨by decide, by decide, by decide, ⟨1, by decide, by decide, by decide⟩,
   C1_shared_primary_trichotomy wit1_data "t" ["id"] (by decide) (by decide)
     0 (by decide) ⟨1, by decide, by decide, by decide⟩⟩

/-- C2 (amended): a record that receives a `uniqueness_context` was
resolved at the first context level of the iterative refinement at
which its subgroup among the still-ambiguous records became a
singleton — at every earlier level at least one other still-ambiguous
record shared its value — and the reported context is `ucValueFor`,
which equals that discriminating level except in the link special case,
where `href` is reported in its place. -/
theorem C2_minimality_of_discriminating_level (data : List Elem) (pk : String)
    (hier : List String) (hf : FreshElems data) (i : Nat) (hi : i < data.length)
    (huc : ((((add_uniqueness_context data pk hier).getD i []).lookup
      "uniqueness_context")).isSome) :
    ∃ k lvl v, k < hier.length ∧ hier.getD k "" = lvl ∧
      firstResolve hier (groupOfIdx data pk i)
        ((indexedElems data).getD i []) = some (lvl, some v) ∧
      (indexedElems data).getD i [] ∈
        ambAfter (hier.take k) (groupOfIdx data pk i) ∧
      (subgroupAt lvl (ambAfter (hier.take k) (groupOfIdx data pk i))
        ((indexedElems data).getD i [])).length = 1 ∧
      (∀ j, j < k → 2 ≤ (subgroupAt (hier.getD j "")
        (ambAfter (hier.take j) (groupOfIdx data pk i))
        ((indexedElems data).getD i [])).length) ∧
      (((add_uniqueness_context data pk hier).getD i []).lookup
        "uniqueness_context") =
        some (ucValueFor pk lvl v (get_nested_value (data.getD i []) "href")) := by
  have heI : (indexedElems data).getD i [] =
      data.getD i [] ++ [("_original_index", JValue.num i)] :=
    indexedElems_getD data hf i hi
  have hfreshi : (data.getD i []).lookup "_original_index" = none ∧
      (data.getD i []).lookup "uniqueness_context" = none := by
    rw [List.getD_eq_getElem data [] hi]
    exact freshElems_spec hf _ (List.getElem_mem _)
  rw [heI, groupOfIdx, heI]
  have hout := addUC_outcome data pk hier hf i hi _ rfl _ rfl
  have hememI : (data.getD i [] ++ [("_original_index", JValue.num i)]) ∈
      (indexedElems data).filter (fun x => get_nested_value x pk =
        get_nested_value (data.getD i [] ++ [("_original_index", JValue.num i)]) pk) := by
    rw [List.mem_filter]
    exact ⟨heI ▸ mem_indexedElems_getD data i hi, by simp⟩
  by_cases hsing : (indexedElems data).filter (fun x => get_nested_value x pk =
      get_nested_value (data.getD i [] ++ [("_original_index", JValue.num i)]) pk) =
      [data.getD i [] ++ [("_original_index", JValue.num i)]]
  · rw [hout.1 hsing, hfreshi.2] at huc
    simp at huc
  · cases hfr : firstResolve hier ((indexedElems data).filter
        (fun x => get_nested_value x pk = get_nested_value
          (data.getD i [] ++ [("_original_index", JValue.num i)]) pk))
        (data.getD i [] ++ [("_original_index", JValue.num i)]) with
    | none =>
        rw [(hout.2 hsing).2 hfr, hfreshi.2] at huc
        simp at huc
    | some p =>
        obtain ⟨lvl, cv⟩ := p
        cases cv with
        | none =>
            have hval := (hout.2 hsing).1 lvl none hfr
            rw [assignContext_none_eq] at hval
            rw [hval, eraseField_append_single hfreshi.1, hfreshi.2] at huc
            simp at huc
        | some v =>
            obtain ⟨k, hk, hlvl, _, hmem, hsgl, hmin⟩ :=
              firstResolve_spec hier _ _ hememI lvl (some v) hfr
            refine ⟨k, lvl, v, hk, hlvl, rfl, hmem, hsgl, hmin, ?_⟩
            rw [addUC_resolved_some_value data pk hier hf i hi _ rfl _ rfl
              lvl v hsing hfr, lookup_uc_of_appended _ _ hfreshi.2]

/-- Two links with the same text and the same href but different ids:
resolved at level id, reported as href. -/
def wit2_data : List Elem :=
  [[("text", JValue.str "Home"), ("id", JValue.str "a1"),
    ("href", JValue.str "http://x.com/p")],
   [("text", JValue.str "Home"), ("id", JValue.str "a2"),
    ("href", JValue.str "http://x.com/p")]]

/-- Witness for C2 at a concrete input that receives a context. -/
theorem C2_minimality_of_discriminating_level_witness :
    FreshElems wit2_data ∧ 0 < wit2_data.length ∧
    ((((add_uniqueness_context wit2_data "text" ["id", "href"]).getD 0 []).lookup
      "uniqueness_context")).isSome ∧
    (∃ k lvl v, k < (["id", "href"] : List String).length ∧
      (["id", "href"] : List String).getD k "" = lvl ∧
      firstResolve ["id", "href"] (groupOfIdx wit2_data "text" 0)
        ((indexedElems wit2_data).getD 0 []) = some (lvl, some v) ∧
      (indexedElems wit2_data).getD 0 [] ∈
        ambAfter ((["id", "href"] : List String).take k)
          (groupOfIdx wit2_data "text" 0) ∧
      (subgroupAt lvl (ambAfter ((["id", "href"] : List String).take k)
          (groupOfIdx wit2_data "text" 0))
        ((indexedElems wit2_data).getD 0 [])).length = 1 ∧
      (∀ j, j < k → 2 ≤ (subgroupAt ((["id", "href"] : List String).getD j "")
        (ambAfter ((["id", "href"] : List String).take j)
          (groupOfIdx wit2_data "text" 0))
        ((indexedElems wit2_data).getD 0 [])).length) ∧
      (((add_uniqueness_context wit2_data "text" ["id", "href"]).getD 0 []).lookup
        "uniqueness_context") =
        some (ucValueFor "text" lvl v
          (get_nested_value (wit2_data.getD 0 []) "href"))) :=
  ⟨by decide, by decide, by decide,
   C2_minimality_of_discriminating_level wit2_data "text" ["id", "href"]
     (by decide) 0 (by decide) (by decide)⟩

/-- C3 (amended): when a record is resolved with a non-None context
value, the reported context is the discriminating level itself for
every `(level, primary key)` combination other than
`(id, text)`; in the `(id, text)` case the link's href-derived context
is reported instead precisely when that derived value exists and is
truthy (non-None and non-empty); a None or empty derived value falls
back to reporting `id`. -/
theorem C3_href_preference_scope (data : List Elem) (pk : String)
    (hier : List String) (hf : FreshElems data) (i : Nat) (hi : i < data.length)
    (lvl : String) (v : JValue)
    (hne : groupOfIdx data pk i ≠ [(indexedElems data).getD i []])
    (hfr : firstResolve hier (groupOfIdx data pk i)
      ((indexedElems data).getD i []) = some (lvl, some v)) :
    (¬(lvl = "id" ∧ pk = "text") →
      ((add_uniqueness_context data pk hier).getD i []).lookup
        "uniqueness_context" =
        some (.obj [("level", .str lvl), ("value", v)])) ∧
    (lvl = "id" → pk = "text" →
      (∀ hv, get_nested_value (data.getD i []) "href" = some hv →
        pyTruthy hv = true →
        ((add_uniqueness_context data pk hier).getD i []).lookup
          "uniqueness_context" =
          some (.obj [("level", .str "href"), ("value", hv)])) ∧
      (∀ hv, get_nested_value (data.getD i []) "href" = some hv →
        pyTruthy hv = false →
        ((add_uniqueness_context data pk hier).getD i []).lookup
          "uniqueness_context" =
          some (.obj [("level", .str lvl), ("value", v)])) ∧
      (get_nested_value (data.getD i []) "href" = none →
        ((add_uniqueness_context data pk hier).getD i []).lookup
          "uniqueness_context" =
          some (.obj [("level", .str lvl), ("value", v)]))) := by
  have heI : (indexedElems data).getD i [] =
      data.getD i [] ++ [("_original_index", JValue.num i)] :=
    indexedElems_getD data hf i hi
  have hfreshi : (data.getD i []).lookup "_original_index" = none ∧
      (data.getD i []).lookup "uniqueness_context" = none := by
    rw [List.getD_eq_getElem data [] hi]
    exact freshElems_spec hf _ (List.getElem_mem _)
  rw [heI, groupOfIdx, heI] at hne hfr
  have hval := addUC_resolved_some_value data pk hier hf i hi _ rfl _ rfl
    lvl v hne hfr
  rw [hval, lookup_uc_of_appended _ _ hfreshi.2]
  constructor
  · intro hnot
    rw [show ucValueFor pk lvl v (get_nested_value (data.getD i []) "href") =
      JValue.obj [("level", .str lvl), ("value", v)] from by
        rw [ucValueFor.eq_def, if_neg hnot]]
  · intro hl hp
    refine ⟨?_, ?_, ?_⟩
    · intro hv hhv ht
      rw [show ucValueFor pk lvl v (get_nested_value (data.getD i []) "href") =
        JValue.obj [("level", .str "href"), ("value", hv)] from by
          rw [ucValueFor.eq_def, if_pos ⟨hl, hp⟩, hhv]
          simp [ht]]
    · intro hv hhv ht
      rw [show ucValueFor pk lvl v (get_nested_value (data.getD i []) "href") =
        JValue.obj [("level", .str lvl), ("value", v)] from by
          rw [ucValueFor.eq_def, if_pos ⟨hl, hp⟩, hhv]
          simp [ht]]
    · intro hhv
      rw [show ucValueFor pk lvl v (get_nested_value (data.getD i []) "href") =
        JValue.obj [("level", .str lvl), ("value", v)] from by
          rw [ucValueFor.eq_def, if_pos ⟨hl, hp⟩, hhv]]

/-- Witness for C3: the href case of `wit2_data` resolved at `id`. -/
theorem C3_href_preference_scope_witness :
    FreshElems wit2_data ∧ 0 < wit2_data.length ∧
    groupOfIdx wit2_data "text" 0 ≠ [(indexedElems wit2_data).getD 0 []] ∧
    firstResolve ["id", "href"] (groupOfIdx wit2_data "text" 0)
      ((indexedElems wit2_data).getD 0 []) =
      some ("id", some (JValue.str "a1")) ∧
    ((¬("id" = "id" ∧ "text" = "text") →
      ((add_uniqueness_context wit2_data "text" ["id", "href"]).getD 0 []).lookup
        "uniqueness_context" =
        some (.obj [("level", .str "id"), ("value", JValue.str "a1")])) ∧
    ("id" = "id" → "text" = "text" →
      (∀ hv, get_nested_value (wit2_data.getD 0 []) "href" = some hv →
        pyTruthy hv = true →
        ((add_uniqueness_context wit2_data "text" ["id", "href"]).getD 0 []).lookup
          "uniqueness_context" =
          some (.obj [("level", .str "href"), ("value", hv)])) ∧
      (∀ hv, get_nested_value (wit2_data.getD 0 []) "href" = some hv →
        pyTruthy hv = false →
        ((add_uniqueness_context wit2_data "text" ["id", "href"]).getD 0 []).lookup
          "uniqueness_context" =
          some (.obj [("level", .str "id"), ("value", JValue.str "a1")])) ∧
      (get_nested_value (wit2_data.getD 0 []) "href" = none →
        ((add_uniqueness_context wit2_data "text" ["id", "href"]).getD 0 []).lookup
          "uniqueness_context" =
          some (.obj [("level", .str "id"), ("value", JValue.str "a1")])))) :=
  ⟨by decide, by decide, by decide, by decide,
   C3_href_preference_scope wit2_data "text" ["id", "href"] (by decide) 0
     (by decide) "id" (JValue.str "a1") (by decide) (by decide)⟩

theorem filter_eq_singleton_of_indices {α : Type} :
    ∀ (l : List α) (p : α → Bool) (i : Nat) (hi : i < l.length),
      p (l.get ⟨i, hi⟩) = true →
      (∀ j (hj : j < l.length), j ≠ i → p (l.get ⟨j, hj⟩) = false) →
      l.filter p = [l.get ⟨i, hi⟩] := by
  intro l
  induction l with
  | nil => intro p i hi; simp at hi
  | cons a t ih =>
      intro p i hi hp hothers
      cases i with
      | zero =>
          rw [List.filter_cons_of_pos (by simpa using hp)]
          have htnil : t.filter p = [] := by
            rw [List.filter_eq_nil_iff]
            intro x hx
            obtain ⟨j, hj, rfl⟩ := List.mem_iff_getElem.mp hx
            have := hothers (j + 1) (by simpa using hj) (by omega)
            simp only [List.get_eq_getElem, List.getElem_cons_succ] at this
            simp [this]
          rw [htnil]
          rfl
      | succ i1 =>
          have ha : p a = false := by
            have := hothers 0 (by omega) (by omega)
            simpa using this
          rw [List.filter_cons_of_neg (by simp [ha])]
          have hi1 : i1 < t.length := by simpa using hi
          have hp1 : p (t.get ⟨i1, hi1⟩) = true := by
            have : (a :: t).get ⟨i1 + 1, hi⟩ = t.get ⟨i1, hi1⟩ := by
              simp
            rwa [this] at hp
          have hothers1 : ∀ j (hj : j < t.length), j ≠ i1 →
              p (t.get ⟨j, hj⟩) = false := by
            intro j hj hji
            have := hothers (j + 1) (by simpa using hj) (by omega)
            simpa using this
          rw [ih p i1 hi1 hp1 hothers1]
          simp

/-- C10: records whose primary-key lookup yields the no-value marker
are grouped together as one group; a lone such record passes through
unchanged; several such records go through the context hierarchy
exactly as any other ambiguous group (and may receive a
`uniqueness_context`, as the witness shows). -/
theorem C10_null_primary_group (data : List Elem) (pk : String)
    (hier : List String) (hf : FreshElems data) (hr : ReservedFree [pk]) :
    (∀ i j, i < data.length → j < data.length →
      get_nested_value (data.getD i []) pk = none →
      get_nested_value (data.getD j []) pk = none →
      groupOfIdx data pk i = groupOfIdx data pk j) ∧
    (∀ i, i < data.length → get_nested_value (data.getD i []) pk = none →
      (∀ j, j < data.length → j ≠ i →
        get_nested_value (data.getD j []) pk ≠ none) →
      (add_uniqueness_context data pk hier).getD i [] = data.getD i []) ∧
    (∀ i, i < data.length → get_nested_value (data.getD i []) pk = none →
      ∀ j, j < data.length → j ≠ i →
      get_nested_value (data.getD j []) pk = none →
      (∀ lvl cv, firstResolve hier (groupOfIdx data pk i)
          ((indexedElems data).getD i []) = some (lvl, cv) →
        (add_uniqueness_context data pk hier).getD i [] =
          eraseField (assignContext pk lvl cv ((indexedElems data).getD i []))
            "_original_index") ∧
      (firstResolve hier (groupOfIdx data pk i)
          ((indexedElems data).getD i []) = none →
        (add_uniqueness_context data pk hier).getD i [] = data.getD i [])) := by
  have hpk := reservedFree_spec hr pk (by simp)
  have hval : ∀ m, m < data.length →
      get_nested_value ((indexedElems data).getD m []) pk =
        get_nested_value (data.getD m []) pk := by
    intro m hm
    rw [indexedElems_getD data hf m hm]
    exact gnv_append_tracker _ _ _ hpk
  refine ⟨?_, ?_, ?_⟩
  · intro i j hi hj hpi hpj
    rw [groupOfIdx, groupOfIdx, hval i hi, hval j hj, hpi, hpj]
  · intro i hi hpi hothers
    have heI : (indexedElems data).getD i [] =
        data.getD i [] ++ [("_original_index", JValue.num i)] :=
      indexedElems_getD data hf i hi
    have hlen : (indexedElems data).length = data.length := by simp [indexedElems]
    have hgetEq : (indexedElems data).get ⟨i, by omega⟩ =
        (indexedElems data).getD i [] := by
      rw [List.getD_eq_getElem _ [] (by omega)]
      rfl
    have hsing : (indexedElems data).filter (fun x => get_nested_value x pk =
        get_nested_value (data.getD i [] ++ [("_original_index", JValue.num i)]) pk) =
        [data.getD i [] ++ [("_original_index", JValue.num i)]] := by
      rw [← heI, ← hgetEq]
      apply filter_eq_singleton_of_indices (indexedElems data) _ i (by omega)
      · rw [decide_eq_true_eq]
      · intro j hj hji
        have hj2 : j < data.length := by omega
        have hgetj : (indexedElems data).get ⟨j, hj⟩ =
            (indexedElems data).getD j [] := by
          rw [List.getD_eq_getElem _ [] (by omega)]
          rfl
        rw [decide_eq_false_iff_not, hgetj, hval j hj2, hgetEq, hval i hi, hpi]
        exact hothers j hj2 hji
    exact (addUC_outcome data pk hier hf i hi _ rfl _ rfl).1 hsing
  · intro i hi hpi j hj hji hpj
    have heI : (indexedElems data).getD i [] =
        data.getD i [] ++ [("_original_index", JValue.num i)] :=
      indexedElems_getD data hf i hi
    have hfreshj : (data.getD j []).lookup "_original_index" = none := by
      rw [List.getD_eq_getElem data [] hj]
      exact (freshElems_spec hf _ (List.getElem_mem _)).1
    have hfreshi : (data.getD i []).lookup "_original_index" = none := by
      rw [List.getD_eq_getElem data [] hi]
      exact (freshElems_spec hf _ (List.getElem_mem _)).1
    have heJ : (indexedElems data).getD j [] =
        data.getD j [] ++ [("_original_index", JValue.num j)] :=
      indexedElems_getD data hf j hj
    have hJinG : (data.getD j [] ++ [("_original_index", JValue.num j)]) ∈
        (indexedElems data).filter (fun x => get_nested_value x pk =
          get_nested_value (data.getD i [] ++ [("_original_index", JValue.num i)]) pk) := by
      rw [List.mem_filter]
      refine ⟨heJ ▸ mem_indexedElems_getD data j hj, ?_⟩
      rw [decide_eq_true_eq, gnv_append_tracker _ _ _ hpk,
        gnv_append_tracker _ _ _ hpk, hpi, hpj]
    have hJneI : (data.getD j [] ++ [("_original_index", JValue.num j)]) ≠
        (data.getD i [] ++ [("_original_index", JValue.num i)]) := by
      intro hc
      apply hji
      have := congrArg origIdx hc
      rwa [origIdx_append_num j hfreshj, origIdx_append_num i hfreshi] at this
    have hne : (indexedElems data).filter (fun x => get_nested_value x pk =
        get_nested_value (data.getD i [] ++ [("_original_index", JValue.num i)]) pk) ≠
        [data.getD i [] ++ [("_original_index", JValue.num i)]] := by
      intro hc
      exact hJneI (List.mem_singleton.mp (hc ▸ hJinG))
    have hout := (addUC_outcome data pk hier hf i hi _ rfl _ rfl).2 hne
    rw [groupOfIdx, heI]
    exact hout

/-- Three records: two lacking the primary key entirely, one carrying
it; the two null-primary records resolve through their ids. -/
def wit10_data : List Elem :=
  [[("id", JValue.str "p")], [("t", JValue.str "T")], [("id", JValue.str "q")]]

/-- Witness for C10 at a concrete input whose null-primary records get
contexts through the hierarchy. -/
theorem C10_null_primary_group_witness :
    FreshElems wit10_data ∧ ReservedFree ["t"] ∧
    ((∀ i j, i < wit10_data.length → j < wit10_data.length →
      get_nested_value (wit10_data.getD i []) "t" = none →
      get_nested_value (wit10_data.getD j []) "t" = none →
      groupOfIdx wit10_data "t" i = groupOfIdx wit10_data "t" j) ∧
    (∀ i, i < wit10_data.length →
      get_nested_value (wit10_data.getD i []) "t" = none →
      (∀ j, j < wit10_data.length → j ≠ i →
        get_nested_value (wit10_data.getD j []) "t" ≠ none) →
      (add_uniqueness_context wit10_data "t" ["id"]).getD i [] =
        wit10_data.getD i []) ∧
    (∀ i, i < wit10_data.length →
      get_nested_value (wit10_data.getD i []) "t" = none →
      ∀ j, j < wit10_data.length → j ≠ i →
      get_nested_value (wit10_data.getD j []) "t" = none →
      (∀ lvl cv, firstResolve ["id"] (groupOfIdx wit10_data "t" i)
          ((indexedElems wit10_data).getD i []) = some (lvl, cv) →
        (add_uniqueness_context wit10_data "t" ["id"]).getD i [] =
          eraseField (assignContext "t" lvl cv
            ((indexedElems wit10_data).getD i [])) "_original_index") ∧
      (firstResolve ["id"] (groupOfIdx wit10_data "t" i)
          ((indexedElems wit10_data).getD i []) = none →
        (add_uniqueness_context wit10_data "t" ["id"]).getD i [] =
          wit10_data.getD i []))) ∧
    ((add_uniqueness_context wit10_data "t" ["id"]).getD 0 []).lookup
      "uniqueness_context" =
      some (.obj [("level", .str "id"), ("value", .str "p")]) :=
  ⟨by decide, by decide,
   C10_null_primary_group wit10_data "t" ["id"] (by decide) (by decide),
   by decide⟩

theorem traverseKeys_nil (v : JValue) : traverseKeys v [] = some v := by
  cases v <;> rfl

theorem traverseKeys_cons (fs : List (String × JValue)) (k : String)
    (rest : List String) :
    traverseKeys (.obj fs) (k :: rest) =
      match dictGet fs k with
      | none => none
      | some v => traverseKeys v rest := rfl

/-- C5: a missing or unreachable value resolves to the explicit
no-value marker `none` — which is distinct from the empty string, since
a stored empty string resolves to `some ""` — marker-valued records
still group together (the group keyed `none` holds exactly the records
lacking the value), and the composite `sibling_text` level prefers the
next-sibling text when it is present (truthy), falling back to the
previous-sibling text otherwise. -/
theorem C5_no_value_marker_and_sibling_text :
    (∀ (e : Elem) (k : String) (h : String) (t : List String),
      k ≠ "sibling_text" → k ≠ "parent_classes" → k ≠ "parent_description" →
      k ≠ "href" → pySplit k "." = h :: t → dictGet e h = none →
      get_nested_value e k = none) ∧
    (∀ (e : Elem) (k : String),
      k ≠ "sibling_text" → k ≠ "parent_classes" → k ≠ "parent_description" →
      k ≠ "href" → k ≠ "classes" → pySplit k "." = [k] →
      e.lookup k = some (JValue.str "") →
      get_nested_value e k = some (JValue.str "")) ∧
    (∀ (e : Elem), e.lookup "parent" = none →
      get_nested_value e "parent_classes" = none ∧
      get_nested_value e "parent_description" = none) ∧
    (∀ (amb : List Elem) (lvl : String) (p : Option JValue × List Elem),
      p ∈ groupByKey amb (fun e => get_nested_value e lvl) → p.1 = none →
      p.2 = amb.filter (fun e => get_nested_value e lvl = none)) ∧
    (∀ (e : Elem) (v : JValue), dictGet e "next_sibling_text" = some v →
      pyTruthy v = true → get_nested_value e "sibling_text" = some v) ∧
    (∀ (e : Elem), (dictGet e "next_sibling_text" = none ∨
        ∃ v, dictGet e "next_sibling_text" = some v ∧ pyTruthy v = false) →
      get_nested_value e "sibling_text" = dictGet e "prev_sibling_text") := by
  refine ⟨?_, ?_, ?_, ?_, ?_, ?_⟩
  · intro e k h t h1 h2 h3 h4 hsp hget
    rw [get_nested_value, if_neg h1, if_neg h2, if_neg h3, if_neg h4, hsp,
      traverseKeys_cons, hget]
  · intro e k h1 h2 h3 h4 h5 hsp hlook
    have hget : dictGet e k = some (JValue.str "") := by
      rw [dictGet, hlook]
    rw [get_nested_value, if_neg h1, if_neg h2, if_neg h3, if_neg h4, hsp,
      traverseKeys_cons, hget]
    simp [traverseKeys_nil, h5]
  · intro e hpar
    constructor
    · rw [get_nested_value]
      rw [if_neg (by decide), if_pos rfl, hpar]
    · rw [get_nested_value]
      rw [if_neg (by decide), if_neg (by decide), if_pos rfl, hpar]
  · intro amb lvl p hp hkey
    rw [groupByKey_content amb _ p hp, hkey]
  · intro e v hnext ht
    rw [get_nested_value, if_pos rfl, hnext]
    simp [ht]
  · intro e hcase
    rcases hcase with hnone | ⟨v, hsome, hfalse⟩
    · rw [get_nested_value, if_pos rfl, hnone]
    · rw [get_nested_value, if_pos rfl, hsome]
      simp [hfalse]

/-- Witness for C5 at concrete records. -/
theorem C5_no_value_marker_and_sibling_text_witness :
    get_nested_value [("a", JValue.str "x")] "b" = none ∧
    get_nested_value [("b", JValue.str "")] "b" = some (JValue.str "") ∧
    get_nested_value [("next_sibling_text", JValue.str ""),
      ("prev_sibling_text", JValue.str "yo")] "sibling_text" =
      some (JValue.str "yo") :=
  ⟨C5_no_value_marker_and_sibling_text.1 [("a", JValue.str "x")] "b" "b" []
      (by decide) (by decide) (by decide) (by decide) (by decide) (by decide),
   C5_no_value_marker_and_sibling_text.2.1 [("b", JValue.str "")] "b"
      (by decide) (by decide) (by decide) (by decide) (by decide) (by decide)
      (by decide),
   (C5_no_value_marker_and_sibling_text.2.2.2.2.2
      [("next_sibling_text", JValue.str ""), ("prev_sibling_text", JValue.str "yo")]
      (Or.inr ⟨JValue.str "", by decide, by decide⟩)).trans (by decide)⟩

/-! ## Lemmas: the element budget -/

theorem headingsLoop_bound (maxE : Nat) : ∀ (cs : List Ctx) (hIdx : Nat)
    (st : ExtractState), stTotal st ≤ st.count → st.count ≤ maxE →
    stTotal (headingsLoop maxE cs hIdx st) ≤ (headingsLoop maxE cs hIdx st).count ∧
    (headingsLoop maxE cs hIdx st).count ≤ maxE := by
  intro cs
  induction cs with
  | nil => intro hIdx st h1 h2; exact ⟨h1, h2⟩
  | cons c rest ih =>
      intro hIdx st h1 h2
      rw [headingsLoop]
      by_cases hc : st.count ≥ maxE
      · rw [if_pos hc]; exact ⟨h1, h2⟩
      · rw [if_neg hc]
        by_cases ht : getText c.node ≠ ""
        · rw [if_pos ht]
          exact ih (hIdx + 1) _ (by simp [stTotal] at h1 ⊢; omega) (by simp; omega)
        · rw [if_neg ht]
          exact ih hIdx st h1 h2

theorem paragraphsLoop_bound (maxE : Nat) : ∀ (cs : List Ctx) (pIdx : Nat)
    (st : ExtractState), stTotal st ≤ st.count → st.count ≤ maxE →
    stTotal (paragraphsLoop maxE cs pIdx st) ≤ (paragraphsLoop maxE cs pIdx st).count ∧
    (paragraphsLoop maxE cs pIdx st).count ≤ maxE := by
  intro cs
  induction cs with
  | nil => intro pIdx st h1 h2; exact ⟨h1, h2⟩
  | cons c rest ih =>
      intro pIdx st h1 h2
      rw [paragraphsLoop]
      by_cases hc : st.count ≥ maxE
      · rw [if_pos hc]; exact ⟨h1, h2⟩
      · rw [if_neg hc]
        by_cases hpi : isPartOfInteractive c = true
        · rw [if_pos hpi]; exact ih pIdx st h1 h2
        · rw [if_neg hpi]
          by_cases hoc : onlyChildHeading c.children = true
          · rw [if_pos hoc]; exact ih pIdx st h1 h2
          · rw [if_neg hoc]
            by_cases htxt : getText c.node ≠ "" ∧ (getText c.node).length > 10
            · rw [if_pos htxt]
              exact ih (pIdx + 1) _ (by simp [stTotal] at h1 ⊢; omega) (by simp; omega)
            · rw [if_neg htxt]; exact ih pIdx st h1 h2

theorem linksLoop_bound (maxE : Nat) : ∀ (cs : List Ctx) (st : ExtractState),
    stTotal st ≤ st.count → st.count ≤ maxE →
    stTotal (linksLoop maxE cs st) ≤ (linksLoop maxE cs st).count ∧
    (linksLoop maxE cs st).count ≤ maxE := by
  intro cs
  induction cs with
  | nil => intro st h1 h2; exact ⟨h1, h2⟩
  | cons c rest ih =>
      intro st h1 h2
      rw [linksLoop]
      by_cases hc : st.count ≥ maxE
      · rw [if_pos hc]; exact ⟨h1, h2⟩
      · rw [if_neg hc]
        exact ih _ (by simp [stTotal] at h1 ⊢; omega) (by simp; omega)

theorem buttonsLoop_bound (maxE : Nat) : ∀ (cs : List Ctx) (bIdx : Nat)
    (st : ExtractState), stTotal st ≤ st.count → st.count ≤ maxE →
    stTotal (buttonsLoop maxE cs bIdx st) ≤ (buttonsLoop maxE cs bIdx st).count ∧
    (buttonsLoop maxE cs bIdx st).count ≤ maxE := by
  intro cs
  induction cs with
  | nil => intro bIdx st h1 h2; exact ⟨h1, h2⟩
  | cons c rest ih =>
      intro bIdx st h1 h2
      rw [buttonsLoop]
      by_cases hc : st.count ≥ maxE
      · rw [if_pos hc]; exact ⟨h1, h2⟩
      · rw [if_neg hc]
        by_cases hform : hasFormDescendant c = true
        · rw [if_pos hform]; exact ih bIdx st h1 h2
        · rw [if_neg hform]
          by_cases hcond : buttonText c ≠ "" ∨ buttonContainsIcon c = true
          · rw [if_pos hcond]
            exact ih (bIdx + 1) _ (by simp [stTotal] at h1 ⊢; omega) (by simp; omega)
          · rw [if_neg hcond]; exact ih bIdx st h1 h2

theorem imagesLoop_bound (maxE : Nat) (baseUrl : String) : ∀ (cs : List Ctx)
    (iIdx : Nat) (st : ExtractState), stTotal st ≤ st.count → st.count ≤ maxE →
    stTotal (imagesLoop maxE baseUrl cs iIdx st) ≤
      (imagesLoop maxE baseUrl cs iIdx st).count ∧
    (imagesLoop maxE baseUrl cs iIdx st).count ≤ maxE := by
  intro cs
  induction cs with
  | nil => intro iIdx st h1 h2; exact ⟨h1, h2⟩
  | cons c rest ih =>
      intro iIdx st h1 h2
      rw [imagesLoop]
      by_cases hc : st.count ≥ maxE
      · rw [if_pos hc]; exact ⟨h1, h2⟩
      · rw [if_neg hc]
        by_cases hsrc : attrStrD c.attrs "src" "" ≠ ""
        · rw [if_pos hsrc]
          exact ih (iIdx + 1) _ (by simp [stTotal] at h1 ⊢; omega) (by simp; omega)
        · rw [if_neg hsrc]; exact ih iIdx st h1 h2

theorem spanIconsLoop_bound (maxE : Nat) : ∀ (cs : List Ctx) (iIdx : Nat)
    (st : ExtractState), stTotal st ≤ st.count → st.count ≤ maxE →
    stTotal (spanIconsLoop maxE cs iIdx st).1 ≤ (spanIconsLoop maxE cs iIdx st).1.count ∧
    (spanIconsLoop maxE cs iIdx st).1.count ≤ maxE := by
  intro cs
  induction cs with
  | nil => intro iIdx st h1 h2; exact ⟨h1, h2⟩
  | cons c rest ih =>
      intro iIdx st h1 h2
      rw [spanIconsLoop]
      by_cases hc : st.count ≥ maxE
      · rw [if_pos hc]; exact ⟨h1, h2⟩
      · rw [if_neg hc]
        by_cases hcond : spanIconCond c = true
        · rw [if_pos hcond]
          exact ih (iIdx + 1) _ (by simp [stTotal] at h1 ⊢; omega) (by simp; omega)
        · rw [if_neg hcond]; exact ih iIdx st h1 h2

theorem svgIconsLoop_bound (maxE : Nat) : ∀ (cs : List Ctx) (iIdx : Nat)
    (st : ExtractState), stTotal st ≤ st.count → st.count ≤ maxE →
    stTotal (svgIconsLoop maxE cs iIdx st) ≤ (svgIconsLoop maxE cs iIdx st).count ∧
    (svgIconsLoop maxE cs iIdx st).count ≤ maxE := by
  intro cs
  induction cs with
  | nil => intro iIdx st h1 h2; exact ⟨h1, h2⟩
  | cons c rest ih =>
      intro iIdx st h1 h2
      rw [svgIconsLoop]
      by_cases hc : st.count ≥ maxE
      · rw [if_pos hc]; exact ⟨h1, h2⟩
      · rw [if_neg hc]
        by_cases hcond : svgIconCond c = true ∧ ¬ svgInsideInteractive c = true
        · rw [if_pos hcond]
          exact ih (iIdx + 1) _ (by simp [stTotal] at h1 ⊢; omega) (by simp; omega)
        · rw [if_neg hcond]; exact ih iIdx st h1 h2

theorem formsLoop_bound (maxE : Nat) : ∀ (cs : List Ctx) (fIdx : Nat)
    (st : ExtractState), stTotal st ≤ st.count → st.count ≤ maxE →
    stTotal (formsLoop maxE cs fIdx st) ≤ (formsLoop maxE cs fIdx st).count ∧
    (formsLoop maxE cs fIdx st).count ≤ maxE := by
  intro cs
  induction cs with
  | nil => intro fIdx st h1 h2; exact ⟨h1, h2⟩
  | cons c rest ih =>
      intro fIdx st h1 h2
      rw [formsLoop]
      by_cases hc : st.count ≥ maxE
      · rw [if_pos hc]; exact ⟨h1, h2⟩
      · rw [if_neg hc]
        split
        · rename_i inputs submit hpc
          by_cases hin : inputs.isEmpty
          · rw [if_pos hin]; exact ih fIdx st h1 h2
          · rw [if_neg hin]
            exact ih (fIdx + 1) _ (by simp [stTotal] at h1 ⊢; omega)
              (by simp; omega)
        · exact ih fIdx st h1 h2

theorem semanticLoop_bound (maxE : Nat) (soup : Node) : ∀ (ts : List String)
    (st : ExtractState), stTotal st ≤ st.count → st.count ≤ maxE →
    stTotal (semanticLoop maxE soup ts st) ≤ (semanticLoop maxE soup ts st).count ∧
    (semanticLoop maxE soup ts st).count ≤ maxE := by
  intro ts
  induction ts with
  | nil => intro st h1 h2; exact ⟨h1, h2⟩
  | cons t rest ih =>
      intro st h1 h2
      rw [semanticLoop]
      by_cases hc : st.count ≥ maxE
      · rw [if_pos hc]; exact ⟨h1, h2⟩
      · rw [if_neg hc]
        by_cases hcnt : ((allCtxs soup).filter (fun c => c.tag = t)).length ≠ 0
        · rw [if_pos hcnt]
          exact ih _ (by simp [stTotal] at h1 ⊢; omega) (by simp; omega)
        · rw [if_neg hcnt]; exact ih st h1 h2

theorem outTotal_cons_list (k : String) (xs : List JValue)
    (l : List (String × JValue)) :
    outTotal ((k, JValue.list xs) :: l) = xs.length + outTotal l := by
  simp [outTotal]

theorem outTotal_filterMap (entries : List (String × List JValue)) :
    outTotal (entries.filterMap
      (fun p => if p.2.isEmpty then none else some (p.1, JValue.list p.2))) =
    (entries.map (fun p => p.2.length)).sum := by
  induction entries with
  | nil => rfl
  | cons p rest ih =>
      rcases p with ⟨k, v⟩
      by_cases h : v.isEmpty
      · have hfm : (((k, v) :: rest).filterMap
            (fun p => if p.2.isEmpty then none else some (p.1, JValue.list p.2))) =
            rest.filterMap
              (fun p => if p.2.isEmpty then none else some (p.1, JValue.list p.2)) := by
          rw [List.filterMap_cons]
          simp [h]
        rw [hfm, ih, List.map_cons, List.sum_cons, List.isEmpty_iff.mp h]
        simp
      · have hfm : (((k, v) :: rest).filterMap
            (fun p => if p.2.isEmpty then none else some (p.1, JValue.list p.2))) =
            (k, JValue.list v) :: rest.filterMap
              (fun p => if p.2.isEmpty then none else some (p.1, JValue.list p.2)) := by
          rw [List.filterMap_cons]
          simp [h]
        rw [hfm, outTotal_cons_list, ih, List.map_cons, List.sum_cons]

theorem outTotal_assemble (st : ExtractState) :
    outTotal (assemble st) = stTotal st := by
  rw [assemble, outTotal_filterMap]
  simp only [List.map_cons, List.map_nil, List.sum_cons, List.sum_nil, stTotal,
    List.length_nil]
  omega

/-- The budget bound alone: every category loop checks the shared
counter before emitting, so the output never holds more records than
the budget. -/
theorem outTotal_parse_le (input : HtmlInput) (baseUrl : String) (maxE : Nat) :
    outTotal (parse_html_for_elements input baseUrl maxE) ≤ maxE := by
  by_cases herr : pyStartsWith input.raw "Error fetching URL" = true
  · rw [parse_html_for_elements, if_pos herr]
    simp [outTotal]
  · rw [Bool.not_eq_true] at herr
    simp only [parse_html_for_elements, herr, Bool.false_eq_true, if_false]
    set soup := Node.elem "[document]" [] (stripList input.dom)
    set cs := allCtxs soup
    set st1 := headingsLoop maxE (cs.filter (fun c => headingTags.contains c.tag)) 0 {}
    set st2 := paragraphsLoop maxE (cs.filter (fun c => c.tag = "p")) 0 st1
    set st3 := linksLoop maxE
      (cs.filter (fun c => c.tag = "a" ∧ (c.attrs.lookup "href").isSome)) st2
    set st4 := buttonsLoop maxE (cs.filter isButtonCandidate) 0 st3
    set st5 := imagesLoop maxE baseUrl (cs.filter (fun c => c.tag = "img")) 0 st4
    set p := spanIconsLoop maxE (cs.filter (fun c => c.tag = "i" ∨ c.tag = "span")) 0 st5
    set st6 := svgIconsLoop maxE (cs.filter (fun c => c.tag = "svg")) p.2 p.1
    set st7 := formsLoop maxE (cs.filter (fun c => c.tag = "form")) 0 st6
    set st8 := semanticLoop maxE soup semanticTags st7
    have h1 := headingsLoop_bound maxE
      (cs.filter (fun c => headingTags.contains c.tag)) 0 {} (by decide) (Nat.zero_le _)
    have h2 := paragraphsLoop_bound maxE (cs.filter (fun c => c.tag = "p")) 0 st1
      h1.1 h1.2
    have h3 := linksLoop_bound maxE
      (cs.filter (fun c => c.tag = "a" ∧ (c.attrs.lookup "href").isSome)) st2 h2.1 h2.2
    have h4 := buttonsLoop_bound maxE (cs.filter isButtonCandidate) 0 st3 h3.1 h3.2
    have h5 := imagesLoop_bound maxE baseUrl (cs.filter (fun c => c.tag = "img")) 0 st4
      h4.1 h4.2
    have hp := spanIconsLoop_bound maxE
      (cs.filter (fun c => c.tag = "i" ∨ c.tag = "span")) 0 st5 h5.1 h5.2
    have h6 := svgIconsLoop_bound maxE (cs.filter (fun c => c.tag = "svg")) p.2 p.1
      hp.1 hp.2
    have h7 := formsLoop_bound maxE (cs.filter (fun c => c.tag = "form")) 0 st6
      h6.1 h6.2
    have h8 := semanticLoop_bound maxE soup semanticTags st7 h7.1 h7.2
    split
    · rw [outTotal_assemble]; exact h2.1.trans h2.2
    · split
      · rw [outTotal_assemble]; exact h3.1.trans h3.2
      · split
        · rw [outTotal_assemble]; exact h4.1.trans h4.2
        · split
          · rw [outTotal_assemble]; exact h5.1.trans h5.2
          · split
            · rw [outTotal_assemble]; exact h6.1.trans h6.2
            · split
              · rw [outTotal_assemble]; exact h7.1.trans h7.2
              · rw [outTotal_assemble]; exact h8.1.trans h8.2

/-- C8: an input string carrying the fetch-failure sentinel prefix
short-circuits extraction: the output is exactly the single `error`
entry holding the sentinel string, with no category keys. -/
theorem C8_fetch_error_short_circuit (input : HtmlInput) (baseUrl : String)
    (maxE : Nat) (h : pyStartsWith input.raw "Error fetching URL" = true) :
    parse_html_for_elements input baseUrl maxE = [("error", JValue.str input.raw)] := by
  rw [parse_html_for_elements, if_pos h]

theorem C8_fetch_error_short_circuit_witness :
    pyStartsWith "Error fetching URL: timeout" "Error fetching URL" = true ∧
    parse_html_for_elements ⟨"Error fetching URL: timeout", []⟩ "https://x.com" 5000 =
      [("error", JValue.str "Error fetching URL: timeout")] :=
  ⟨by decide, C8_fetch_error_short_circuit ⟨"Error fetching URL: timeout", []⟩
    "https://x.com" 5000 (by decide)⟩

/-! ## Lemmas: the headings category -/

theorem paragraphsLoop_headings (maxE : Nat) : ∀ (cs : List Ctx) (pIdx : Nat)
    (st : ExtractState), (paragraphsLoop maxE cs pIdx st).headings = st.headings := by
  intro cs
  induction cs with
  | nil => intro pIdx st; rfl
  | cons c rest ih =>
      intro pIdx st
      simp only [paragraphsLoop]
      repeat' split
      all_goals first | rfl | rw [ih]

theorem linksLoop_headings (maxE : Nat) : ∀ (cs : List Ctx)
    (st : ExtractState), (linksLoop maxE cs st).headings = st.headings := by
  intro cs
  induction cs with
  | nil => intro st; rfl
  | cons c rest ih =>
      intro st
      simp only [linksLoop]
      repeat' split
      all_goals first | rfl | rw [ih]

theorem buttonsLoop_headings (maxE : Nat) : ∀ (cs : List Ctx) (bIdx : Nat)
    (st : ExtractState), (buttonsLoop maxE cs bIdx st).headings = st.headings := by
  intro cs
  induction cs with
  | nil => intro bIdx st; rfl
  | cons c rest ih =>
      intro bIdx st
      simp only [buttonsLoop]
      repeat' split
      all_goals first | rfl | rw [ih]

theorem imagesLoop_headings (maxE : Nat) (baseUrl : String) : ∀ (cs : List Ctx)
    (iIdx : Nat) (st : ExtractState),
    (imagesLoop maxE baseUrl cs iIdx st).headings = st.headings := by
  intro cs
  induction cs with
  | nil => intro iIdx st; rfl
  | cons c rest ih =>
      intro iIdx st
      simp only [imagesLoop]
      repeat' split
      all_goals first | rfl | rw [ih]

theorem spanIconsLoop_headings (maxE : Nat) : ∀ (cs : List Ctx) (iIdx : Nat)
    (st : ExtractState), (spanIconsLoop maxE cs iIdx st).1.headings = st.headings := by
  intro cs
  induction cs with
  | nil => intro iIdx st; rfl
  | cons c rest ih =>
      intro iIdx st
      simp only [spanIconsLoop]
      repeat' split
      all_goals first | rfl | rw [ih]

theorem svgIconsLoop_headings (maxE : Nat) : ∀ (cs : List Ctx) (iIdx : Nat)
    (st : ExtractState), (svgIconsLoop maxE cs iIdx st).headings = st.headings := by
  intro cs
  induction cs with
  | nil => intro iIdx st; rfl
  | cons c rest ih =>
      intro iIdx st
      simp only [svgIconsLoop]
      repeat' split
      all_goals first | rfl | rw [ih]

theorem formsLoop_headings (maxE : Nat) : ∀ (cs : List Ctx) (fIdx : Nat)
    (st : ExtractState), (formsLoop maxE cs fIdx st).headings = st.headings := by
  intro cs
  induction cs with
  | nil => intro fIdx st; rfl
  | cons c rest ih =>
      intro fIdx st
      simp only [formsLoop]
      repeat' split
      all_goals first | rfl | rw [ih]

theorem semanticLoop_headings (maxE : Nat) (soup : Node) : ∀ (ts : List String)
    (st : ExtractState), (semanticLoop maxE soup ts st).headings = st.headings := by
  intro ts
  induction ts with
  | nil => intro st; rfl
  | cons t rest ih =>
      intro st
      simp only [semanticLoop]
      repeat' split
      all_goals first | rfl | rw [ih]

theorem lookup_filterMap_ne (entries : List (String × List JValue)) (k : String)
    (hk : ∀ p ∈ entries, p.1 ≠ k) :
    (entries.filterMap
      (fun p => if p.2.isEmpty then none else some (p.1, JValue.list p.2))).lookup k =
      none := by
  induction entries with
  | nil => rfl
  | cons p rest ih =>
      rcases p with ⟨a, v⟩
      have hne : (k == a) = false := by
        rw [beq_eq_false_iff_ne]
        exact fun hh => hk (a, v) (List.mem_cons_self _ _) hh.symm
      have htail := ih (fun q hq => hk q (List.mem_cons_of_mem _ hq))
      rw [List.filterMap_cons]
      by_cases h : v.isEmpty
      · simp only [h, if_true]
        exact htail
      · simp only [h, Bool.false_eq_true, if_false]
        rw [List.lookup_cons, hne]
        exact htail

theorem getCategory_assemble_headings (st : ExtractState) :
    getCategory (assemble st) "headings" = st.headings := by
  have hrest := lookup_filterMap_ne
    [("paragraphs", st.paragraphs), ("links", st.links), ("buttons", st.buttons),
     ("inputs", ([] : List JValue)), ("images_and_logos", st.images_and_logos),
     ("icons", st.icons), ("forms", st.forms),
     ("semantic_elements", st.semantic_elements)] "headings"
    (by intro p hp; fin_cases hp <;> simp)
  rw [assemble, List.filterMap_cons]
  by_cases h : st.headings.isEmpty
  · simp only [h, if_true]
    rw [getCategory, hrest, List.isEmpty_iff.mp h]
  · simp only [h, Bool.false_eq_true, if_false]
    rw [getCategory, List.lookup_cons]
    simp

theorem headingsLoop_eq (maxE : Nat) : ∀ (cs : List Ctx) (hIdx : Nat)
    (st : ExtractState),
    st.count + (cs.filter (fun c => getText c.node ≠ "")).length ≤ maxE →
    (headingsLoop maxE cs hIdx st).headings =
      st.headings ++ ((cs.filter (fun c => getText c.node ≠ "")).enumFrom hIdx).map
        (fun p => mkHeadingRecord p.2 p.1 (getText p.2.node)) := by
  intro cs
  induction cs with
  | nil => intro hIdx st hb; simp [headingsLoop, List.enumFrom]
  | cons c rest ih =>
      intro hIdx st hb
      rw [headingsLoop]
      by_cases ht : getText c.node ≠ ""
      · rw [List.filter_cons_of_pos (by simpa using ht)] at hb ⊢
        have hcnt : ¬ st.count ≥ maxE := by
          simp only [List.length_cons] at hb
          omega
        rw [if_neg hcnt, if_pos ht,
          ih (hIdx + 1) _ (by
            show st.count + 1 + (rest.filter (fun c => getText c.node ≠ "")).length ≤ maxE
            simp only [List.length_cons] at hb
            omega)]
        simp [List.enumFrom]
      · rw [List.filter_cons_of_neg (by simpa using ht)] at hb ⊢
        by_cases hcnt : st.count ≥ maxE
        · rw [if_pos hcnt]
          have hz : (rest.filter (fun c => getText c.node ≠ "")).length = 0 := by
            omega
          rw [List.length_eq_zero.mp hz]
          simp [List.enumFrom]
        · rw [if_neg hcnt, if_neg ht]
          exact ih hIdx st hb

theorem parse_headings_eq (input : HtmlInput) (baseUrl : String) (maxE : Nat)
    (herr : pyStartsWith input.raw "Error fetching URL" = false) :
    getCategory (parse_html_for_elements input baseUrl maxE) "headings" =
      (headingsLoop maxE
        ((allCtxs (Node.elem "[document]" [] (stripList input.dom))).filter
          (fun c => headingTags.contains c.tag)) 0 {}).headings := by
  simp only [parse_html_for_elements, herr, Bool.false_eq_true, if_false]
  split
  · rw [getCategory_assemble_headings, paragraphsLoop_headings]
  · split
    · rw [getCategory_assemble_headings, linksLoop_headings, paragraphsLoop_headings]
    · split
      · rw [getCategory_assemble_headings, buttonsLoop_headings, linksLoop_headings,
          paragraphsLoop_headings]
      · split
        · rw [getCategory_assemble_headings, imagesLoop_headings, buttonsLoop_headings,
            linksLoop_headings, paragraphsLoop_headings]
        · split
          · rw [getCategory_assemble_headings, svgIconsLoop_headings,
              spanIconsLoop_headings, imagesLoop_headings, buttonsLoop_headings,
              linksLoop_headings, paragraphsLoop_headings]
          · split
            · rw [getCategory_assemble_headings, formsLoop_headings,
                svgIconsLoop_headings, spanIconsLoop_headings, imagesLoop_headings,
                buttonsLoop_headings, linksLoop_headings, paragraphsLoop_headings]
            · rw [getCategory_assemble_headings, semanticLoop_headings,
                formsLoop_headings, svgIconsLoop_headings, spanIconsLoop_headings,
                imagesLoop_headings, buttonsLoop_headings, linksLoop_headings,
                paragraphsLoop_headings]

def wit9_input : HtmlInput :=
  ⟨"<html><body><h2>Title</h2></body></html>",
   [Node.elem "html" [] [Node.elem "body" [] [Node.elem "h2" [] [Node.text "Title"]]]]⟩

def cex9_input : HtmlInput :=
  ⟨"<html><body><h7>Lucky</h7></body></html>",
   [Node.elem "html" [] [Node.elem "body" [] [Node.elem "h7" [] [Node.text "Lucky"]]]]⟩

/-- C9 (amended): whenever the sentinel prefix is absent and the number
of non-empty-text heading-tagged elements fits the budget, the
`headings` category of `parse_html_for_elements` holds exactly the
records of the document's heading-tagged elements — the tags of the
source's `find_all`, which are h1 through h7, not h1 through h6 — that
have non-empty text, in document order, numbered sequentially, each
with the full ancestor chain, the sibling window, the direct children
and the interactive-ancestor flags its record constructor captures. -/
theorem C9_headings_category (input : HtmlInput) (baseUrl : String) (maxE : Nat)
    (herr : pyStartsWith input.raw "Error fetching URL" = false)
    (hbudget : (((allCtxs (Node.elem "[document]" [] (stripList input.dom))).filter
        (fun c => headingTags.contains c.tag)).filter
        (fun c => getText c.node ≠ "")).length ≤ maxE) :
    getCategory (parse_html_for_elements input baseUrl maxE) "headings" =
      headingRecordsOf
        ((allCtxs (Node.elem "[document]" [] (stripList input.dom))).filter
          (fun c => headingTags.contains c.tag)) := by
  rw [parse_headings_eq input baseUrl maxE herr,
    headingsLoop_eq maxE _ 0 {} (by
      show 0 + _ ≤ maxE
      simpa using hbudget),
    headingRecordsOf]
  simp [List.enum]

theorem C9_headings_category_witness :
    pyStartsWith wit9_input.raw "Error fetching URL" = false ∧
    (((allCtxs (Node.elem "[document]" [] (stripList wit9_input.dom))).filter
        (fun c => headingTags.contains c.tag)).filter
        (fun c => getText c.node ≠ "")).length ≤ 5000 ∧
    getCategory (parse_html_for_elements wit9_input "https://x.com" 5000) "headings" =
      headingRecordsOf
        ((allCtxs (Node.elem "[document]" [] (stripList wit9_input.dom))).filter
          (fun c => headingTags.contains c.tag)) :=
  ⟨by decide,
   by simp [allCtxs, Ctx.descendants, wit9_input, stripList, ctxsUnder] <;> decide,
   C9_headings_category wit9_input "https://x.com" 5000 (by decide)
     (by simp [allCtxs, Ctx.descendants, wit9_input, stripList, ctxsUnder] <;> decide)⟩

/-- C9 counterexample: the headings `find_all` of the source lists the
non-standard tag h7 as well, so a document whose only heading-like
element is an `<h7>` still yields one `headings` record although it
contains no h1-h6 element at all — the category does not contain
exactly the h1-h6 elements. -/
theorem C9_counterexample :
    (getCategory (parse_html_for_elements cex9_input "https://x.com" 5000)
      "headings").length = 1 ∧
    ((allCtxs (Node.elem "[document]" [] (stripList cex9_input.dom))).filter
      (fun c => ["h1", "h2", "h3", "h4", "h5", "h6"].contains c.tag)).length = 0 := by
  constructor
  · rw [parse_headings_eq cex9_input "https://x.com" 5000 (by decide)]
    simp only [cex9_input]
    simp [allCtxs, Ctx.descendants, stripList, ctxsUnder] <;> decide
  · simp only [cex9_input]
    simp [allCtxs, Ctx.descendants, stripList, ctxsUnder] <;> decide

/-- A shared-primary pair in which the second record lacks the context
key entirely. -/
def cex1_data : List Elem :=
  [[("t", JValue.str "Learn"), ("id", JValue.str "x")],
   [("t", JValue.str "Learn")]]

/-- C1 counterexample: the second record shares its primary value and
its subgroup at level `id` is a singleton, yet — because its context
value there is None — the source assigns no `uniqueness_context`; the
record is not irreducibly ambiguous either, since the single level
empties the ambiguous set. -/
theorem C1_counterexample :
    get_nested_value (cex1_data.getD 1 []) "t" =
      get_nested_value (cex1_data.getD 0 []) "t" ∧
    (subgroupAt "id" (groupOfIdx cex1_data "t" 1)
      ((indexedElems cex1_data).getD 1 [])).length = 1 ∧
    ((add_uniqueness_context cex1_data "t" ["id"]).getD 1 []).lookup
      "uniqueness_context" = none ∧
    (ambAfter ["id"] (groupOfIdx cex1_data "t" 1)).length = 0 := by
  decide

/-- C2 counterexample: both records of `wit2_data` are resolved at the
first hierarchy level `id` — the record's `id` subgroup is a
singleton — yet the reported `uniqueness_context.level` is `href`, a
level at which the record's subgroup has size 2, so the reported level
is not the first (nor any) level at which the subgroup became a
singleton. -/
theorem C2_counterexample :
    (subgroupAt "id" (groupOfIdx wit2_data "text" 0)
      ((indexedElems wit2_data).getD 0 [])).length = 1 ∧
    (subgroupAt "href" (groupOfIdx wit2_data "text" 0)
      ((indexedElems wit2_data).getD 0 [])).length = 2 ∧
    ((add_uniqueness_context wit2_data "text" ["id", "href"]).getD 0 []).lookup
      "uniqueness_context" =
      some (JValue.obj [("level", JValue.str "href"),
        ("value", JValue.str "p")]) := by
  decide

/-- Two links sharing text, distinct ids, and a bare-domain href whose
derived context value is the empty string. -/
def cex3_data : List Elem :=
  [[("text", JValue.str "Home"), ("id", JValue.str "a1"),
    ("href", JValue.str "https://example.com/")],
   [("text", JValue.str "Home"), ("id", JValue.str "a2"),
    ("href", JValue.str "https://example.com/")]]

/-- C3 counterexample: the first record's href-derived value is
non-null (it is the empty string), the record is resolved at level `id`
with primary key `text`, yet the assigned context reports level `id`
rather than `href`: the source's guard is truthiness, not
non-nullness. -/
theorem C3_counterexample :
    get_nested_value (cex3_data.getD 0 []) "href" = some (JValue.str "") ∧
    firstResolve ["id"] (groupOfIdx cex3_data "text" 0)
      ((indexedElems cex3_data).getD 0 []) =
      some ("id", some (JValue.str "a1")) ∧
    ((add_uniqueness_context cex3_data "text" ["id"]).getD 0 []).lookup
      "uniqueness_context" =
      some (JValue.obj [("level", JValue.str "id"),
        ("value", JValue.str "a1")]) := by
  decide

/-! ## Lemmas: the budget cutoff keeps what was collected -/

/-- One extraction state extends another category-wise: every category
list of the first is an initial segment of the second's. -/
def Pref (s t : ExtractState) : Prop :=
  s.headings <+: t.headings ∧ s.paragraphs <+: t.paragraphs ∧
  s.links <+: t.links ∧ s.buttons <+: t.buttons ∧
  s.images_and_logos <+: t.images_and_logos ∧ s.icons <+: t.icons ∧
  s.forms <+: t.forms ∧ s.semantic_elements <+: t.semantic_elements

theorem pref_refl (s : ExtractState) : Pref s s := by
  refine ⟨?_, ?_, ?_, ?_, ?_, ?_, ?_, ?_⟩ <;> exact List.prefix_rfl

theorem pref_trans {a b c : ExtractState} (h1 : Pref a b) (h2 : Pref b c) :
    Pref a c :=
  ⟨h1.1.trans h2.1, h1.2.1.trans h2.2.1, h1.2.2.1.trans h2.2.2.1,
   h1.2.2.2.1.trans h2.2.2.2.1, h1.2.2.2.2.1.trans h2.2.2.2.2.1,
   h1.2.2.2.2.2.1.trans h2.2.2.2.2.2.1, h1.2.2.2.2.2.2.1.trans h2.2.2.2.2.2.2.1,
   h1.2.2.2.2.2.2.2.trans h2.2.2.2.2.2.2.2⟩

theorem headingsLoop_frozen (maxE : Nat) : ∀ (cs : List Ctx) (i : Nat)
    (st : ExtractState), maxE ≤ st.count → headingsLoop maxE cs i st = st := by
  intro cs i st h
  cases cs with
  | nil => rfl
  | cons c rest => rw [headingsLoop, if_pos h]

theorem paragraphsLoop_frozen (maxE : Nat) : ∀ (cs : List Ctx) (i : Nat)
    (st : ExtractState), maxE ≤ st.count → paragraphsLoop maxE cs i st = st := by
  intro cs i st h
  cases cs with
  | nil => rfl
  | cons c rest => rw [paragraphsLoop, if_pos h]

theorem linksLoop_frozen (maxE : Nat) : ∀ (cs : List Ctx) (st : ExtractState),
    maxE ≤ st.count → linksLoop maxE cs st = st := by
  intro cs st h
  cases cs with
  | nil => rfl
  | cons c rest => rw [linksLoop, if_pos h]

theorem buttonsLoop_frozen (maxE : Nat) : ∀ (cs : List Ctx) (i : Nat)
    (st : ExtractState), maxE ≤ st.count → buttonsLoop maxE cs i st = st := by
  intro cs i st h
  cases cs with
  | nil => rfl
  | cons c rest => rw [buttonsLoop, if_pos h]

theorem imagesLoop_frozen (maxE : Nat) (baseUrl : String) : ∀ (cs : List Ctx)
    (i : Nat) (st : ExtractState), maxE ≤ st.count →
    imagesLoop maxE baseUrl cs i st = st := by
  intro cs i st h
  cases cs with
  | nil => rfl
  | cons c rest => rw [imagesLoop, if_pos h]

theorem spanIconsLoop_frozen (maxE : Nat) : ∀ (cs : List Ctx) (i : Nat)
    (st : ExtractState), maxE ≤ st.count →
    spanIconsLoop maxE cs i st = (st, i) := by
  intro cs i st h
  cases cs with
  | nil => rfl
  | cons c rest => rw [spanIconsLoop, if_pos h]

theorem svgIconsLoop_frozen (maxE : Nat) : ∀ (cs : List Ctx) (i : Nat)
    (st : ExtractState), maxE ≤ st.count → svgIconsLoop maxE cs i st = st := by
  intro cs i st h
  cases cs with
  | nil => rfl
  | cons c rest => rw [svgIconsLoop, if_pos h]

theorem formsLoop_frozen (maxE : Nat) : ∀ (cs : List Ctx) (i : Nat)
    (st : ExtractState), maxE ≤ st.count → formsLoop maxE cs i st = st := by
  intro cs i st h
  cases cs with
  | nil => rfl
  | cons c rest => rw [formsLoop, if_pos h]

theorem semanticLoop_frozen (maxE : Nat) (soup : Node) : ∀ (ts : List String)
    (st : ExtractState), maxE ≤ st.count → semanticLoop maxE soup ts st = st := by
  intro ts st h
  cases ts with
  | nil => rfl
  | cons t rest => rw [semanticLoop, if_pos h]

theorem headingsLoop_extends (maxE : Nat) : ∀ (cs : List Ctx) (i : Nat)
    (st : ExtractState), Pref st (headingsLoop maxE cs i st) ∧
    st.count ≤ (headingsLoop maxE cs i st).count := by
  intro cs
  induction cs with
  | nil => intro i st; exact ⟨pref_refl st, Nat.le_refl _⟩
  | cons c rest ih =>
      intro i st
      rw [headingsLoop]
      by_cases h : st.count ≥ maxE
      · rw [if_pos h]; exact ⟨pref_refl st, Nat.le_refl _⟩
      · rw [if_neg h]
        by_cases ht : getText c.node ≠ ""
        · rw [if_pos ht]
          have hih := ih (i + 1) { st with
            headings := st.headings ++ [mkHeadingRecord c i (getText c.node)],
            count := st.count + 1 }
          refine ⟨pref_trans ?_ hih.1, Nat.le_trans (Nat.le_succ _) hih.2⟩
          refine ⟨?_, ?_, ?_, ?_, ?_, ?_, ?_, ?_⟩ <;>
            first | exact List.prefix_append _ _ | exact List.prefix_rfl
        · rw [if_neg ht]; exact ih i st

theorem paragraphsLoop_extends (maxE : Nat) : ∀ (cs : List Ctx) (i : Nat)
    (st : ExtractState), Pref st (paragraphsLoop maxE cs i st) ∧
    st.count ≤ (paragraphsLoop maxE cs i st).count := by
  intro cs
  induction cs with
  | nil => intro i st; exact ⟨pref_refl st, Nat.le_refl _⟩
  | cons c rest ih =>
      intro i st
      rw [paragraphsLoop]
      by_cases h : st.count ≥ maxE
      · rw [if_pos h]; exact ⟨pref_refl st, Nat.le_refl _⟩
      · rw [if_neg h]
        by_cases h1 : isPartOfInteractive c = true
        · rw [if_pos h1]; exact ih i st
        · rw [if_neg h1]
          by_cases h2 : onlyChildHeading c.children = true
          · rw [if_pos h2]; exact ih i st
          · rw [if_neg h2]
            by_cases h3 : getText c.node ≠ "" ∧ (getText c.node).length > 10
            · rw [if_pos h3]
              have hih := ih (i + 1) { st with
              paragraphs := st.paragraphs ++ [mkParagraphRecord c i (getText c.node)],
              count := st.count + 1 }
              refine ⟨pref_trans ?_ hih.1, Nat.le_trans (Nat.le_succ _) hih.2⟩
              refine ⟨?_, ?_, ?_, ?_, ?_, ?_, ?_, ?_⟩ <;>
                first | exact List.prefix_append _ _ | exact List.prefix_rfl
            · rw [if_neg h3]; exact ih i st

theorem linksLoop_extends (maxE : Nat) : ∀ (cs : List Ctx) (st : ExtractState),
    Pref st (linksLoop maxE cs st) ∧ st.count ≤ (linksLoop maxE cs st).count := by
  intro cs
  induction cs with
  | nil => intro st; exact ⟨pref_refl st, Nat.le_refl _⟩
  | cons c rest ih =>
      intro st
      rw [linksLoop]
      by_cases h : st.count ≥ maxE
      · rw [if_pos h]; exact ⟨pref_refl st, Nat.le_refl _⟩
      · rw [if_neg h]
        have hih := ih
          { st with links := st.links ++ [mkLinkRecord c], count := st.count + 1 }
        refine ⟨pref_trans ?_ hih.1, Nat.le_trans (Nat.le_succ _) hih.2⟩
        refine ⟨?_, ?_, ?_, ?_, ?_, ?_, ?_, ?_⟩ <;>
          first | exact List.prefix_append _ _ | exact List.prefix_rfl

theorem buttonsLoop_extends (maxE : Nat) : ∀ (cs : List Ctx) (i : Nat)
    (st : ExtractState), Pref st (buttonsLoop maxE cs i st) ∧
    st.count ≤ (buttonsLoop maxE cs i st).count := by
  intro cs
  induction cs with
  | nil => intro i st; exact ⟨pref_refl st, Nat.le_refl _⟩
  | cons c rest ih =>
      intro i st
      rw [buttonsLoop]
      by_cases h : st.count ≥ maxE
      · rw [if_pos h]; exact ⟨pref_refl st, Nat.le_refl _⟩
      · rw [if_neg h]
        by_cases h1 : hasFormDescendant c = true
        · rw [if_pos h1]; exact ih i st
        · rw [if_neg h1]
          by_cases h2 : buttonText c ≠ "" ∨ buttonContainsIcon c = true
          · rw [if_pos h2]
            have hih := ih (i + 1) { st with
              buttons := st.buttons ++ [mkButtonRecord c i (buttonText c)],
              count := st.count + 1 }
            refine ⟨pref_trans ?_ hih.1, Nat.le_trans (Nat.le_succ _) hih.2⟩
            refine ⟨?_, ?_, ?_, ?_, ?_, ?_, ?_, ?_⟩ <;>
              first | exact List.prefix_append _ _ | exact List.prefix_rfl
          · rw [if_neg h2]; exact ih i st

theorem imagesLoop_extends (maxE : Nat) (baseUrl : String) : ∀ (cs : List Ctx)
    (i : Nat) (st : ExtractState), Pref st (imagesLoop maxE baseUrl cs i st) ∧
    st.count ≤ (imagesLoop maxE baseUrl cs i st).count := by
  intro cs
  induction cs with
  | nil => intro i st; exact ⟨pref_refl st, Nat.le_refl _⟩
  | cons c rest ih =>
      intro i st
      rw [imagesLoop]
      by_cases h : st.count ≥ maxE
      · rw [if_pos h]; exact ⟨pref_refl st, Nat.le_refl _⟩
      · rw [if_neg h]
        by_cases h1 : attrStrD c.attrs "src" "" ≠ ""
        · rw [if_pos h1]
          have hih := ih (i + 1) { st with
            images_and_logos := st.images_and_logos ++ [mkImageRecord baseUrl c i],
            count := st.count + 1 }
          refine ⟨pref_trans ?_ hih.1, Nat.le_trans (Nat.le_succ _) hih.2⟩
          refine ⟨?_, ?_, ?_, ?_, ?_, ?_, ?_, ?_⟩ <;>
            first | exact List.prefix_append _ _ | exact List.prefix_rfl
        · rw [if_neg h1]; exact ih i st

theorem spanIconsLoop_extends (maxE : Nat) : ∀ (cs : List Ctx) (i : Nat)
    (st : ExtractState), Pref st (spanIconsLoop maxE cs i st).1 ∧
    st.count ≤ (spanIconsLoop maxE cs i st).1.count := by
  intro cs
  induction cs with
  | nil => intro i st; exact ⟨pref_refl st, Nat.le_refl _⟩
  | cons c rest ih =>
      intro i st
      rw [spanIconsLoop]
      by_cases h : st.count ≥ maxE
      · rw [if_pos h]; exact ⟨pref_refl st, Nat.le_refl _⟩
      · rw [if_neg h]
        by_cases h1 : spanIconCond c = true
        · rw [if_pos h1]
          have hih := ih (i + 1) { st with
            icons := st.icons ++ [mkSpanIconRecord c i],
            count := st.count + 1 }
          refine ⟨pref_trans ?_ hih.1, Nat.le_trans (Nat.le_succ _) hih.2⟩
          refine ⟨?_, ?_, ?_, ?_, ?_, ?_, ?_, ?_⟩ <;>
            first | exact List.prefix_append _ _ | exact List.prefix_rfl
        · rw [if_neg h1]; exact ih i st

theorem svgIconsLoop_extends (maxE : Nat) : ∀ (cs : List Ctx) (i : Nat)
    (st : ExtractState), Pref st (svgIconsLoop maxE cs i st) ∧
    st.count ≤ (svgIconsLoop maxE cs i st).count := by
  intro cs
  induction cs with
  | nil => intro i st; exact ⟨pref_refl st, Nat.le_refl _⟩
  | cons c rest ih =>
      intro i st
      rw [svgIconsLoop]
      by_cases h : st.count ≥ maxE
      · rw [if_pos h]; exact ⟨pref_refl st, Nat.le_refl _⟩
      · rw [if_neg h]
        by_cases h1 : svgIconCond c = true ∧ ¬ svgInsideInteractive c = true
        · rw [if_pos h1]
          have hih := ih (i + 1) { st with
            icons := st.icons ++ [mkSvgIconRecord c i],
            count := st.count + 1 }
          refine ⟨pref_trans ?_ hih.1, Nat.le_trans (Nat.le_succ _) hih.2⟩
          refine ⟨?_, ?_, ?_, ?_, ?_, ?_, ?_, ?_⟩ <;>
            first | exact List.prefix_append _ _ | exact List.prefix_rfl
        · rw [if_neg h1]; exact ih i st

theorem formsLoop_extends (maxE : Nat) : ∀ (cs : List Ctx) (i : Nat)
    (st : ExtractState), Pref st (formsLoop maxE cs i st) ∧
    st.count ≤ (formsLoop maxE cs i st).count := by
  intro cs
  induction cs with
  | nil => intro i st; exact ⟨pref_refl st, Nat.le_refl _⟩
  | cons c rest ih =>
      intro i st
      rw [formsLoop]
      by_cases h : st.count ≥ maxE
      · rw [if_pos h]; exact ⟨pref_refl st, Nat.le_refl _⟩
      · rw [if_neg h]
        split
        · rename_i inputs submit hpc
          by_cases hin : inputs.isEmpty
          · rw [if_pos hin]; exact ih i st
          · rw [if_neg hin]
            have hih := ih (i + 1) { st with
              forms := st.forms ++ [mkFormRecord c i inputs submit],
              count := st.count + 1 }
            refine ⟨pref_trans ?_ hih.1, Nat.le_trans (Nat.le_succ _) hih.2⟩
            refine ⟨?_, ?_, ?_, ?_, ?_, ?_, ?_, ?_⟩ <;>
              first | exact List.prefix_append _ _ | exact List.prefix_rfl
        · exact ih i st

theorem semanticLoop_extends (maxE : Nat) (soup : Node) : ∀ (ts : List String)
    (st : ExtractState), Pref st (semanticLoop maxE soup ts st) ∧
    st.count ≤ (semanticLoop maxE soup ts st).count := by
  intro ts
  induction ts with
  | nil => intro st; exact ⟨pref_refl st, Nat.le_refl _⟩
  | cons t rest ih =>
      intro st
      rw [semanticLoop]
      by_cases h : st.count ≥ maxE
      · rw [if_pos h]; exact ⟨pref_refl st, Nat.le_refl _⟩
      · rw [if_neg h]
        by_cases h1 : ((allCtxs soup).filter (fun c => c.tag = t)).length ≠ 0
        · rw [if_pos h1]
          have hih := ih { st with
            semantic_elements := st.semantic_elements ++
              [.obj [("tag", .str t),
                ("count", .num ((allCtxs soup).filter (fun c => c.tag = t)).length)]],
            count := st.count + 1 }
          refine ⟨pref_trans ?_ hih.1, Nat.le_trans (Nat.le_succ _) hih.2⟩
          refine ⟨?_, ?_, ?_, ?_, ?_, ?_, ?_, ?_⟩ <;>
            first | exact List.prefix_append _ _ | exact List.prefix_rfl
        · rw [if_neg h1]; exact ih st

theorem headingsLoop_inv (N M : Nat) (hNM : N ≤ M) : ∀ (cs : List Ctx)
    (i j : Nat) (a b : ExtractState), Pref a b →
    ((a = b ∧ i = j) ∨ N ≤ a.count) →
    Pref (headingsLoop N cs i a) (headingsLoop M cs j b) ∧
    (headingsLoop N cs i a = headingsLoop M cs j b ∨
      N ≤ (headingsLoop N cs i a).count) := by
  intro cs
  induction cs with
  | nil =>
      intro i j a b hp hd
      refine ⟨hp, ?_⟩
      rcases hd with ⟨rfl, rfl⟩ | hsat
      · exact Or.inl rfl
      · exact Or.inr hsat
  | cons c rest ih =>
      intro i j a b hp hd
      by_cases hN : a.count ≥ N
      · rw [headingsLoop_frozen N (c :: rest) i a hN]
        exact ⟨pref_trans hp (headingsLoop_extends M (c :: rest) j b).1, Or.inr hN⟩
      · rcases hd with ⟨rfl, rfl⟩ | hsat
        · have hM : ¬ a.count ≥ M := fun hc => hN (Nat.le_trans hNM hc)
          rw [headingsLoop, headingsLoop, if_neg hN, if_neg hM]
          by_cases ht : getText c.node ≠ ""
          · rw [if_pos ht, if_pos ht]
            exact ih (i + 1) (i + 1) _ _ (pref_refl _) (Or.inl ⟨rfl, rfl⟩)
          · rw [if_neg ht, if_neg ht]
            exact ih i i a a (pref_refl _) (Or.inl ⟨rfl, rfl⟩)
        · exact absurd hsat hN

theorem paragraphsLoop_inv (N M : Nat) (hNM : N ≤ M) : ∀ (cs : List Ctx)
    (i j : Nat) (a b : ExtractState), Pref a b →
    ((a = b ∧ i = j) ∨ N ≤ a.count) →
    Pref (paragraphsLoop N cs i a) (paragraphsLoop M cs j b) ∧
    (paragraphsLoop N cs i a = paragraphsLoop M cs j b ∨
      N ≤ (paragraphsLoop N cs i a).count) := by
  intro cs
  induction cs with
  | nil =>
      intro i j a b hp hd
      refine ⟨hp, ?_⟩
      rcases hd with ⟨rfl, rfl⟩ | hsat
      · exact Or.inl rfl
      · exact Or.inr hsat
  | cons c rest ih =>
      intro i j a b hp hd
      by_cases hN : a.count ≥ N
      · rw [paragraphsLoop_frozen N (c :: rest) i a hN]
        exact ⟨pref_trans hp (paragraphsLoop_extends M (c :: rest) j b).1, Or.inr hN⟩
      · rcases hd with ⟨rfl, rfl⟩ | hsat
        · have hM : ¬ a.count ≥ M := fun hc => hN (Nat.le_trans hNM hc)
          rw [paragraphsLoop, paragraphsLoop, if_neg hN, if_neg hM]
          by_cases h1 : isPartOfInteractive c = true
          · rw [if_pos h1, if_pos h1]
            exact ih i i a a (pref_refl _) (Or.inl ⟨rfl, rfl⟩)
          · rw [if_neg h1, if_neg h1]
            by_cases h2 : onlyChildHeading c.children = true
            · rw [if_pos h2, if_pos h2]
              exact ih i i a a (pref_refl _) (Or.inl ⟨rfl, rfl⟩)
            · rw [if_neg h2, if_neg h2]
              by_cases h3 : getText c.node ≠ "" ∧ (getText c.node).length > 10
              · rw [if_pos h3, if_pos h3]
                exact ih (i + 1) (i + 1) _ _ (pref_refl _) (Or.inl ⟨rfl, rfl⟩)
              · rw [if_neg h3, if_neg h3]
                exact ih i i a a (pref_refl _) (Or.inl ⟨rfl, rfl⟩)
        · exact absurd hsat hN

theorem linksLoop_inv (N M : Nat) (hNM : N ≤ M) : ∀ (cs : List Ctx)
    (a b : ExtractState), Pref a b → (a = b ∨ N ≤ a.count) →
    Pref (linksLoop N cs a) (linksLoop M cs b) ∧
    (linksLoop N cs a = linksLoop M cs b ∨ N ≤ (linksLoop N cs a).count) := by
  intro cs
  induction cs with
  | nil =>
      intro a b hp hd
      refine ⟨hp, ?_⟩
      rcases hd with rfl | hsat
      · exact Or.inl rfl
      · exact Or.inr hsat
  | cons c rest ih =>
      intro a b hp hd
      by_cases hN : a.count ≥ N
      · rw [linksLoop_frozen N (c :: rest) a hN]
        exact ⟨pref_trans hp (linksLoop_extends M (c :: rest) b).1, Or.inr hN⟩
      · rcases hd with rfl | hsat
        · have hM : ¬ a.count ≥ M := fun hc => hN (Nat.le_trans hNM hc)
          rw [linksLoop, linksLoop, if_neg hN, if_neg hM]
          exact ih _ _ (pref_refl _) (Or.inl rfl)
        · exact absurd hsat hN

theorem buttonsLoop_inv (N M : Nat) (hNM : N ≤ M) : ∀ (cs : List Ctx)
    (i j : Nat) (a b : ExtractState), Pref a b →
    ((a = b ∧ i = j) ∨ N ≤ a.count) →
    Pref (buttonsLoop N cs i a) (buttonsLoop M cs j b) ∧
    (buttonsLoop N cs i a = buttonsLoop M cs j b ∨
      N ≤ (buttonsLoop N cs i a).count) := by
  intro cs
  induction cs with
  | nil =>
      intro i j a b hp hd
      refine ⟨hp, ?_⟩
      rcases hd with ⟨rfl, rfl⟩ | hsat
      · exact Or.inl rfl
      · exact Or.inr hsat
  | cons c rest ih =>
      intro i j a b hp hd
      by_cases hN : a.count ≥ N
      · rw [buttonsLoop_frozen N (c :: rest) i a hN]
        exact ⟨pref_trans hp (buttonsLoop_extends M (c :: rest) j b).1, Or.inr hN⟩
      · rcases hd with ⟨rfl, rfl⟩ | hsat
        · have hM : ¬ a.count ≥ M := fun hc => hN (Nat.le_trans hNM hc)
          rw [buttonsLoop, buttonsLoop, if_neg hN, if_neg hM]
          by_cases h1 : hasFormDescendant c = true
          · rw [if_pos h1, if_pos h1]
            exact ih i i a a (pref_refl _) (Or.inl ⟨rfl, rfl⟩)
          · rw [if_neg h1, if_neg h1]
            by_cases h2 : buttonText c ≠ "" ∨ buttonContainsIcon c = true
            · rw [if_pos h2, if_pos h2]
              exact ih (i + 1) (i + 1) _ _ (pref_refl _) (Or.inl ⟨rfl, rfl⟩)
            · rw [if_neg h2, if_neg h2]
              exact ih i i a a (pref_refl _) (Or.inl ⟨rfl, rfl⟩)
        · exact absurd hsat hN

theorem imagesLoop_inv (N M : Nat) (baseUrl : String) (hNM : N ≤ M) :
    ∀ (cs : List Ctx) (i j : Nat) (a b : ExtractState), Pref a b →
    ((a = b ∧ i = j) ∨ N ≤ a.count) →
    Pref (imagesLoop N baseUrl cs i a) (imagesLoop M baseUrl cs j b) ∧
    (imagesLoop N baseUrl cs i a = imagesLoop M baseUrl cs j b ∨
      N ≤ (imagesLoop N baseUrl cs i a).count) := by
  intro cs
  induction cs with
  | nil =>
      intro i j a b hp hd
      refine ⟨hp, ?_⟩
      rcases hd with ⟨rfl, rfl⟩ | hsat
      · exact Or.inl rfl
      · exact Or.inr hsat
  | cons c rest ih =>
      intro i j a b hp hd
      by_cases hN : a.count ≥ N
      · rw [imagesLoop_frozen N baseUrl (c :: rest) i a hN]
        exact ⟨pref_trans hp (imagesLoop_extends M baseUrl (c :: rest) j b).1,
          Or.inr hN⟩
      · rcases hd with ⟨rfl, rfl⟩ | hsat
        · have hM : ¬ a.count ≥ M := fun hc => hN (Nat.le_trans hNM hc)
          rw [imagesLoop, imagesLoop, if_neg hN, if_neg hM]
          by_cases h1 : attrStrD c.attrs "src" "" ≠ ""
          · rw [if_pos h1, if_pos h1]
            exact ih (i + 1) (i + 1) _ _ (pref_refl _) (Or.inl ⟨rfl, rfl⟩)
          · rw [if_neg h1, if_neg h1]
            exact ih i i a a (pref_refl _) (Or.inl ⟨rfl, rfl⟩)
        · exact absurd hsat hN

theorem spanIconsLoop_inv (N M : Nat) (hNM : N ≤ M) : ∀ (cs : List Ctx)
    (i j : Nat) (a b : ExtractState), Pref a b →
    ((a = b ∧ i = j) ∨ N ≤ a.count) →
    Pref (spanIconsLoop N cs i a).1 (spanIconsLoop M cs j b).1 ∧
    (spanIconsLoop N cs i a = spanIconsLoop M cs j b ∨
      N ≤ (spanIconsLoop N cs i a).1.count) := by
  intro cs
  induction cs with
  | nil =>
      intro i j a b hp hd
      refine ⟨hp, ?_⟩
      rcases hd with ⟨rfl, rfl⟩ | hsat
      · exact Or.inl rfl
      · exact Or.inr hsat
  | cons c rest ih =>
      intro i j a b hp hd
      by_cases hN : a.count ≥ N
      · rw [spanIconsLoop_frozen N (c :: rest) i a hN]
        exact ⟨pref_trans hp (spanIconsLoop_extends M (c :: rest) j b).1, Or.inr hN⟩
      · rcases hd with ⟨rfl, rfl⟩ | hsat
        · have hM : ¬ a.count ≥ M := fun hc => hN (Nat.le_trans hNM hc)
          rw [spanIconsLoop, spanIconsLoop, if_neg hN, if_neg hM]
          by_cases h1 : spanIconCond c = true
          · rw [if_pos h1, if_pos h1]
            exact ih (i + 1) (i + 1) _ _ (pref_refl _) (Or.inl ⟨rfl, rfl⟩)
          · rw [if_neg h1, if_neg h1]
            exact ih i i a a (pref_refl _) (Or.inl ⟨rfl, rfl⟩)
        · exact absurd hsat hN

theorem svgIconsLoop_inv (N M : Nat) (hNM : N ≤ M) : ∀ (cs : List Ctx)
    (i j : Nat) (a b : ExtractState), Pref a b →
    ((a = b ∧ i = j) ∨ N ≤ a.count) →
    Pref (svgIconsLoop N cs i a) (svgIconsLoop M cs j b) ∧
    (svgIconsLoop N cs i a = svgIconsLoop M cs j b ∨
      N ≤ (svgIconsLoop N cs i a).count) := by
  intro cs
  induction cs with
  | nil =>
      intro i j a b hp hd
      refine ⟨hp, ?_⟩
      rcases hd with ⟨rfl, rfl⟩ | hsat
      · exact Or.inl rfl
      · exact Or.inr hsat
  | cons c rest ih =>
      intro i j a b hp hd
      by_cases hN : a.count ≥ N
      · rw [svgIconsLoop_frozen N (c :: rest) i a hN]
        exact ⟨pref_trans hp (svgIconsLoop_extends M (c :: rest) j b).1, Or.inr hN⟩
      · rcases hd with ⟨rfl, rfl⟩ | hsat
        · have hM : ¬ a.count ≥ M := fun hc => hN (Nat.le_trans hNM hc)
          rw [svgIconsLoop, svgIconsLoop, if_neg hN, if_neg hM]
          by_cases h1 : svgIconCond c = true ∧ ¬ svgInsideInteractive c = true
          · rw [if_pos h1, if_pos h1]
            exact ih (i + 1) (i + 1) _ _ (pref_refl _) (Or.inl ⟨rfl, rfl⟩)
          · rw [if_neg h1, if_neg h1]
            exact ih i i a a (pref_refl _) (Or.inl ⟨rfl, rfl⟩)
        · exact absurd hsat hN

theorem formsLoop_inv (N M : Nat) (hNM : N ≤ M) : ∀ (cs : List Ctx)
    (i j : Nat) (a b : ExtractState), Pref a b →
    ((a = b ∧ i = j) ∨ N ≤ a.count) →
    Pref (formsLoop N cs i a) (formsLoop M cs j b) ∧
    (formsLoop N cs i a = formsLoop M cs j b ∨
      N ≤ (formsLoop N cs i a).count) := by
  intro cs
  induction cs with
  | nil =>
      intro i j a b hp hd
      refine ⟨hp, ?_⟩
      rcases hd with ⟨rfl, rfl⟩ | hsat
      · exact Or.inl rfl
      · exact Or.inr hsat
  | cons c rest ih =>
      intro i j a b hp hd
      by_cases hN : a.count ≥ N
      · rw [formsLoop_frozen N (c :: rest) i a hN]
        exact ⟨pref_trans hp (formsLoop_extends M (c :: rest) j b).1, Or.inr hN⟩
      · rcases hd with ⟨rfl, rfl⟩ | hsat
        · have hM : ¬ a.count ≥ M := fun hc => hN (Nat.le_trans hNM hc)
          rw [formsLoop, formsLoop, if_neg hN, if_neg hM]
          split
          · rename_i inputs submit hpc
            by_cases hin : inputs.isEmpty
            · rw [if_pos hin, if_pos hin]
              exact ih i i a a (pref_refl _) (Or.inl ⟨rfl, rfl⟩)
            · rw [if_neg hin, if_neg hin]
              exact ih (i + 1) (i + 1) _ _ (pref_refl _) (Or.inl ⟨rfl, rfl⟩)
          · exact ih i i a a (pref_refl _) (Or.inl ⟨rfl, rfl⟩)
        · exact absurd hsat hN

theorem semanticLoop_inv (N M : Nat) (soup : Node) (hNM : N ≤ M) :
    ∀ (ts : List String) (a b : ExtractState), Pref a b →
    (a = b ∨ N ≤ a.count) →
    Pref (semanticLoop N soup ts a) (semanticLoop M soup ts b) ∧
    (semanticLoop N soup ts a = semanticLoop M soup ts b ∨
      N ≤ (semanticLoop N soup ts a).count) := by
  intro ts
  induction ts with
  | nil =>
      intro a b hp hd
      refine ⟨hp, ?_⟩
      rcases hd with rfl | hsat
      · exact Or.inl rfl
      · exact Or.inr hsat
  | cons t rest ih =>
      intro a b hp hd
      by_cases hN : a.count ≥ N
      · rw [semanticLoop_frozen N soup (t :: rest) a hN]
        exact ⟨pref_trans hp (semanticLoop_extends M soup (t :: rest) b).1,
          Or.inr hN⟩
      · rcases hd with rfl | hsat
        · have hM : ¬ a.count ≥ M := fun hc => hN (Nat.le_trans hNM hc)
          rw [semanticLoop, semanticLoop, if_neg hN, if_neg hM]
          by_cases h1 : ((allCtxs soup).filter (fun c => c.tag = t)).length ≠ 0
          · rw [if_pos h1, if_pos h1]
            exact ih _ _ (pref_refl _) (Or.inl rfl)
          · rw [if_neg h1, if_neg h1]
            exact ih a a (pref_refl _) (Or.inl rfl)
        · exact absurd hsat hN

/-- The category chain run to the end (no early return): by the frozen
lemmas this is what every early return of the source equals, since a
saturated counter freezes all later loops. -/
def fullChain (input : HtmlInput) (baseUrl : String) (maxE : Nat) : ExtractState :=
  let soup : Node := .elem "[document]" [] (stripList input.dom)
  let cs := allCtxs soup
  let st := headingsLoop maxE (cs.filter (fun c => headingTags.contains c.tag)) 0 {}
  let st := paragraphsLoop maxE (cs.filter (fun c => c.tag = "p")) 0 st
  let st := linksLoop maxE
    (cs.filter (fun c => c.tag = "a" ∧ (c.attrs.lookup "href").isSome)) st
  let st := buttonsLoop maxE (cs.filter isButtonCandidate) 0 st
  let st := imagesLoop maxE baseUrl (cs.filter (fun c => c.tag = "img")) 0 st
  let p := spanIconsLoop maxE (cs.filter (fun c => c.tag = "i" ∨ c.tag = "span")) 0 st
  let st := svgIconsLoop maxE (cs.filter (fun c => c.tag = "svg")) p.2 p.1
  let st := formsLoop maxE (cs.filter (fun c => c.tag = "form")) 0 st
  semanticLoop maxE soup semanticTags st

theorem chainTail_forms (maxE : Nat) (soup : Node) (cs : List Ctx)
    (st : ExtractState) (h : maxE ≤ st.count) :
    semanticLoop maxE soup semanticTags
      (formsLoop maxE (cs.filter (fun c => c.tag = "form")) 0 st) = st := by
  rw [formsLoop_frozen maxE _ 0 st h, semanticLoop_frozen maxE soup _ st h]

theorem chainTail_svg (maxE : Nat) (soup : Node) (cs : List Ctx)
    (st : ExtractState) (h : maxE ≤ st.count) :
    semanticLoop maxE soup semanticTags
      (formsLoop maxE (cs.filter (fun c => c.tag = "form")) 0
        (svgIconsLoop maxE (cs.filter (fun c => c.tag = "svg"))
          (spanIconsLoop maxE (cs.filter (fun c => c.tag = "i" ∨ c.tag = "span")) 0 st).2
          (spanIconsLoop maxE (cs.filter (fun c => c.tag = "i" ∨ c.tag = "span")) 0 st).1)) =
      st := by
  rw [spanIconsLoop_frozen maxE _ 0 st h,
    show ((st, 0) : ExtractState × Nat).2 = 0 from rfl,
    show ((st, 0) : ExtractState × Nat).1 = st from rfl,
    svgIconsLoop_frozen maxE _ 0 st h]
  exact chainTail_forms maxE soup cs st h

theorem chainTail_images (maxE : Nat) (baseUrl : String) (soup : Node)
    (cs : List Ctx) (st : ExtractState) (h : maxE ≤ st.count) :
    semanticLoop maxE soup semanticTags
      (formsLoop maxE (cs.filter (fun c => c.tag = "form")) 0
        (svgIconsLoop maxE (cs.filter (fun c => c.tag = "svg"))
          (spanIconsLoop maxE (cs.filter (fun c => c.tag = "i" ∨ c.tag = "span")) 0
            (imagesLoop maxE baseUrl (cs.filter (fun c => c.tag = "img")) 0 st)).2
          (spanIconsLoop maxE (cs.filter (fun c => c.tag = "i" ∨ c.tag = "span")) 0
            (imagesLoop maxE baseUrl (cs.filter (fun c => c.tag = "img")) 0 st)).1)) =
      st := by
  rw [imagesLoop_frozen maxE baseUrl _ 0 st h]
  exact chainTail_svg maxE soup cs st h

theorem chainTail_buttons (maxE : Nat) (baseUrl : String) (soup : Node)
    (cs : List Ctx) (st : ExtractState) (h : maxE ≤ st.count) :
    semanticLoop maxE soup semanticTags
      (formsLoop maxE (cs.filter (fun c => c.tag = "form")) 0
        (svgIconsLoop maxE (cs.filter (fun c => c.tag = "svg"))
          (spanIconsLoop maxE (cs.filter (fun c => c.tag = "i" ∨ c.tag = "span")) 0
            (imagesLoop maxE baseUrl (cs.filter (fun c => c.tag = "img")) 0
              (buttonsLoop maxE (cs.filter isButtonCandidate) 0 st))).2
          (spanIconsLoop maxE (cs.filter (fun c => c.tag = "i" ∨ c.tag = "span")) 0
            (imagesLoop maxE baseUrl (cs.filter (fun c => c.tag = "img")) 0
              (buttonsLoop maxE (cs.filter isButtonCandidate) 0 st))).1)) = st := by
  rw [buttonsLoop_frozen maxE _ 0 st h]
  exact chainTail_images maxE baseUrl soup cs st h

theorem chainTail_links (maxE : Nat) (baseUrl : String) (soup : Node)
    (cs : List Ctx) (st : ExtractState) (h : maxE ≤ st.count) :
    semanticLoop maxE soup semanticTags
      (formsLoop maxE (cs.filter (fun c => c.tag = "form")) 0
        (svgIconsLoop maxE (cs.filter (fun c => c.tag = "svg"))
          (spanIconsLoop maxE (cs.filter (fun c => c.tag = "i" ∨ c.tag = "span")) 0
            (imagesLoop maxE baseUrl (cs.filter (fun c => c.tag = "img")) 0
              (buttonsLoop maxE (cs.filter isButtonCandidate) 0
                (linksLoop maxE
                  (cs.filter (fun c => c.tag = "a" ∧ (c.attrs.lookup "href").isSome))
                  st)))).2
          (spanIconsLoop maxE (cs.filter (fun c => c.tag = "i" ∨ c.tag = "span")) 0
            (imagesLoop maxE baseUrl (cs.filter (fun c => c.tag = "img")) 0
              (buttonsLoop maxE (cs.filter isButtonCandidate) 0
                (linksLoop maxE
                  (cs.filter (fun c => c.tag = "a" ∧ (c.attrs.lookup "href").isSome))
                  st)))).1)) = st := by
  rw [linksLoop_frozen maxE _ st h]
  exact chainTail_buttons maxE baseUrl soup cs st h

theorem parse_eq_full (input : HtmlInput) (baseUrl : String) (maxE : Nat)
    (herr : pyStartsWith input.raw "Error fetching URL" = false) :
    parse_html_for_elements input baseUrl maxE =
      assemble (fullChain input baseUrl maxE) := by
  simp only [parse_html_for_elements, fullChain, herr, Bool.false_eq_true, if_false]
  split
  · rename_i h
    rw [chainTail_links maxE baseUrl _ _ _ h]
  · split
    · rename_i h
      rw [chainTail_buttons maxE baseUrl _ _ _ h]
    · split
      · rename_i h
        rw [chainTail_images maxE baseUrl _ _ _ h]
      · split
        · rename_i h
          rw [chainTail_svg maxE _ _ _ h]
        · split
          · rename_i h
            rw [chainTail_forms maxE _ _ _ h]
          · split
            · rename_i h
              rw [semanticLoop_frozen maxE _ semanticTags _ h]
            · rfl

theorem eq_disj_conv {A B : ExtractState} {N i : Nat}
    (h : A = B ∨ N ≤ A.count) : ((A = B ∧ i = i) ∨ N ≤ A.count) :=
  h.elim (fun he => Or.inl ⟨he, rfl⟩) Or.inr

theorem pair_disj_conv {pN pM : ExtractState × Nat} {N : Nat}
    (h : pN = pM ∨ N ≤ pN.1.count) :
    ((pN.1 = pM.1 ∧ pN.2 = pM.2) ∨ N ≤ pN.1.count) :=
  h.elim (fun he => Or.inl ⟨congrArg Prod.fst he, congrArg Prod.snd he⟩) Or.inr

theorem fullChain_pref (input : HtmlInput) (baseUrl : String) (N M : Nat)
    (hNM : N ≤ M) : Pref (fullChain input baseUrl N) (fullChain input baseUrl M) := by
  simp only [fullChain]
  have i1 := headingsLoop_inv N M hNM
    ((allCtxs (Node.elem "[document]" [] (stripList input.dom))).filter
      (fun c => headingTags.contains c.tag)) 0 0 {} {} (pref_refl _)
    (Or.inl ⟨rfl, rfl⟩)
  have i2 := paragraphsLoop_inv N M hNM
    ((allCtxs (Node.elem "[document]" [] (stripList input.dom))).filter
      (fun c => c.tag = "p")) 0 0 _ _ i1.1 (eq_disj_conv i1.2)
  have i3 := linksLoop_inv N M hNM
    ((allCtxs (Node.elem "[document]" [] (stripList input.dom))).filter
      (fun c => c.tag = "a" ∧ (c.attrs.lookup "href").isSome)) _ _ i2.1 i2.2
  have i4 := buttonsLoop_inv N M hNM
    ((allCtxs (Node.elem "[document]" [] (stripList input.dom))).filter
      isButtonCandidate) 0 0 _ _ i3.1 (eq_disj_conv i3.2)
  have i5 := imagesLoop_inv N M baseUrl hNM
    ((allCtxs (Node.elem "[document]" [] (stripList input.dom))).filter
      (fun c => c.tag = "img")) 0 0 _ _ i4.1 (eq_disj_conv i4.2)
  have ip := spanIconsLoop_inv N M hNM
    ((allCtxs (Node.elem "[document]" [] (stripList input.dom))).filter
      (fun c => c.tag = "i" ∨ c.tag = "span")) 0 0 _ _ i5.1 (eq_disj_conv i5.2)
  have i6 := svgIconsLoop_inv N M hNM
    ((allCtxs (Node.elem "[document]" [] (stripList input.dom))).filter
      (fun c => c.tag = "svg")) _ _ _ _ ip.1 (pair_disj_conv ip.2)
  have i7 := formsLoop_inv N M hNM
    ((allCtxs (Node.elem "[document]" [] (stripList input.dom))).filter
      (fun c => c.tag = "form")) 0 0 _ _ i6.1 (eq_disj_conv i6.2)
  have i8 := semanticLoop_inv N M (Node.elem "[document]" [] (stripList input.dom))
    hNM semanticTags _ _ i7.1 i7.2
  exact i8.1

/-- The category list a state holds under each of the assembled keys. -/
def categoryOf (st : ExtractState) (k : String) : List JValue :=
  if k = "headings" then st.headings
  else if k = "paragraphs" then st.paragraphs
  else if k = "links" then st.links
  else if k = "buttons" then st.buttons
  else if k = "images_and_logos" then st.images_and_logos
  else if k = "icons" then st.icons
  else if k = "forms" then st.forms
  else if k = "semantic_elements" then st.semantic_elements
  else []

theorem lookup_filterMap_entry (k : String) (v : List JValue) :
    ∀ (pre post : List (String × List JValue)),
    (∀ p ∈ pre, p.1 ≠ k) → (∀ p ∈ post, p.1 ≠ k) →
    ((pre ++ (k, v) :: post).filterMap
      (fun p => if p.2.isEmpty then none else some (p.1, JValue.list p.2))).lookup k =
      if v.isEmpty then none else some (JValue.list v) := by
  intro pre
  induction pre with
  | nil =>
      intro post hpre hpost
      rw [List.nil_append, List.filterMap_cons]
      by_cases h : v.isEmpty
      · simp only [h, if_true]
        exact lookup_filterMap_ne post k hpost
      · simp only [h, Bool.false_eq_true, if_false]
        rw [List.lookup_cons]
        simp
  | cons p pre ih =>
      intro post hpre hpost
      have hne : (k == p.1) = false := by
        rw [beq_eq_false_iff_ne]
        exact fun hh => hpre p (List.mem_cons_self _ _) hh.symm
      rw [List.cons_append, List.filterMap_cons]
      by_cases h : p.2.isEmpty
      · simp only [h, if_true]
        exact ih post (fun q hq => hpre q (List.mem_cons_of_mem _ hq)) hpost
      · simp only [h, Bool.false_eq_true, if_false]
        rw [List.lookup_cons, hne]
        exact ih post (fun q hq => hpre q (List.mem_cons_of_mem _ hq)) hpost

theorem getCategory_of_entry (out : List (String × JValue)) (k : String)
    (v : List JValue) (h : out.lookup k = if v.isEmpty then none
      else some (JValue.list v)) : getCategory out k = v := by
  rw [getCategory, h]
  by_cases hv : v.isEmpty
  · rw [if_pos hv, List.isEmpty_iff.mp hv]
  · rw [if_neg hv]

theorem getCategory_assemble (st : ExtractState) (k : String) :
    getCategory (assemble st) k = categoryOf st k := by
  by_cases h1 : k = "headings"
  · subst h1
    rw [show categoryOf st "headings" = st.headings from rfl]
    exact getCategory_of_entry _ _ _ (lookup_filterMap_entry _ _ []
      [("paragraphs", st.paragraphs), ("links", st.links), ("buttons", st.buttons),
       ("inputs", []), ("images_and_logos", st.images_and_logos),
       ("icons", st.icons), ("forms", st.forms),
       ("semantic_elements", st.semantic_elements)]
      (by intro p hp; simp at hp) (by intro p hp; fin_cases hp <;> simp))
  by_cases h2 : k = "paragraphs"
  · subst h2
    rw [show categoryOf st "paragraphs" = st.paragraphs from rfl]
    exact getCategory_of_entry _ _ _ (lookup_filterMap_entry _ _
      [("headings", st.headings)]
      [("links", st.links), ("buttons", st.buttons),
       ("inputs", []), ("images_and_logos", st.images_and_logos),
       ("icons", st.icons), ("forms", st.forms),
       ("semantic_elements", st.semantic_elements)]
      (by intro p hp; fin_cases hp <;> simp) (by intro p hp; fin_cases hp <;> simp))
  by_cases h3 : k = "links"
  · subst h3
    rw [show categoryOf st "links" = st.links from rfl]
    exact getCategory_of_entry _ _ _ (lookup_filterMap_entry _ _
      [("headings", st.headings), ("paragraphs", st.paragraphs)]
      [("buttons", st.buttons),
       ("inputs", []), ("images_and_logos", st.images_and_logos),
       ("icons", st.icons), ("forms", st.forms),
       ("semantic_elements", st.semantic_elements)]
      (by intro p hp; fin_cases hp <;> simp) (by intro p hp; fin_cases hp <;> simp))
  by_cases h4 : k = "buttons"
  · subst h4
    rw [show categoryOf st "buttons" = st.buttons from rfl]
    exact getCategory_of_entry _ _ _ (lookup_filterMap_entry _ _
      [("headings", st.headings), ("paragraphs", st.paragraphs),
       ("links", st.links)]
      [("inputs", []), ("images_and_logos", st.images_and_logos),
       ("icons", st.icons), ("forms", st.forms),
       ("semantic_elements", st.semantic_elements)]
      (by intro p hp; fin_cases hp <;> simp) (by intro p hp; fin_cases hp <;> simp))
  by_cases h5 : k = "images_and_logos"
  · subst h5
    rw [show categoryOf st "images_and_logos" = st.images_and_logos from rfl]
    exact getCategory_of_entry _ _ _ (lookup_filterMap_entry _ _
      [("headings", st.headings), ("paragraphs", st.paragraphs),
       ("links", st.links), ("buttons", st.buttons), ("inputs", [])]
      [("icons", st.icons), ("forms", st.forms),
       ("semantic_elements", st.semantic_elements)]
      (by intro p hp; fin_cases hp <;> simp) (by intro p hp; fin_cases hp <;> simp))
  by_cases h6 : k = "icons"
  · subst h6
    rw [show categoryOf st "icons" = st.icons from rfl]
    exact getCategory_of_entry _ _ _ (lookup_filterMap_entry _ _
      [("headings", st.headings), ("paragraphs", st.paragraphs),
       ("links", st.links), ("buttons", st.buttons), ("inputs", []),
       ("images_and_logos", st.images_and_logos)]
      [("forms", st.forms), ("semantic_elements", st.semantic_elements)]
      (by intro p hp; fin_cases hp <;> simp) (by intro p hp; fin_cases hp <;> simp))
  by_cases h7 : k = "forms"
  · subst h7
    rw [show categoryOf st "forms" = st.forms from rfl]
    exact getCategory_of_entry _ _ _ (lookup_filterMap_entry _ _
      [("headings", st.headings), ("paragraphs", st.paragraphs),
       ("links", st.links), ("buttons", st.buttons), ("inputs", []),
       ("images_and_logos", st.images_and_logos), ("icons", st.icons)]
      [("semantic_elements", st.semantic_elements)]
      (by intro p hp; fin_cases hp <;> simp) (by intro p hp; fin_cases hp <;> simp))
  by_cases h8 : k = "semantic_elements"
  · subst h8
    rw [show categoryOf st "semantic_elements" = st.semantic_elements from rfl]
    exact getCategory_of_entry _ _ _ (lookup_filterMap_entry _ _
      [("headings", st.headings), ("paragraphs", st.paragraphs),
       ("links", st.links), ("buttons", st.buttons), ("inputs", []),
       ("images_and_logos", st.images_and_logos), ("icons", st.icons),
       ("forms", st.forms)] []
      (by intro p hp; fin_cases hp <;> simp) (by intro p hp; simp at hp))
  by_cases h9 : k = "inputs"
  · subst h9
    rw [show categoryOf st "inputs" = [] from rfl]
    exact getCategory_of_entry _ _ _ (lookup_filterMap_entry _ _
      [("headings", st.headings), ("paragraphs", st.paragraphs),
       ("links", st.links), ("buttons", st.buttons)]
      [("images_and_logos", st.images_and_logos), ("icons", st.icons),
       ("forms", st.forms), ("semantic_elements", st.semantic_elements)]
      (by intro p hp; fin_cases hp <;> simp) (by intro p hp; fin_cases hp <;> simp))
  · rw [categoryOf, if_neg h1, if_neg h2, if_neg h3, if_neg h4, if_neg h5,
      if_neg h6, if_neg h7, if_neg h8, getCategory, assemble,
      lookup_filterMap_ne _ _ (by
        intro p hp
        fin_cases hp <;> simp only [] <;>
          first
            | exact fun hc => h1 hc.symm
            | exact fun hc => h2 hc.symm
            | exact fun hc => h3 hc.symm
            | exact fun hc => h4 hc.symm
            | exact fun hc => h5 hc.symm
            | exact fun hc => h6 hc.symm
            | exact fun hc => h7 hc.symm
            | exact fun hc => h8 hc.symm
            | exact fun hc => h9 hc.symm)]

theorem categoryOf_pref {s t : ExtractState} (h : Pref s t) (k : String) :
    categoryOf s k <+: categoryOf t k := by
  rw [categoryOf, categoryOf]
  by_cases h1 : k = "headings"
  · simp only [h1, if_true]; exact h.1
  · simp only [h1, if_false]
    by_cases h2 : k = "paragraphs"
    · simp only [h2, if_true]; exact h.2.1
    · simp only [h2, if_false]
      by_cases h3 : k = "links"
      · simp only [h3, if_true]; exact h.2.2.1
      · simp only [h3, if_false]
        by_cases h4 : k = "buttons"
        · simp only [h4, if_true]; exact h.2.2.2.1
        · simp only [h4, if_false]
          by_cases h5 : k = "images_and_logos"
          · simp only [h5, if_true]; exact h.2.2.2.2.1
          · simp only [h5, if_false]
            by_cases h6 : k = "icons"
            · simp only [h6, if_true]; exact h.2.2.2.2.2.1
            · simp only [h6, if_false]
              by_cases h7 : k = "forms"
              · simp only [h7, if_true]; exact h.2.2.2.2.2.2.1
              · simp only [h7, if_false]
                by_cases h8 : k = "semantic_elements"
                · simp only [h8, if_true]; exact h.2.2.2.2.2.2.2
                · simp only [h8, if_false]; exact List.prefix_rfl

/-- C7: for every input and element budget N, the total number of
records `parse_html_for_elements` returns across all categories is at
most N; once the budget is reached extraction stops emitting while
preserving everything already collected in document order — under any
larger budget M every category of the budget-N output is an initial
segment of the budget-M output's category — and the cutoff returns
these partial results rather than an error: the output of a
non-sentinel input never carries an `error` entry. -/
theorem C7_budget_respect (input : HtmlInput) (baseUrl : String) (N M : Nat)
    (hNM : N ≤ M) :
    outTotal (parse_html_for_elements input baseUrl N) ≤ N ∧
    (∀ k, getCategory (parse_html_for_elements input baseUrl N) k <+:
      getCategory (parse_html_for_elements input baseUrl M) k) ∧
    (pyStartsWith input.raw "Error fetching URL" = false →
      (parse_html_for_elements input baseUrl N).lookup "error" = none) := by
  refine ⟨outTotal_parse_le input baseUrl N, ?_, ?_⟩
  · intro k
    by_cases herr : pyStartsWith input.raw "Error fetching URL" = true
    · rw [parse_html_for_elements, if_pos herr, parse_html_for_elements,
        if_pos herr]
    · rw [Bool.not_eq_true] at herr
      rw [parse_eq_full input baseUrl N herr, parse_eq_full input baseUrl M herr,
        getCategory_assemble, getCategory_assemble]
      exact categoryOf_pref (fullChain_pref input baseUrl N M hNM) k
  · intro herr
    rw [parse_eq_full input baseUrl N herr, assemble]
    exact lookup_filterMap_ne _ _ (by intro p hp; fin_cases hp <;> simp)

def wit7_input : HtmlInput :=
  ⟨"<html><body><h1>A</h1><p>0123456789abc</p></body></html>",
   [Node.elem "html" [] [Node.elem "body" []
     [Node.elem "h1" [] [Node.text "A"],
      Node.elem "p" [] [Node.text "0123456789abc"]]]]⟩

theorem C7_budget_respect_witness :
    (1 : Nat) ≤ 5000 ∧
    (outTotal (parse_html_for_elements wit7_input "https://x.com" 1) ≤ 1 ∧
     (∀ k, getCategory (parse_html_for_elements wit7_input "https://x.com" 1) k <+:
       getCategory (parse_html_for_elements wit7_input "https://x.com" 5000) k) ∧
     (pyStartsWith wit7_input.raw "Error fetching URL" = false →
       (parse_html_for_elements wit7_input "https://x.com" 1).lookup "error" =
         none)) :=
  ⟨by decide, C7_budget_respect wit7_input "https://x.com" 1 5000 (by decide)⟩
